import Mathlib

/-!
Verification of the IPAM reconciliation engine.

The embedding models the canonical variant of the engine: the
pool-name-aware `apply` / `compileCurrentAllocationsForPool` /
`generateNewAllocationsForPool` pipeline together with the range
allocator (`findFirstFreeRangesOfPool`) and the prefix allocator
(`findFirstFreeSubnetOfPool`, `checkPrefixAllocation`).

Addresses are fixed-width byte strings in the source; here an address
is a natural number together with its width in bits, and arithmetic
that can overflow is taken modulo `2 ^ bits`, mirroring the byte-wise
increment with carry of `incIP`.  String keys of the usage map are
modelled by an inductive key type: the rendering of an address and of
a subnet CIDR are injective on the values the engine compares, and an
address string is never equal to a CIDR string.
-/

namespace IPAM

/-- A CIDR as produced by `net.ParseCIDR`: the address width in bits
(32 for IPv4, 128 for IPv6), the raw address exactly as written in the
input string, and the prefix length.  `net.ParseCIDR` guarantees
`pfxLen ≤ bits` and `addr < 2 ^ bits` for parseable input; theorems
take these as hypotheses where they matter. -/
structure CIDR where
  bits : Nat
  addr : Nat
  pfxLen : Nat
deriving DecidableEq, Repr

/-- `ip.Mask(mask)` for a prefix of length `p` in a `bits`-wide space:
zero the low `bits - p` bits. -/
def maskAddr (bits p a : Nat) : Nat :=
  a / 2 ^ (bits - p) * 2 ^ (bits - p)

/-- The network address of a CIDR: its raw address masked to its
prefix length (`ipNet.IP` after `ParseCIDR`). -/
def CIDR.network (c : CIDR) : Nat :=
  maskAddr c.bits c.pfxLen c.addr

/-- Number of addresses covered by the CIDR's prefix. -/
def CIDR.size (c : CIDR) : Nat :=
  2 ^ (c.bits - c.pfxLen)

/-- `ipNet.Contains(ip)`: the candidate address masked with the
network's mask equals the network address.  `Contains` in the source
first aligns address families; an address of a different width is
never contained. -/
def CIDR.containsAddr (c : CIDR) (bits a : Nat) : Bool :=
  bits == c.bits && maskAddr c.bits c.pfxLen a == c.network

/-- `incIP(ip, 1)` as a value: byte-wise increment with carry, which
on a `w`-bit address is `+ 1` modulo `2 ^ w`. -/
def incIPVal (w a : Nat) : Nat :=
  (a + 1) % 2 ^ w

/-- `isTheNextIP(next, cur)`: `cur` incremented once equals `next`. -/
def isTheNextIP (w next cur : Nat) : Bool :=
  incIPVal w cur == next

/-- The addresses of a CIDR block in ascending order: the loop
`for ip := ip.Mask(ipNet.Mask); ipNet.Contains(ip); ip = incIP(ip)`
visits exactly the addresses `network + i` for `i < size` and then
stops — for a pool of nonzero prefix length the next address fails
`Contains` (`blockIPs_exit` below), so this list is the loop's exact
visit sequence.  For a `/0` pool every address is contained and
`incIP` wraps, so the Go loop never exits; theorems that assert
results computed from this enumeration therefore carry the hypothesis
`0 < pfxLen`. -/
def blockIPs (c : CIDR) : List Nat :=
  (List.range c.size).map (fun i => (c.network + i) % 2 ^ c.bits)

/-- A range string `"<first>-<last>"` with both endpoints parsed:
their common width and the two address values. -/
structure AddrRange where
  bits : Nat
  first : Nat
  last : Nat
deriving DecidableEq, Repr

/-- The addresses visited by
`for ip := firstIP; !ip.Equal(lastIP); ip = incIP(ip)` followed by the
final append of `lastIP`: stepping modulo `2 ^ w` from `first` until
`last` is reached (inclusive). -/
def rangeIPs (w first last : Nat) : List Nat :=
  (List.range ((last + 2 ^ w - first) % 2 ^ w + 1)).map
    (fun i => (first + i) % 2 ^ w)

/-- A string key of the per-datacenter usage map: either the rendering
of a single address or the rendering of a CIDR (`"<ip>/<len>"`).  The
renderings the engine ever compares are injective per constructor and
the two shapes are never equal as strings. -/
inductive UKey where
  | addr (bits val : Nat)
  | cidr (bits a p : Nat)
deriving DecidableEq, Repr

/-- Modelled from the spec: `datacenterIPAMPoolUsageMap` (its Go
definition is not in the sources; only its `isUsed`/`setUsed` callers
are).  Per the spec it is a per-(datacenter, pool) set of string keys
built fresh for one reconciliation call; with the pool fixed for the
whole call it is keyed by datacenter and key string. -/
abbrev DCUsage : Type := List (String × UKey)

/-- Modelled from the spec: membership test of the usage set. -/
def isUsed (m : DCUsage) (dc : String) (k : UKey) : Bool :=
  (List.contains m (dc, k) : Bool)

/-- Modelled from the spec: insertion into the usage set. -/
def setUsed (m : DCUsage) (dc : String) (k : UKey) : DCUsage :=
  (dc, k) :: m

/-- Error values surfaced by the engine.  `indexOutOfRange` stands for
the Go runtime panic raised by an out-of-bounds slice index. -/
inductive GoErr where
  | parseErr
  | incompatiblePool
  | noEnoughFreeIPs
  | invalidPfxForSubnet
  | cannotFindFreeSubnet
  | indexOutOfRange
deriving DecidableEq, Repr

deriving instance DecidableEq for Except

/-- A parsed single IP address: its width and value. -/
structure IPv where
  bits : Nat
  val : Nat
deriving DecidableEq, Repr

/-- `getUsedIPsFromAddressRanges`: expand every `"first-last"` range
string into the individual addresses, concatenated in range order. -/
def getUsedIPsFromAddressRanges (addressRanges : List AddrRange) : List IPv :=
  (addressRanges.map
    (fun r => (rangeIPs r.bits r.first r.last).map (fun v => IPv.mk r.bits v))).flatten

/-- `checkRangeAllocation`: the expanded address list must have length
exactly `allocationRange`, and every address must be contained in the
pool CIDR; otherwise `errIncompatiblePool`. -/
def checkRangeAllocation (ips : List IPv) (poolCIDR : CIDR)
    (allocationRange : Nat) : Except GoErr Unit :=
  if allocationRange ≠ ips.length then .error .incompatiblePool
  else if ips.all (fun ip => poolCIDR.containsAddr ip.bits ip.val) then .ok ()
  else .error .incompatiblePool

/-- `calculateRangeFreeIPsFromDatacenterPool`: every address of the
pool CIDR in ascending order, dropping those marked used for this
datacenter. -/
def calculateRangeFreeIPsFromDatacenterPool (dc : String) (poolCIDR : CIDR)
    (m : DCUsage) : List Nat :=
  (blockIPs poolCIDR).filter
    (fun v => !(isUsed m dc (UKey.addr poolCIDR.bits v)))

/-- The `for j := 0; j < allocationRange; j++` loop of
`findFirstFreeRangesOfPool`: `free` is the suffix of the free-IP slice
from the current iterator position, `first` the first address of the
range being built, `need` the remaining count.  Each taken address is
marked used; a range closes when the count is exhausted or the next
free address is not the arithmetic successor of the taken one.
`indexOutOfRange` mirrors the Go panic on an out-of-bounds slice
index; with `need` bounded by the slice length it is unreachable. -/
def rangesLoop (dc : String) (w : Nat) (first : Nat) (need : Nat)
    (free : List Nat) (m : DCUsage) (acc : List AddrRange) :
    Except GoErr (List AddrRange × DCUsage) :=
  match need, free with
  | 0, _ => .ok (acc, m)
  | _ + 1, [] => .error .indexOutOfRange
  | n + 1, ip :: rest =>
    let m' := setUsed m dc (UKey.addr w ip)
    if n = 0 then .ok (acc ++ [AddrRange.mk w first ip], m')
    else
      match rest with
      | [] => .error .indexOutOfRange
      | nxt :: _ =>
        if isTheNextIP w nxt ip then rangesLoop dc w first n rest m' acc
        else rangesLoop dc w nxt n rest m' (acc ++ [AddrRange.mk w first ip])

/-- `findFirstFreeRangesOfPool`: compute the free addresses of the
pool, fail with the capacity error when fewer than `allocationRange`
remain, otherwise take the first `allocationRange` free addresses,
mark each used, and coalesce them into `"first-last"` ranges.  The
read of `rangeFreeIPs[0]` before the loop panics when the free list is
empty (reachable only for `allocationRange = 0`). -/
def findFirstFreeRangesOfPool (dc : String) (poolCIDR : CIDR)
    (allocationRange : Nat) (m : DCUsage) :
    Except GoErr (List AddrRange × DCUsage) :=
  let rangeFreeIPs := calculateRangeFreeIPsFromDatacenterPool dc poolCIDR m
  if allocationRange > rangeFreeIPs.length then .error .noEnoughFreeIPs
  else
    match rangeFreeIPs with
    | [] => .error .indexOutOfRange
    | f0 :: _ =>
      rangesLoop dc poolCIDR.bits f0 allocationRange rangeFreeIPs m []

/-- `checkPrefixAllocation`: the existing allocation's CIDR string is
parsed (an empty or malformed string is a parse error); its prefix
length must equal `allocPfx` exactly and lie within the pool's
`[pfxLen, bits]`, and its raw address must be contained in the pool
CIDR; otherwise `errIncompatiblePool`. -/
def checkPrefixAllocation (subnetCIDR : Option CIDR) (poolCIDR : CIDR)
    (allocPfx : Nat) : Except GoErr Unit :=
  match subnetCIDR with
  | none => .error .parseErr
  | some subnet =>
    if allocPfx ≠ subnet.pfxLen then .error .incompatiblePool
    else if subnet.pfxLen < poolCIDR.pfxLen then .error .incompatiblePool
    else if subnet.pfxLen > poolCIDR.bits then .error .incompatiblePool
    else if poolCIDR.containsAddr subnet.bits subnet.addr then .ok ()
    else .error .incompatiblePool

/-- Modelled from the spec: `nextSubnet` (its Go definition is not in
the sources).  Per the spec, enumeration of successive same-length
subnets advances by the stride `2 ^ (bits - pfxLen)` from the current
subnet's network address, wrapping within the fixed address width. -/
def nextSubnet (c : CIDR) (p : Nat) : CIDR :=
  CIDR.mk c.bits ((c.network + 2 ^ (c.bits - p)) % 2 ^ c.bits) p

/-- The candidate-subnet loop of `findFirstFreeSubnetOfPool`: while
the candidate's network address is contained in the pool, return (and
mark used) the first candidate whose canonical string is not marked
used, else advance to the next subnet.  The fuel bounds the iteration;
callers pass one more than the number of candidate subnets that fit in
the pool, which for a pool of nonzero prefix length is enough for the
loop to exit by the containment test (`candAt_exit` below).  For a
`/0` pool whose candidates are all used, `nextSubnet` wraps back to
the first candidate and the Go loop never terminates; the
fuel-exhaustion arm's `cannotFindFreeSubnet` is then a modelling
artifact, so theorems about the all-candidates-used error carry the
hypothesis `0 < pfxLen`. -/
def subnetSearch (dc : String) (pool : CIDR) (m : DCUsage) :
    Nat → CIDR → Except GoErr (CIDR × DCUsage)
  | 0, _ => .error .cannotFindFreeSubnet
  | fuel + 1, cand =>
    if pool.containsAddr cand.bits cand.addr then
      if isUsed m dc (UKey.cidr cand.bits cand.addr cand.pfxLen) then
        subnetSearch dc pool m fuel (nextSubnet cand cand.pfxLen)
      else
        .ok (cand, setUsed m dc (UKey.cidr cand.bits cand.addr cand.pfxLen))
    else .error .cannotFindFreeSubnet

/-- `findFirstFreeSubnetOfPool`: reject a requested prefix length
outside `[poolPfxLen, bits]`, then scan candidate subnets of that
length from the pool's masked network address in ascending order and
return the first free one, marking it used.  Exhausting the pool fails
with `cannotFindFreeSubnet`. -/
def findFirstFreeSubnetOfPool (dc : String) (pool : CIDR) (subnetPfx : Nat)
    (m : DCUsage) : Except GoErr (CIDR × DCUsage) :=
  if subnetPfx < pool.pfxLen then .error .invalidPfxForSubnet
  else if subnetPfx > pool.bits then .error .invalidPfxForSubnet
  else
    subnetSearch dc pool m (2 ^ (subnetPfx - pool.pfxLen) + 1)
      (CIDR.mk pool.bits (maskAddr pool.bits subnetPfx pool.network) subnetPfx)

/-- `IPAMPoolDatacenterSettings`.  The CIDR is structured (a malformed
pool CIDR string is outside this model); both the range count and the
allocation prefix length are present, with only the one matching
`type` meaningful. -/
structure IPAMPoolDatacenterSettings where
  type : String
  poolCIDR : CIDR
  allocPfx : Nat
  allocRange : Nat
deriving DecidableEq, Repr

/-- `IPAMAllocation`: an allocation record attached to a cluster.  The
`cidr` field is `none` when the Go string field is empty; `addresses`
holds the parsed `"first-last"` range strings. -/
structure IPAMAllocation where
  ipamPoolName : String
  cluster : String
  datacenter : String
  type : String
  cidr : Option CIDR
  addresses : List AddrRange
deriving DecidableEq, Repr

/-- `Cluster`: a named cluster with its ordered allocation list. -/
structure Cluster where
  name : String
  ipamAllocations : List IPAMAllocation
deriving DecidableEq, Repr

/-- `IPAMPool`: the pool spec.  The Go `Datacenters` map is an
association list; the engine only ever looks it up by key
(`List.lookup`, first match). -/
structure IPAMPool where
  name : String
  datacenters : List (String × IPAMPoolDatacenterSettings)
deriving DecidableEq, Repr

/-- The datacenter allocation table `map[string][]Cluster` as an
association list.  A Go map has distinct keys; theorems that need this
take `(t.map Prod.fst).Nodup` as a hypothesis.  Go map iteration order
is unspecified: the engine functions below that iterate the map take
the entry sequence explicitly, and `apply` instantiates it with the
list itself. -/
abbrev Table : Type := List (String × List Cluster)

/-- Replay of one existing allocation record inside
`compileCurrentAllocationsForPool`: skipped when its datacenter is not
configured in the spec or its pool name differs; a `range` record is
expanded, compatibility-checked and its addresses marked used; a
`prefix` record is compatibility-checked and its raw CIDR string
marked used as a single key; any other type is skipped. -/
def replayAllocation (p : IPAMPool) (m : DCUsage) (a : IPAMAllocation) :
    Except GoErr DCUsage :=
  match p.datacenters.lookup a.datacenter with
  | none => .ok m
  | some cfg =>
    if a.ipamPoolName = p.name then
      if a.type = "range" then
        let ips := getUsedIPsFromAddressRanges a.addresses
        match checkRangeAllocation ips cfg.poolCIDR cfg.allocRange with
        | .error e => .error e
        | .ok _ =>
          .ok (ips.foldl
            (fun acc ip => setUsed acc a.datacenter (UKey.addr ip.bits ip.val)) m)
      else if a.type = "prefix" then
        match checkPrefixAllocation a.cidr cfg.poolCIDR cfg.allocPfx with
        | .error e => .error e
        | .ok _ =>
          match a.cidr with
          | none => .ok m
          | some c => .ok (setUsed m a.datacenter (UKey.cidr c.bits c.addr c.pfxLen))
      else .ok m
    else .ok m

/-- Replay of a list of allocation records, in list order. -/
def replayAllocs (p : IPAMPool) (m : DCUsage) :
    List IPAMAllocation → Except GoErr DCUsage
  | [] => .ok m
  | a :: as =>
    match replayAllocation p m a with
    | .error e => .error e
    | .ok m' => replayAllocs p m' as

/-- Replay of all clusters of one table entry, in list order. -/
def replayClusters (p : IPAMPool) (m : DCUsage) :
    List Cluster → Except GoErr DCUsage
  | [] => .ok m
  | c :: cs =>
    match replayAllocs p m c.ipamAllocations with
    | .error e => .error e
    | .ok m' => replayClusters p m' cs

/-- The body of `compileCurrentAllocationsForPool` starting from a
given usage map, over an explicit sequence of table entries. -/
def compileFrom (p : IPAMPool) (m : DCUsage) :
    List (String × List Cluster) → Except GoErr DCUsage
  | [] => .ok m
  | e :: es =>
    match replayClusters p m e.2 with
    | .error er => .error er
    | .ok m' => compileFrom p m' es

/-- `compileCurrentAllocationsForPool` over an explicit sequence of
table entries (one Go map iteration): build the usage map from every
existing compatible allocation of this pool, aborting on the first
incompatible or unparseable record. -/
def compileEntries (p : IPAMPool) (entries : List (String × List Cluster)) :
    Except GoErr DCUsage :=
  compileFrom p [] entries

/-- Whether the cluster already holds an allocation under this pool
name. -/
def clusterHasPool (poolName : String) (c : Cluster) : Bool :=
  c.ipamAllocations.any (fun a => a.ipamPoolName == poolName)

/-- Generation step for one cluster of a configured datacenter inside
`generateNewAllocationsForPool`: skip the cluster when it already
holds an allocation of this pool, otherwise build the new record via
the allocator selected by the configured type (an unrecognized type
yields a record with no addresses and no CIDR). -/
def genCluster (p : IPAMPool) (dc : String) (cfg : IPAMPoolDatacenterSettings)
    (m : DCUsage) (c : Cluster) :
    Except GoErr (Option IPAMAllocation × DCUsage) :=
  if clusterHasPool p.name c then .ok (none, m)
  else if cfg.type = "range" then
    match findFirstFreeRangesOfPool dc cfg.poolCIDR cfg.allocRange m with
    | .error e => .error e
    | .ok (addresses, m') =>
      .ok (some (IPAMAllocation.mk p.name c.name dc cfg.type none addresses), m')
  else if cfg.type = "prefix" then
    match findFirstFreeSubnetOfPool dc cfg.poolCIDR cfg.allocPfx m with
    | .error e => .error e
    | .ok (subnetCIDR, m') =>
      .ok (some (IPAMAllocation.mk p.name c.name dc cfg.type (some subnetCIDR) []), m')
  else .ok (some (IPAMAllocation.mk p.name c.name dc cfg.type none []), m)

/-- Generation over the clusters of one datacenter, in list order,
threading the usage map and collecting the new records. -/
def genClusters (p : IPAMPool) (dc : String)
    (cfg : IPAMPoolDatacenterSettings) (m : DCUsage) :
    List Cluster → Except GoErr (List IPAMAllocation × DCUsage)
  | [] => .ok ([], m)
  | c :: cs =>
    match genCluster p dc cfg m c with
    | .error e => .error e
    | .ok (none, m') => genClusters p dc cfg m' cs
    | .ok (some a, m') =>
      match genClusters p dc cfg m' cs with
      | .error e => .error e
      | .ok (as, m'') => .ok (a :: as, m'')

/-- Generation for one table entry: clusters of a datacenter not
configured in the spec are all skipped. -/
def genEntry (p : IPAMPool) (m : DCUsage) (e : String × List Cluster) :
    Except GoErr (List IPAMAllocation × DCUsage) :=
  match p.datacenters.lookup e.1 with
  | none => .ok ([], m)
  | some cfg => genClusters p e.1 cfg m e.2

/-- `generateNewAllocationsForPool` over an explicit sequence of table
entries (one Go map iteration): collect the new allocation records of
every datacenter, aborting the whole call on the first allocator
error. -/
def generateNewAllocationsForPool (p : IPAMPool) (m : DCUsage) :
    List (String × List Cluster) → Except GoErr (List IPAMAllocation × DCUsage)
  | [] => .ok ([], m)
  | e :: es =>
    match genEntry p m e with
    | .error er => .error er
    | .ok (as, m') =>
      match generateNewAllocationsForPool p m' es with
      | .error er => .error er
      | .ok (as', m'') => .ok (as ++ as', m'')

/-- Append a record to the first cluster of the list bearing the
record's cluster name (the `break` after the first match). -/
def appendToFirstMatch (name : String) (a : IPAMAllocation) :
    List Cluster → List Cluster
  | [] => []
  | c :: cs =>
    if c.name = name then
      Cluster.mk c.name (c.ipamAllocations ++ [a]) :: cs
    else c :: appendToFirstMatch name a cs

/-- Update the table entry bearing the given datacenter key (a Go map
holds one entry per key; on the association list the first match is
the one `List.lookup` reads). -/
def updateDC (t : Table) (dc : String) (f : List Cluster → List Cluster) :
    Table :=
  match t with
  | [] => []
  | (d, cs) :: rest =>
    if d = dc then (d, f cs) :: rest else (d, cs) :: updateDC rest dc f

/-- The commit loop of `apply`: append every new record to the cluster
it names inside its datacenter's entry.  A record naming a datacenter
or cluster absent from the table is silently dropped, as in the
source. -/
def commitAllocations (t : Table) (as : List IPAMAllocation) : Table :=
  as.foldl (fun acc a => updateDC acc a.datacenter (appendToFirstMatch a.cluster a)) t

/-- `apply` with the two Go map iterations (the replay pass and the
generation pass) taken as explicit entry sequences: compile the usage
map from existing allocations, generate the new allocations, and only
then commit them to the table.  Any error leaves the table as
received. -/
def applyOrd (e1 e2 : List (String × List Cluster)) (t : Table)
    (p : IPAMPool) : Table × Option GoErr :=
  match compileEntries p e1 with
  | .error e => (t, some e)
  | .ok m =>
    match generateNewAllocationsForPool p m e2 with
    | .error e => (t, some e)
    | .ok (newAllocs, _) => (commitAllocations t newAllocs, none)

/-- `apply`: both map iterations taken in the table's own entry
order. -/
def apply (t : Table) (p : IPAMPool) : Table × Option GoErr :=
  applyOrd t t t p

/-! ### Specification-side definitions

Definitions below restate, in the spec's words, the shapes that the
engine's outputs are claimed to have; they are compared with the
engine's own computations in the theorems. -/

/-- The records the spec expects a generation pass to produce for
datacenters whose configured type is neither `"range"` nor `"prefix"`:
one record per not-yet-allocated cluster of each configured
datacenter, carrying the configured type, no addresses, and no
CIDR. -/
def skeletonRecords (t : Table) (p : IPAMPool) : List IPAMAllocation :=
  (t.map (fun e =>
    match p.datacenters.lookup e.1 with
    | none => []
    | some cfg =>
      (e.2.filter (fun c => !(clusterHasPool p.name c))).map
        (fun c => IPAMAllocation.mk p.name c.name e.1 cfg.type none []))).flatten

/-- The usage-map key of a subnet: the canonical rendering
`"<network>/<len>"` compared by the engine. -/
abbrev cidrKey (c : CIDR) : UKey :=
  UKey.cidr c.bits c.addr c.pfxLen

/-- The `k`-th candidate subnet of the spec's enumeration: the pool's
network address advanced by `k` strides of `2 ^ (bits - sp)`, wrapping
within the address width. -/
def candAt (pool : CIDR) (sp k : Nat) : CIDR :=
  CIDR.mk pool.bits ((pool.network + k * 2 ^ (pool.bits - sp)) % 2 ^ pool.bits) sp

/-- The spec's candidate enumeration for the prefix allocator: the
subnets of length `sp` at stride `2 ^ (bits - sp)` from the pool's
masked network address, in ascending order, while contained in the
pool CIDR — there are `2 ^ (sp - poolPfxLen)` of them. -/
def specCandidates (pool : CIDR) (sp : Nat) : List CIDR :=
  (List.range (2 ^ (sp - pool.pfxLen))).map (candAt pool sp)

/-- Helper of `specRuns`: collect the current run `(first, cur)` and
split whenever the next taken address is not the arithmetic successor
of the current one. -/
def specRunsGo (w first cur : Nat) : List Nat → List (Nat × Nat)
  | [] => [(first, cur)]
  | b :: rest =>
    if b = incIPVal w cur then specRunsGo w first b rest
    else (first, cur) :: specRunsGo w b b rest

/-- The spec's minimal partition of a taken address list into maximal
contiguous runs, each written as a `(first, last)` pair: a run closes
exactly when the next taken address is not the arithmetic successor of
the current one (a single address yields the pair `(ip, ip)`). -/
def specRuns (w : Nat) : List Nat → List (Nat × Nat)
  | [] => []
  | a :: rest => specRunsGo w a a rest

/-- A record replays cleanly: from any usage map, the replay pass
accepts it (its compatibility check passes or it is skipped). -/
def replayPasses (p : IPAMPool) (a : IPAMAllocation) : Prop :=
  ∀ m : DCUsage, ∃ m', replayAllocation p m a = .ok m'

/-- A table entry needs nothing from a generation pass: its datacenter
is not configured in the spec, or every one of its clusters already
holds an allocation under the pool name. -/
def entryCovered (p : IPAMPool) (e : String × List Cluster) : Prop :=
  p.datacenters.lookup e.1 = none ∨
    ∀ c ∈ e.2, clusterHasPool p.name c = true

/-- The effect of the commit loop on one datacenter's cluster list:
append each record, in order, to the first cluster bearing its
name. -/
def commitFold (recs : List IPAMAllocation) (cs : List Cluster) : List Cluster :=
  recs.foldl (fun acc a => appendToFirstMatch a.cluster a acc) cs

/-- The address set an allocation record stands for in the claims:
for a `range` record the expansion of its range strings, for a
`prefix` record every address of its subnet (at the record's width);
a record of any other type stands for no addresses. -/
def allocAddrs (a : IPAMAllocation) : List IPv :=
  if a.type = "range" then getUsedIPsFromAddressRanges a.addresses
  else if a.type = "prefix" then
    match a.cidr with
    | none => []
    | some c => (blockIPs c).map (fun v => IPv.mk c.bits v)
  else []

/-- The usage-map entries the replay pass adds for one record: the
expanded addresses of a `range` record (most recently marked first),
or the raw CIDR key of a `prefix` record; nothing for a skipped
record. -/
def marksOf (p : IPAMPool) (a : IPAMAllocation) : DCUsage :=
  match p.datacenters.lookup a.datacenter with
  | none => []
  | some _ =>
    if a.ipamPoolName = p.name then
      if a.type = "range" then
        (getUsedIPsFromAddressRanges a.addresses).reverse.map
          (fun ip => (a.datacenter, UKey.addr ip.bits ip.val))
      else if a.type = "prefix" then
        match a.cidr with
        | none => []
        | some c => [(a.datacenter, UKey.cidr c.bits c.addr c.pfxLen)]
      else []
    else []

/-! ### Concrete fixtures

Small concrete tables and pool specs used by witnesses and
counterexamples.  Addresses are 32-bit IPv4 values;
`3232235776 = 192.168.1.0` and `3232235520 = 192.168.0.0`. -/

/-- 192.168.1.0 as a 32-bit value. -/
def net1 : Nat := 3232235776

/-- 192.168.0.0 as a 32-bit value. -/
def net0 : Nat := 3232235520

/-- Two empty clusters in one datacenter. -/
def tPair : Table := [("dc1", [Cluster.mk "c1" [], Cluster.mk "c2" []])]

/-- A range pool asking each of two clusters for 2 addresses out of a
single-address pool CIDR `192.168.1.0/32`: the first allocation
already exceeds capacity. -/
def pOverCap : IPAMPool :=
  IPAMPool.mk "pool1" [("dc1", IPAMPoolDatacenterSettings.mk "range" (CIDR.mk 32 net1 32) 0 2)]

/-- A table with a single empty cluster. -/
def tOne : Table := [("dc1", [Cluster.mk "c1" []])]

/-- A pool spec naming only the datacenter `dc2`, absent from
`tOne`. -/
def pUnknownDC : IPAMPool :=
  IPAMPool.mk "pool1" [("dc2", IPAMPoolDatacenterSettings.mk "range" (CIDR.mk 32 net1 28) 0 8)]

/-- A pool spec for `dc1` whose configured type is the unrecognized
string `"weird"`. -/
def pWeirdType : IPAMPool :=
  IPAMPool.mk "pool1" [("dc1", IPAMPoolDatacenterSettings.mk "weird" (CIDR.mk 32 net1 28) 0 8)]

/-- Two overlapping range strings (`192.168.1.1-192.168.1.2` and
`192.168.1.2-192.168.1.2`): the expanded address list has three
entries but only two distinct addresses. -/
def rsDup : List AddrRange :=
  [AddrRange.mk 32 (net1 + 1) (net1 + 2), AddrRange.mk 32 (net1 + 2) (net1 + 2)]

/-- A range pool CIDR `192.168.1.0/30` (4 addresses). -/
def poolR : CIDR := CIDR.mk 32 net1 30

/-- A usage map with the single address `192.168.1.1` marked used in
`dc1`, so the free list of `poolR` has a hole in the middle. -/
def mR : DCUsage := [("dc1", UKey.addr 32 (net1 + 1))]

/-- The free addresses of `poolR` under `mR`:
`[192.168.1.0, 192.168.1.2, 192.168.1.3]`. -/
def freeR : List Nat := calculateRangeFreeIPsFromDatacenterPool "dc1" poolR mR

/-- A usage map with the single address of the pool `192.168.1.0/32`
marked used, leaving no free address. -/
def mPanic : DCUsage := [("dc1", UKey.addr 32 net1)]

/-- A table whose single datacenter holds two clusters sharing the
name `"A"`. -/
def tDup : Table := [("dc1", [Cluster.mk "A" [], Cluster.mk "A" []])]

/-- A range pool asking one address per cluster from
`192.168.1.0/30`. -/
def pDup : IPAMPool :=
  IPAMPool.mk "p" [("dc1", IPAMPoolDatacenterSettings.mk "range" (CIDR.mk 32 net1 30) 0 1)]

/-- A well-formed range pool: 8 addresses per cluster from
`192.168.1.0/28`. -/
def pRangeOk : IPAMPool :=
  IPAMPool.mk "pool1" [("dc1", IPAMPoolDatacenterSettings.mk "range" (CIDR.mk 32 net1 28) 0 8)]

/-- 10.0.0.0 as a 32-bit value. -/
def netA : Nat := 167772160

/-- The parseable pool `0.0.0.0/0`: its block is the whole 32-bit
address space. -/
def pool0 : CIDR := CIDR.mk 32 0 0

/-- The first `/1` candidate subnet of `pool0`: `0.0.0.0/1`. -/
def candLo : CIDR := CIDR.mk 32 0 1

/-- The second `/1` candidate subnet of `pool0`: `128.0.0.0/1`. -/
def candHi : CIDR := CIDR.mk 32 2147483648 1

/-- A usage map with both `/1` subnets of `pool0` marked used. -/
def mAll : DCUsage :=
  [("dc1", UKey.cidr 32 0 1), ("dc1", UKey.cidr 32 2147483648 1)]

/-- Two datacenters with one empty cluster each. -/
def tTwo : Table :=
  [("dcA", [Cluster.mk "u" []]), ("dcB", [Cluster.mk "v" []])]

/-- The entries of `tTwo` in the opposite iteration order. -/
def tTwoRev : Table :=
  [("dcB", [Cluster.mk "v" []]), ("dcA", [Cluster.mk "u" []])]

/-- A range pool configuring both datacenters of `tTwo` with disjoint
pool CIDRs. -/
def pTwo : IPAMPool :=
  IPAMPool.mk "p2"
    [("dcA", IPAMPoolDatacenterSettings.mk "range" (CIDR.mk 32 net1 30) 0 1),
     ("dcB", IPAMPoolDatacenterSettings.mk "range" (CIDR.mk 32 net0 30) 0 1)]

/-- The CIDR `10.0.0.5/24`, written with a non-canonical (unmasked)
address: its network is `10.0.0.0`. -/
def cNonCanon : CIDR := CIDR.mk 32 (netA + 5) 24

/-- A table whose cluster `A` already holds a prefix allocation of
pool `p` recorded under the non-canonical string `10.0.0.5/24`, next
to an empty cluster `B`. -/
def tC5 : Table :=
  [("dc1", [Cluster.mk "A" [IPAMAllocation.mk "p" "A" "dc1" "prefix" (some cNonCanon) []],
            Cluster.mk "B" []])]

/-- A prefix pool `10.0.0.0/16` handing out `/24` subnets. -/
def pC5 : IPAMPool :=
  IPAMPool.mk "p" [("dc1", IPAMPoolDatacenterSettings.mk "prefix" (CIDR.mk 32 netA 16) 24 0)]

/-- Like `tC5` but with the existing allocation written canonically as
`10.0.1.0/24`. -/
def tC5W : Table :=
  [("dc1", [Cluster.mk "A" [IPAMAllocation.mk "p" "A" "dc1" "prefix"
              (some (CIDR.mk 32 (netA + 256) 24)) []],
            Cluster.mk "B" []])]

/-- The usage map compiled from `tC5W` under `pC5`. -/
def m0W : DCUsage := [("dc1", UKey.cidr 32 (netA + 256) 24)]

/-- The single record a generation pass over `tC5W` produces: cluster
`B` receives `10.0.0.0/24`. -/
def recsW : List IPAMAllocation :=
  [IPAMAllocation.mk "p" "B" "dc1" "prefix" (some (CIDR.mk 32 netA 24)) []]

/-- The usage map after that generation pass. -/
def mfW : DCUsage :=
  [("dc1", UKey.cidr 32 netA 24), ("dc1", UKey.cidr 32 (netA + 256) 24)]

/-! ### Supporting lemmas -/

theorem replayAllocs_unconfigured (p : IPAMPool) (m : DCUsage)
    (as : List IPAMAllocation)
    (h : ∀ a ∈ as, p.datacenters.lookup a.datacenter = none) :
    replayAllocs p m as = .ok m := by
  induction as generalizing m with
  | nil => rfl
  | cons a as ih =>
    have ha := h a (by simp)
    simp only [replayAllocs, replayAllocation, ha]
    exact ih m (fun a' h' => h a' (by simp [h']))

theorem replayClusters_unconfigured (p : IPAMPool) (m : DCUsage)
    (cs : List Cluster)
    (h : ∀ c ∈ cs, ∀ a ∈ c.ipamAllocations, p.datacenters.lookup a.datacenter = none) :
    replayClusters p m cs = .ok m := by
  induction cs generalizing m with
  | nil => rfl
  | cons c cs ih =>
    simp only [replayClusters, replayAllocs_unconfigured p m c.ipamAllocations
      (h c (by simp))]
    exact ih m (fun c' h' => h c' (by simp [h']))

theorem compileFrom_unconfigured (p : IPAMPool) (m : DCUsage)
    (es : List (String × List Cluster))
    (h : ∀ e ∈ es, ∀ c ∈ e.2, ∀ a ∈ c.ipamAllocations,
      p.datacenters.lookup a.datacenter = none) :
    compileFrom p m es = .ok m := by
  induction es generalizing m with
  | nil => rfl
  | cons e es ih =>
    simp only [compileFrom, replayClusters_unconfigured p m e.2 (h e (by simp))]
    exact ih m (fun e' h' => h e' (by simp [h']))

theorem generate_unconfigured (p : IPAMPool) (m : DCUsage)
    (es : List (String × List Cluster))
    (h : ∀ e ∈ es, p.datacenters.lookup e.1 = none) :
    generateNewAllocationsForPool p m es = .ok ([], m) := by
  induction es generalizing m with
  | nil => rfl
  | cons e es ih =>
    simp only [generateNewAllocationsForPool, genEntry, h e (by simp)]
    simp [ih m (fun e' h' => h e' (by simp [h']))]

theorem maskAddr_mask (w p q a : Nat) (hpq : p ≤ q) (hq : q ≤ w) :
    maskAddr w p (maskAddr w q a) = maskAddr w p a := by
  unfold maskAddr
  have h1 : 2 ^ (w - p) = 2 ^ (w - q) * 2 ^ (q - p) := by
    rw [← pow_add]
    congr 1
    omega
  rw [h1]
  congr 1
  rw [← Nat.div_div_eq_div_mul, ← Nat.div_div_eq_div_mul,
    Nat.mul_div_cancel _ (Nat.pos_pow_of_pos _ (by norm_num))]

theorem maskAddr_le (w p a : Nat) : maskAddr w p a ≤ a :=
  Nat.div_mul_le_self a _

theorem maskAddr_dvd (w p a : Nat) : 2 ^ (w - p) ∣ maskAddr w p a :=
  ⟨a / 2 ^ (w - p), Nat.mul_comm (a / 2 ^ (w - p)) (2 ^ (w - p))⟩

theorem maskAddr_eq_of_dvd (w p a : Nat) (h : 2 ^ (w - p) ∣ a) :
    maskAddr w p a = a := by
  obtain ⟨q, rfl⟩ := h
  unfold maskAddr
  rw [Nat.mul_div_cancel_left q (Nat.pos_pow_of_pos _ (by norm_num)), Nat.mul_comm]

theorem network_lt (pool : CIDR) (hpa : pool.addr < 2 ^ pool.bits) :
    pool.network < 2 ^ pool.bits :=
  lt_of_le_of_lt (maskAddr_le _ _ _) hpa

theorem network_dvd (pool : CIDR) :
    2 ^ (pool.bits - pool.pfxLen) ∣ pool.network :=
  maskAddr_dvd _ _ _

theorem stride_dvd_block (pool : CIDR) (sp : Nat) (hsp1 : pool.pfxLen ≤ sp) :
    2 ^ (pool.bits - sp) ∣ 2 ^ (pool.bits - pool.pfxLen) :=
  pow_dvd_pow 2 (by omega)

theorem count_mul_stride (pool : CIDR) (sp : Nat) (hsp1 : pool.pfxLen ≤ sp)
    (hsp2 : sp ≤ pool.bits) :
    2 ^ (sp - pool.pfxLen) * 2 ^ (pool.bits - sp) =
      2 ^ (pool.bits - pool.pfxLen) := by
  rw [← pow_add]
  congr 1
  omega

theorem network_add_block_le (pool : CIDR) (hpb : pool.pfxLen ≤ pool.bits)
    (hpa : pool.addr < 2 ^ pool.bits) :
    pool.network + 2 ^ (pool.bits - pool.pfxLen) ≤ 2 ^ pool.bits := by
  obtain ⟨q, hq⟩ := network_dvd pool
  have hS : 0 < 2 ^ (pool.bits - pool.pfxLen) := Nat.pos_pow_of_pos _ (by norm_num)
  have hlt : pool.network < 2 ^ pool.bits := network_lt pool hpa
  have hsplit : 2 ^ pool.bits =
      2 ^ (pool.bits - pool.pfxLen) * 2 ^ pool.pfxLen := by
    rw [← pow_add]
    congr 1
    omega
  rw [hq] at hlt ⊢
  rw [hsplit] at hlt ⊢
  have hqlt : q < 2 ^ pool.pfxLen := Nat.lt_of_mul_lt_mul_left hlt
  calc 2 ^ (pool.bits - pool.pfxLen) * q + 2 ^ (pool.bits - pool.pfxLen)
      = 2 ^ (pool.bits - pool.pfxLen) * (q + 1) := by ring
    _ ≤ 2 ^ (pool.bits - pool.pfxLen) * 2 ^ pool.pfxLen :=
        Nat.mul_le_mul_left _ (by omega)

theorem stride_mul_lt (pool : CIDR) (sp k : Nat) (hsp1 : pool.pfxLen ≤ sp)
    (hsp2 : sp ≤ pool.bits) (hk : k < 2 ^ (sp - pool.pfxLen)) :
    k * 2 ^ (pool.bits - sp) < 2 ^ (pool.bits - pool.pfxLen) := by
  have hstride : 0 < 2 ^ (pool.bits - sp) := Nat.pos_pow_of_pos _ (by norm_num)
  calc k * 2 ^ (pool.bits - sp)
      < 2 ^ (sp - pool.pfxLen) * 2 ^ (pool.bits - sp) :=
        mul_lt_mul_of_pos_right hk hstride
    _ = 2 ^ (pool.bits - pool.pfxLen) := count_mul_stride pool sp hsp1 hsp2

theorem candAt_addr_eq (pool : CIDR) (sp k : Nat) (hpb : pool.pfxLen ≤ pool.bits)
    (hpa : pool.addr < 2 ^ pool.bits) (hsp1 : pool.pfxLen ≤ sp)
    (hsp2 : sp ≤ pool.bits) (hk : k < 2 ^ (sp - pool.pfxLen)) :
    (candAt pool sp k).addr = pool.network + k * 2 ^ (pool.bits - sp) := by
  have hshow : (candAt pool sp k).addr =
      (pool.network + k * 2 ^ (pool.bits - sp)) % 2 ^ pool.bits := rfl
  rw [hshow]
  apply Nat.mod_eq_of_lt
  have h1 := stride_mul_lt pool sp k hsp1 hsp2 hk
  have h2 := network_add_block_le pool hpb hpa
  omega

theorem candAt_contained (pool : CIDR) (sp k : Nat)
    (hpb : pool.pfxLen ≤ pool.bits) (hpa : pool.addr < 2 ^ pool.bits)
    (hsp1 : pool.pfxLen ≤ sp) (hsp2 : sp ≤ pool.bits)
    (hk : k < 2 ^ (sp - pool.pfxLen)) :
    pool.containsAddr (candAt pool sp k).bits (candAt pool sp k).addr = true := by
  have hb : (candAt pool sp k).bits = pool.bits := rfl
  rw [hb, candAt_addr_eq pool sp k hpb hpa hsp1 hsp2 hk]
  simp only [CIDR.containsAddr, beq_self_eq_true, Bool.true_and, beq_iff_eq]
  obtain ⟨q, hq⟩ := network_dvd pool
  have hS : 0 < 2 ^ (pool.bits - pool.pfxLen) := Nat.pos_pow_of_pos _ (by norm_num)
  have hr := stride_mul_lt pool sp k hsp1 hsp2 hk
  rw [hq]
  unfold maskAddr
  rw [Nat.mul_add_div hS, Nat.div_eq_of_lt hr, Nat.add_zero, Nat.mul_comm]

theorem candAt_network_self (pool : CIDR) (sp k : Nat)
    (hsp1 : pool.pfxLen ≤ sp) :
    CIDR.network (candAt pool sp k) = (candAt pool sp k).addr := by
  have hdvd : 2 ^ (pool.bits - sp) ∣ (candAt pool sp k).addr := by
    have h1 : 2 ^ (pool.bits - sp) ∣ pool.network + k * 2 ^ (pool.bits - sp) :=
      Dvd.dvd.add (dvd_trans (stride_dvd_block pool sp hsp1) (network_dvd pool))
        (dvd_mul_left _ _)
    have h2 : 2 ^ (pool.bits - sp) ∣ 2 ^ pool.bits :=
      pow_dvd_pow 2 (Nat.sub_le _ _)
    exact (Nat.dvd_mod_iff h2).mpr h1
  exact maskAddr_eq_of_dvd _ _ _ hdvd

theorem nextSubnet_candAt (pool : CIDR) (sp k : Nat) (hsp1 : pool.pfxLen ≤ sp) :
    nextSubnet (candAt pool sp k) sp = candAt pool sp (k + 1) := by
  unfold nextSubnet
  rw [candAt_network_self pool sp k hsp1]
  unfold candAt
  congr 1
  rw [Nat.mod_add_mod]
  congr 1
  ring

theorem start_eq_candAt_zero (pool : CIDR) (sp : Nat)
    (hpa : pool.addr < 2 ^ pool.bits) (hsp1 : pool.pfxLen ≤ sp) :
    CIDR.mk pool.bits (maskAddr pool.bits sp pool.network) sp = candAt pool sp 0 := by
  unfold candAt
  congr 1
  rw [maskAddr_eq_of_dvd _ _ _
    (dvd_trans (stride_dvd_block pool sp hsp1) (network_dvd pool))]
  rw [Nat.zero_mul, Nat.add_zero, Nat.mod_eq_of_lt (network_lt pool hpa)]

theorem lookup_mem_of_eq_some {α β : Type} [DecidableEq α] {l : List (α × β)}
    {a : α} {b : β} (h : l.lookup a = some b) : (a, b) ∈ l := by
  induction l with
  | nil => simp [List.lookup] at h
  | cons e es ih =>
    obtain ⟨x, y⟩ := e
    rw [List.lookup] at h
    by_cases he : a = x
    · subst he
      simp at h
      subst h
      exact List.mem_cons_self _ _
    · simp [beq_false_of_ne he] at h
      exact List.mem_cons_of_mem _ (ih h)

theorem genClusters_unrecognized (p : IPAMPool) (dc : String)
    (cfg : IPAMPoolDatacenterSettings) (m : DCUsage) (cs : List Cluster)
    (h1 : cfg.type ≠ "range") (h2 : cfg.type ≠ "prefix") :
    genClusters p dc cfg m cs =
      .ok ((cs.filter (fun c => !(clusterHasPool p.name c))).map
        (fun c => IPAMAllocation.mk p.name c.name dc cfg.type none []), m) := by
  induction cs generalizing m with
  | nil => rfl
  | cons c cs ih =>
    by_cases hc : clusterHasPool p.name c
    · have hg : genCluster p dc cfg m c = .ok (none, m) := by
        unfold genCluster
        rw [if_pos hc]
      simp only [genClusters, hg, ih m]
      simp [List.filter_cons, hc]
    · have hg : genCluster p dc cfg m c =
          .ok (some (IPAMAllocation.mk p.name c.name dc cfg.type none []), m) := by
        unfold genCluster
        rw [if_neg hc, if_neg h1, if_neg h2]
      simp only [genClusters, hg, ih m]
      simp [List.filter_cons, hc]

theorem generate_unrecognized (p : IPAMPool) (m : DCUsage)
    (es : List (String × List Cluster))
    (hty : ∀ e ∈ p.datacenters, e.2.type ≠ "range" ∧ e.2.type ≠ "prefix") :
    generateNewAllocationsForPool p m es = .ok (skeletonRecords es p, m) := by
  induction es generalizing m with
  | nil => rfl
  | cons e es ih =>
    simp only [generateNewAllocationsForPool, genEntry]
    cases hl : p.datacenters.lookup e.1 with
    | none => simp [ih m, skeletonRecords, hl]
    | some cfg =>
      have hmem := lookup_mem_of_eq_some hl
      have hty' := hty (e.1, cfg) hmem
      simp only [genClusters_unrecognized p e.1 cfg m e.2 hty'.1 hty'.2, ih]
      simp [skeletonRecords, hl]

theorem containsAddr_network (pool c : CIDR) (hpq : pool.pfxLen ≤ c.pfxLen)
    (hb : c.pfxLen ≤ pool.bits) :
    pool.containsAddr c.bits (CIDR.network c) = pool.containsAddr c.bits c.addr := by
  unfold CIDR.containsAddr CIDR.network
  by_cases hw : c.bits = pool.bits
  · rw [hw, maskAddr_mask pool.bits pool.pfxLen c.pfxLen c.addr hpq hb]
  · have hbe : (c.bits == pool.bits) = false := by simp [hw]
    rw [hbe, Bool.false_and, Bool.false_and]

theorem checkRangeAllocation_iff (ips : List IPv) (pool : CIDR) (n : Nat) :
    checkRangeAllocation ips pool n = .ok () ↔
      ips.length = n ∧ ∀ ip ∈ ips, pool.containsAddr ip.bits ip.val = true := by
  unfold checkRangeAllocation
  split_ifs with h1 h2
  · constructor
    · intro h
      simp at h
    · intro h
      exact absurd h.1.symm h1
  · simp only [List.all_eq_true] at h2
    constructor
    · intro _
      exact ⟨(not_ne_iff.mp h1).symm, h2⟩
    · intro _
      rfl
  · simp only [List.all_eq_true] at h2
    constructor
    · intro h
      simp at h
    · intro h
      exact absurd h.2 h2

theorem checkPrefixAllocation_iff (sub : Option CIDR) (pool : CIDR) (n : Nat) :
    checkPrefixAllocation sub pool n = .ok () ↔
      ∃ c, sub = some c ∧ c.pfxLen = n ∧ pool.pfxLen ≤ c.pfxLen ∧
        c.pfxLen ≤ pool.bits ∧
        pool.containsAddr c.bits (CIDR.network c) = true := by
  unfold checkPrefixAllocation
  cases sub with
  | none => simp
  | some c =>
    simp only [Option.some.injEq]
    split_ifs with h1 h2 h3 h4
    · constructor
      · intro h
        simp at h
      · rintro ⟨c', hc', hn, _⟩
        cases hc'
        exact absurd hn.symm h1
    · constructor
      · intro h
        simp at h
      · rintro ⟨c', hc', _, hq, _⟩
        cases hc'
        omega
    · constructor
      · intro h
        simp at h
      · rintro ⟨c', hc', _, _, hb, _⟩
        cases hc'
        omega
    · constructor
      · intro _
        refine ⟨c, rfl, (not_ne_iff.mp h1).symm, by omega, by omega, ?_⟩
        rw [containsAddr_network pool c (by omega) (by omega)]
        exact h4
      · intro _
        rfl
    · constructor
      · intro h
        simp at h
      · rintro ⟨c', hc', _, hq, hb, hcont⟩
        cases hc'
        rw [containsAddr_network pool c hq hb] at hcont
        exact absurd hcont h4

theorem subnetSearch_ok_usage (dc : String) (pool : CIDR) (m : DCUsage)
    (fuel : Nat) (cand c : CIDR) (m' : DCUsage)
    (h : subnetSearch dc pool m fuel cand = .ok (c, m')) :
    m' = setUsed m dc (UKey.cidr c.bits c.addr c.pfxLen) := by
  induction fuel generalizing cand with
  | zero => simp [subnetSearch] at h
  | succ fuel ih =>
    rw [subnetSearch] at h
    split_ifs at h with h1 h2
    · exact ih (nextSubnet cand cand.pfxLen) h
    · simp only [Except.ok.injEq, Prod.mk.injEq] at h
      rw [← h.2, h.1]

theorem subnetSearch_last (dc : String) (pool : CIDR) (sp : Nat) (m : DCUsage)
    (hpb : pool.pfxLen ≤ pool.bits) (hpa : pool.addr < 2 ^ pool.bits)
    (hsp1 : pool.pfxLen ≤ sp) (hsp2 : sp ≤ pool.bits)
    (hall : ∀ j, j < 2 ^ (sp - pool.pfxLen) →
      isUsed m dc (cidrKey (candAt pool sp j)) = true) :
    subnetSearch dc pool m 1 (candAt pool sp (2 ^ (sp - pool.pfxLen))) =
      .error .cannotFindFreeSubnet := by
  have hS : 0 < 2 ^ (pool.bits - pool.pfxLen) := Nat.pos_pow_of_pos _ (by norm_num)
  have haddrN : (candAt pool sp (2 ^ (sp - pool.pfxLen))).addr =
      (pool.network + 2 ^ (pool.bits - pool.pfxLen)) % 2 ^ pool.bits := by
    show (pool.network + 2 ^ (sp - pool.pfxLen) * 2 ^ (pool.bits - sp)) %
        2 ^ pool.bits = _
    rw [count_mul_stride pool sp hsp1 hsp2]
  have hle := network_add_block_le pool hpb hpa
  rw [subnetSearch]
  by_cases hcont : pool.containsAddr (candAt pool sp (2 ^ (sp - pool.pfxLen))).bits
      (candAt pool sp (2 ^ (sp - pool.pfxLen))).addr = true
  · have hcont' : maskAddr pool.bits pool.pfxLen
        (candAt pool sp (2 ^ (sp - pool.pfxLen))).addr = CIDR.network pool := by
      have hb : (candAt pool sp (2 ^ (sp - pool.pfxLen))).bits = pool.bits := rfl
      simp only [CIDR.containsAddr, hb, beq_self_eq_true, Bool.true_and,
        beq_iff_eq] at hcont
      exact hcont
    rcases Nat.lt_or_ge (pool.network + 2 ^ (pool.bits - pool.pfxLen))
        (2 ^ pool.bits) with hlt | hge
    · exfalso
      have haddr : (candAt pool sp (2 ^ (sp - pool.pfxLen))).addr =
          pool.network + 2 ^ (pool.bits - pool.pfxLen) := by
        rw [haddrN, Nat.mod_eq_of_lt hlt]
      have hdvd : 2 ^ (pool.bits - pool.pfxLen) ∣
          pool.network + 2 ^ (pool.bits - pool.pfxLen) :=
        Dvd.dvd.add (network_dvd pool) dvd_rfl
      rw [haddr, maskAddr_eq_of_dvd _ _ _ hdvd] at hcont'
      have hnet : CIDR.network pool = pool.network := rfl
      omega
    · have heq : pool.network + 2 ^ (pool.bits - pool.pfxLen) = 2 ^ pool.bits :=
        le_antisymm hle hge
      have haddr0 : (candAt pool sp (2 ^ (sp - pool.pfxLen))).addr = 0 := by
        rw [haddrN, heq, Nat.mod_self]
      have hmask0 : maskAddr pool.bits pool.pfxLen 0 = 0 := by
        unfold maskAddr
        simp
      rw [haddr0, hmask0] at hcont'
      have haddr0' : (candAt pool sp 0).addr = 0 := by
        show (pool.network + 0 * 2 ^ (pool.bits - sp)) % 2 ^ pool.bits = 0
        rw [Nat.zero_mul, Nat.add_zero, ← hcont']
        exact Nat.zero_mod _
      have hkey : cidrKey (candAt pool sp (2 ^ (sp - pool.pfxLen))) =
          cidrKey (candAt pool sp 0) := by
        show UKey.cidr _ _ _ = UKey.cidr _ _ _
        rw [haddr0, haddr0']
        rfl
      have hused : isUsed m dc
          (cidrKey (candAt pool sp (2 ^ (sp - pool.pfxLen)))) = true := by
        rw [hkey]
        exact hall 0 (Nat.pos_pow_of_pos _ (by norm_num))
      rw [if_pos hcont, if_pos hused]
      rfl
  · rw [if_neg hcont]

theorem subnetSearch_run (dc : String) (pool : CIDR) (sp : Nat) (m : DCUsage)
    (hpb : pool.pfxLen ≤ pool.bits) (hpa : pool.addr < 2 ^ pool.bits)
    (hsp1 : pool.pfxLen ≤ sp) (hsp2 : sp ≤ pool.bits) :
    ∀ (i k : Nat), k + i = 2 ^ (sp - pool.pfxLen) →
      (∀ j, j < k → isUsed m dc (cidrKey (candAt pool sp j)) = true) →
      subnetSearch dc pool m (i + 1) (candAt pool sp k) =
        match (((List.range (2 ^ (sp - pool.pfxLen))).map (candAt pool sp)).drop
            k).find? (fun c => !(isUsed m dc (cidrKey c))) with
        | some c => .ok (c, setUsed m dc (cidrKey c))
        | none => .error .cannotFindFreeSubnet := by
  intro i
  induction i with
  | zero =>
    intro k hk hall
    have hkN : k = 2 ^ (sp - pool.pfxLen) := by omega
    rw [List.drop_eq_nil_of_le (by simp [hkN]), List.find?_nil, hkN]
    exact subnetSearch_last dc pool sp m hpb hpa hsp1 hsp2
      (fun j hj => hall j (by omega))
  | succ i ih =>
    intro k hk hall
    have hkN : k < 2 ^ (sp - pool.pfxLen) := by omega
    have hlen : k < ((List.range (2 ^ (sp - pool.pfxLen))).map
        (candAt pool sp)).length := by
      simp [hkN]
    rw [List.drop_eq_getElem_cons hlen]
    have hget : ((List.range (2 ^ (sp - pool.pfxLen))).map (candAt pool sp))[k] =
        candAt pool sp k := by
      simp
    rw [hget]
    rw [subnetSearch]
    rw [if_pos (candAt_contained pool sp k hpb hpa hsp1 hsp2 hkN)]
    by_cases hused : isUsed m dc (cidrKey (candAt pool sp k)) = true
    · rw [if_pos hused, List.find?_cons_of_neg _ (by simp [hused])]
      have hpfx : (candAt pool sp k).pfxLen = sp := rfl
      rw [hpfx, nextSubnet_candAt pool sp k hsp1]
      refine ih (k + 1) (by omega) (fun j hj => ?_)
      rcases Nat.lt_or_ge j k with h | h
      · exact hall j h
      · have hjk : j = k := by omega
        rw [hjk]
        exact hused
    · rw [if_neg hused, List.find?_cons_of_pos _ (by simp [hused])]

theorem subnetSearch_error_value (dc : String) (pool : CIDR) (m : DCUsage)
    (fuel : Nat) (cand : CIDR) (e : GoErr)
    (h : subnetSearch dc pool m fuel cand = .error e) :
    e = .cannotFindFreeSubnet := by
  induction fuel generalizing cand with
  | zero =>
    rw [subnetSearch] at h
    exact (Except.error.injEq _ _ ▸ h).symm
  | succ fuel ih =>
    rw [subnetSearch] at h
    split_ifs at h with h1 h2
    · exact ih _ h
    · exact (Except.error.injEq _ _ ▸ h).symm

theorem rangeIPs_self (w b : Nat) (hb : b < 2 ^ w) : rangeIPs w b b = [b] := by
  unfold rangeIPs
  have hd : (b + 2 ^ w - b) % 2 ^ w = 0 := by
    have h1 : b + 2 ^ w - b = 2 ^ w := by omega
    rw [h1, Nat.mod_self]
  rw [hd]
  rw [List.range_succ]
  simp [Nat.mod_eq_of_lt hb]

theorem rangeIPs_last_aux (w first cur : Nat) (hf : first < 2 ^ w)
    (hc : cur < 2 ^ w) :
    (first + (cur + 2 ^ w - first) % 2 ^ w) % 2 ^ w = cur := by
  rw [Nat.add_comm first _, Nat.mod_add_mod, Nat.add_comm _ first]
  have h1 : first + (cur + 2 ^ w - first) = cur + 2 ^ w := by omega
  rw [h1, Nat.add_mod_right, Nat.mod_eq_of_lt hc]

theorem rangeIPs_extend (w first cur : Nat) (hf : first < 2 ^ w)
    (hc : cur < 2 ^ w)
    (hlen : (cur + 2 ^ w - first) % 2 ^ w + 1 < 2 ^ w) :
    rangeIPs w first (incIPVal w cur) =
      rangeIPs w first cur ++ [incIPVal w cur] := by
  have hdnew : (incIPVal w cur + 2 ^ w - first) % 2 ^ w =
      (cur + 2 ^ w - first) % 2 ^ w + 1 := by
    unfold incIPVal
    have h1 : (cur + 1) % 2 ^ w + 2 ^ w - first =
        (cur + 1) % 2 ^ w + (2 ^ w - first) := by omega
    rw [h1, Nat.mod_add_mod]
    have h2 : cur + 1 + (2 ^ w - first) = cur + 2 ^ w - first + 1 := by omega
    rw [h2, ← Nat.mod_add_mod]
    exact Nat.mod_eq_of_lt (by omega)
  unfold rangeIPs
  rw [hdnew, List.range_succ, List.map_append]
  congr 1
  simp only [List.map_cons, List.map_nil]
  congr 1
  have h3 : first + ((cur + 2 ^ w - first) % 2 ^ w + 1) =
      first + (cur + 2 ^ w - first) % 2 ^ w + 1 := by omega
  rw [h3, ← Nat.mod_add_mod, rangeIPs_last_aux w first cur hf hc]
  unfold incIPVal
  rfl

theorem rangeIPs_length (w first last : Nat) :
    (rangeIPs w first last).length = (last + 2 ^ w - first) % 2 ^ w + 1 := by
  unfold rangeIPs
  simp

theorem specRunsGo_expand (w : Nat) (l : List Nat) :
    ∀ (first cur : Nat), first < 2 ^ w → cur < 2 ^ w →
      (∀ x ∈ l, x < 2 ^ w) →
      (rangeIPs w first cur).length + l.length ≤ 2 ^ w →
      ((specRunsGo w first cur l).map
        (fun r => rangeIPs w r.1 r.2)).flatten = rangeIPs w first cur ++ l := by
  induction l with
  | nil =>
    intro first cur hf hc _ _
    simp [specRunsGo]
  | cons b rest ih =>
    intro first cur hf hc hl hlen
    rw [specRunsGo]
    have hblt : b < 2 ^ w := hl b (by simp)
    by_cases hb : b = incIPVal w cur
    · rw [if_pos hb]
      have hd1 : (cur + 2 ^ w - first) % 2 ^ w + 1 < 2 ^ w := by
        rw [rangeIPs_length] at hlen
        simp only [List.length_cons] at hlen
        omega
      have hext := rangeIPs_extend w first cur hf hc hd1
      have hlen' : (rangeIPs w first b).length + rest.length ≤ 2 ^ w := by
        rw [hb, hext]
        simp only [List.length_append, List.length_cons, List.length_nil]
        simp only [List.length_cons] at hlen
        omega
      rw [ih first b hf hblt (fun x hx => hl x (by simp [hx])) hlen']
      rw [hb, hext]
      simp
    · rw [if_neg hb]
      simp only [List.map_cons, List.flatten_cons]
      have hlen' : (rangeIPs w b b).length + rest.length ≤ 2 ^ w := by
        rw [rangeIPs_self w b hblt]
        simp only [List.length_cons] at hlen
        have h1 : 1 ≤ (rangeIPs w first cur).length := by
          rw [rangeIPs_length]
          omega
        simp only [List.length_cons, List.length_nil]
        omega
      rw [ih b b hblt hblt (fun x hx => hl x (by simp [hx])) hlen']
      rw [rangeIPs_self w b hblt]
      simp

theorem specRuns_flatten (w : Nat) (l : List Nat)
    (hl : ∀ x ∈ l, x < 2 ^ w) (hlen : l.length ≤ 2 ^ w) :
    ((specRuns w l).map (fun r => rangeIPs w r.1 r.2)).flatten = l := by
  cases l with
  | nil => rfl
  | cons a rest =>
    rw [specRuns]
    have ha : a < 2 ^ w := hl a (by simp)
    rw [specRunsGo_expand w rest a a ha ha (fun x hx => hl x (by simp [hx]))
      (by
        rw [rangeIPs_self w a ha]
        simp only [List.length_cons, List.length_nil] at hlen ⊢
        omega)]
    rw [rangeIPs_self w a ha]
    rfl

theorem rangesLoop_eq (dc : String) (w : Nat) :
    ∀ (n : Nat) (ip : Nat) (rest : List Nat) (first : Nat) (m : DCUsage)
      (acc : List AddrRange), n ≤ rest.length →
      rangesLoop dc w first (n + 1) (ip :: rest) m acc =
        .ok (acc ++ (specRunsGo w first ip (rest.take n)).map
            (fun r => AddrRange.mk w r.1 r.2),
          (ip :: rest.take n).foldl
            (fun mm v => setUsed mm dc (UKey.addr w v)) m) := by
  intro n
  induction n with
  | zero =>
    intro ip rest first m acc _
    simp [rangesLoop, specRunsGo]
  | succ n ih =>
    intro ip rest first m acc hn
    cases rest with
    | nil => simp at hn
    | cons nxt rest' =>
      rw [rangesLoop]
      rw [if_neg (by omega)]
      simp only [List.take_succ_cons, List.foldl_cons]
      by_cases hnext : isTheNextIP w nxt ip = true
      · rw [if_pos hnext]
        rw [ih nxt rest' first (setUsed m dc (UKey.addr w ip)) acc
          (by simpa using hn)]
        have hcond : nxt = incIPVal w ip := by
          unfold isTheNextIP at hnext
          exact (beq_iff_eq.mp hnext).symm
        rw [specRunsGo, if_pos hcond]
        rfl
      · rw [if_neg hnext]
        rw [ih nxt rest' nxt (setUsed m dc (UKey.addr w ip))
          (acc ++ [AddrRange.mk w first ip]) (by simpa using hn)]
        have hcond : ¬(nxt = incIPVal w ip) := by
          intro hcon
          exact hnext (by unfold isTheNextIP; exact beq_iff_eq.mpr hcon.symm)
        rw [specRunsGo, if_neg hcond]
        simp

theorem blockIPs_lt (c : CIDR) : ∀ v ∈ blockIPs c, v < 2 ^ c.bits := by
  intro v hv
  unfold blockIPs at hv
  simp only [List.mem_map, List.mem_range] at hv
  obtain ⟨i, _, hvi⟩ := hv
  rw [← hvi]
  exact Nat.mod_lt _ (Nat.pos_pow_of_pos _ (by norm_num))

theorem freeIPs_lt (dc : String) (pool : CIDR) (m : DCUsage) :
    ∀ v ∈ calculateRangeFreeIPsFromDatacenterPool dc pool m,
      v < 2 ^ pool.bits := by
  intro v hv
  unfold calculateRangeFreeIPsFromDatacenterPool at hv
  exact blockIPs_lt pool v (List.mem_of_mem_filter hv)

theorem freeIPs_length_le (dc : String) (pool : CIDR) (m : DCUsage) :
    (calculateRangeFreeIPsFromDatacenterPool dc pool m).length ≤
      2 ^ pool.bits := by
  unfold calculateRangeFreeIPsFromDatacenterPool
  calc ((blockIPs pool).filter _).length ≤ (blockIPs pool).length :=
        List.length_filter_le _ _
    _ = 2 ^ (pool.bits - pool.pfxLen) := by
        unfold blockIPs
        simp [CIDR.size]
    _ ≤ 2 ^ pool.bits := Nat.pow_le_pow_right (by norm_num) (Nat.sub_le _ _)

theorem isUsed_setUsed_self (m : DCUsage) (dc : String) (k : UKey) :
    isUsed (setUsed m dc k) dc k = true := by
  simp [isUsed, setUsed]

theorem isUsed_setUsed_mono (m : DCUsage) (dc dc' : String) (k k' : UKey)
    (h : isUsed m dc k = true) : isUsed (setUsed m dc' k') dc k = true := by
  simp only [isUsed, setUsed, List.contains_cons] at h ⊢
  rw [h]
  simp

theorem foldl_setUsed_mono (dc : String) (w : Nat) (l : List Nat) :
    ∀ (m : DCUsage) (d0 : String) (k : UKey), isUsed m d0 k = true →
      isUsed (l.foldl (fun mm x => setUsed mm dc (UKey.addr w x)) m) d0 k =
        true := by
  induction l with
  | nil => intro m d0 k h; exact h
  | cons a l ih =>
    intro m d0 k h
    rw [List.foldl_cons]
    exact ih _ _ _ (isUsed_setUsed_mono m d0 dc k (UKey.addr w a) h)

theorem foldl_setUsed_isUsed (dc : String) (w : Nat) (l : List Nat) :
    ∀ (m : DCUsage) (v : Nat), v ∈ l →
      isUsed (l.foldl (fun mm x => setUsed mm dc (UKey.addr w x)) m) dc
        (UKey.addr w v) = true := by
  induction l with
  | nil =>
    intro m v hv
    simp at hv
  | cons a l ih =>
    intro m v hv
    rw [List.foldl_cons]
    rcases List.mem_cons.mp hv with h | h
    · subst h
      exact foldl_setUsed_mono dc w l _ dc (UKey.addr w v)
        (isUsed_setUsed_self m dc (UKey.addr w v))
    · exact ih _ v h

theorem findFirstFreeRangesOfPool_cap_eq (dc : String) (pool : CIDR) (n : Nat)
    (m : DCUsage)
    (hcap : n > (calculateRangeFreeIPsFromDatacenterPool dc pool m).length) :
    findFirstFreeRangesOfPool dc pool n m = .error .noEnoughFreeIPs := by
  unfold findFirstFreeRangesOfPool
  simp only [if_pos hcap]

theorem findFirstFreeRangesOfPool_eq_loop (dc : String) (pool : CIDR) (n : Nat)
    (m : DCUsage) (f0 : Nat) (rest : List Nat)
    (hfx : calculateRangeFreeIPsFromDatacenterPool dc pool m = f0 :: rest)
    (hcap : ¬n > (f0 :: rest).length) :
    findFirstFreeRangesOfPool dc pool n m =
      rangesLoop dc pool.bits f0 n (f0 :: rest) m [] := by
  unfold findFirstFreeRangesOfPool
  simp only [hfx]
  rw [if_neg hcap]

theorem findFirstFreeRangesOfPool_nil_eq (dc : String) (pool : CIDR) (n : Nat)
    (m : DCUsage)
    (hfx : calculateRangeFreeIPsFromDatacenterPool dc pool m = [])
    (hcap : ¬n > (0 : Nat)) :
    findFirstFreeRangesOfPool dc pool n m = .error .indexOutOfRange := by
  unfold findFirstFreeRangesOfPool
  simp only [hfx]
  rw [if_neg (by simpa using hcap)]

theorem blockIPs_contained (pool : CIDR) (hpb : pool.pfxLen ≤ pool.bits)
    (hpa : pool.addr < 2 ^ pool.bits) :
    ∀ v ∈ blockIPs pool, pool.containsAddr pool.bits v = true := by
  intro v hv
  unfold blockIPs at hv
  simp only [List.mem_map, List.mem_range] at hv
  obtain ⟨i, hi, hvi⟩ := hv
  have hiS : i < 2 ^ (pool.bits - pool.pfxLen) := hi
  have hle := network_add_block_le pool hpb hpa
  have hlt : pool.network + i < 2 ^ pool.bits := by omega
  rw [← hvi, Nat.mod_eq_of_lt hlt]
  simp only [CIDR.containsAddr, beq_self_eq_true, Bool.true_and, beq_iff_eq]
  obtain ⟨q, hq⟩ := network_dvd pool
  have hS : 0 < 2 ^ (pool.bits - pool.pfxLen) := Nat.pos_pow_of_pos _ (by norm_num)
  rw [hq]
  unfold maskAddr
  rw [Nat.mul_add_div hS, Nat.div_eq_of_lt hiS, Nat.add_zero, Nat.mul_comm]

theorem subnetSearch_ok_props (dc : String) (pool : CIDR) (m : DCUsage) :
    ∀ (fuel : Nat) (cand c : CIDR) (m' : DCUsage),
      subnetSearch dc pool m fuel cand = .ok (c, m') →
      pool.containsAddr c.bits c.addr = true ∧ c.pfxLen = cand.pfxLen ∧
        c.bits = cand.bits := by
  intro fuel
  induction fuel with
  | zero =>
    intro cand c m' h
    simp [subnetSearch] at h
  | succ fuel ih =>
    intro cand c m' h
    rw [subnetSearch] at h
    split_ifs at h with h1 h2
    · obtain ⟨hc, hp, hb⟩ := ih (nextSubnet cand cand.pfxLen) c m' h
      exact ⟨hc, hp, hb⟩
    · simp only [Except.ok.injEq, Prod.mk.injEq] at h
      obtain ⟨hcc, _⟩ := h
      rw [← hcc]
      exact ⟨h1, rfl, rfl⟩

theorem findFirstFreeSubnetOfPool_ok_props (dc : String) (pool : CIDR)
    (sp : Nat) (m : DCUsage) (c : CIDR) (m' : DCUsage)
    (h : findFirstFreeSubnetOfPool dc pool sp m = .ok (c, m')) :
    pool.pfxLen ≤ sp ∧ sp ≤ pool.bits ∧ c.pfxLen = sp ∧ c.bits = pool.bits ∧
      pool.containsAddr c.bits c.addr = true := by
  unfold findFirstFreeSubnetOfPool at h
  split_ifs at h with h1 h2
  obtain ⟨hc, hp, hb⟩ := subnetSearch_ok_props dc pool m _ _ c m' h
  exact ⟨by omega, by omega, hp, hb, hc⟩

theorem replayAllocation_checkOk (p : IPAMPool) (a : IPAMAllocation)
    (cfg : IPAMPoolDatacenterSettings)
    (hcfg : p.datacenters.lookup a.datacenter = some cfg)
    (hrange : a.type = "range" →
      checkRangeAllocation (getUsedIPsFromAddressRanges a.addresses)
        cfg.poolCIDR cfg.allocRange = .ok ())
    (hpfx : a.type = "prefix" →
      checkPrefixAllocation a.cidr cfg.poolCIDR cfg.allocPfx = .ok ()) :
    replayPasses p a := by
  intro m
  unfold replayAllocation
  simp only [hcfg]
  by_cases hname : a.ipamPoolName = p.name
  · rw [if_pos hname]
    by_cases ht1 : a.type = "range"
    · rw [if_pos ht1]
      simp only [hrange ht1]
      exact ⟨_, rfl⟩
    · rw [if_neg ht1]
      by_cases ht2 : a.type = "prefix"
      · rw [if_pos ht2]
        simp only [hpfx ht2]
        cases a.cidr with
        | none => exact ⟨_, rfl⟩
        | some c => exact ⟨_, rfl⟩
      · rw [if_neg ht2]
        exact ⟨_, rfl⟩
  · rw [if_neg hname]
    exact ⟨_, rfl⟩

theorem replayAllocation_ok_any (p : IPAMPool) (a : IPAMAllocation)
    (m m₁ : DCUsage) (h : replayAllocation p m a = .ok m₁) :
    replayPasses p a := by
  unfold replayAllocation at h
  cases hcfg : p.datacenters.lookup a.datacenter with
  | none =>
    intro mm
    unfold replayAllocation
    simp only [hcfg]
    exact ⟨_, rfl⟩
  | some cfg =>
    simp only [hcfg] at h
    by_cases hname : a.ipamPoolName = p.name
    · rw [if_pos hname] at h
      refine replayAllocation_checkOk p a cfg hcfg (fun ht => ?_) (fun ht => ?_)
      · rw [if_pos ht] at h
        cases hchk : checkRangeAllocation (getUsedIPsFromAddressRanges
            a.addresses) cfg.poolCIDR cfg.allocRange with
        | error e =>
          simp only [hchk] at h
          simp at h
        | ok u =>
          cases u
          rfl
      · rw [if_neg (by simp [ht]), if_pos ht] at h
        cases hchk : checkPrefixAllocation a.cidr cfg.poolCIDR cfg.allocPfx with
        | error e =>
          simp only [hchk] at h
          simp at h
        | ok u =>
          cases u
          rfl
    · intro mm
      unfold replayAllocation
      simp only [hcfg, if_neg hname]
      exact ⟨_, rfl⟩

theorem replayAllocs_ok_pass (p : IPAMPool) :
    ∀ (l : List IPAMAllocation) (m m' : DCUsage),
      replayAllocs p m l = .ok m' → ∀ a ∈ l, replayPasses p a := by
  intro l
  induction l with
  | nil =>
    intro m m' _ a ha
    simp at ha
  | cons a0 l ih =>
    intro m m' h a ha
    rw [replayAllocs] at h
    cases hra : replayAllocation p m a0 with
    | error e =>
      rw [hra] at h
      simp at h
    | ok m1 =>
      rw [hra] at h
      rcases List.mem_cons.mp ha with hh | hh
      · subst hh
        exact replayAllocation_ok_any p a m m1 hra
      · exact ih m1 m' h a hh

theorem replayClusters_ok_pass (p : IPAMPool) :
    ∀ (cs : List Cluster) (m m' : DCUsage),
      replayClusters p m cs = .ok m' →
      ∀ c ∈ cs, ∀ a ∈ c.ipamAllocations, replayPasses p a := by
  intro cs
  induction cs with
  | nil =>
    intro m m' _ c hc
    simp at hc
  | cons c0 cs ih =>
    intro m m' h c hc a ha
    rw [replayClusters] at h
    cases hra : replayAllocs p m c0.ipamAllocations with
    | error e =>
      rw [hra] at h
      simp at h
    | ok m1 =>
      rw [hra] at h
      rcases List.mem_cons.mp hc with hh | hh
      · subst hh
        exact replayAllocs_ok_pass p _ m m1 hra a ha
      · exact ih m1 m' h c hh a ha

theorem compileFrom_ok_pass (p : IPAMPool) :
    ∀ (es : List (String × List Cluster)) (m m' : DCUsage),
      compileFrom p m es = .ok m' →
      ∀ e ∈ es, ∀ c ∈ e.2, ∀ a ∈ c.ipamAllocations, replayPasses p a := by
  intro es
  induction es with
  | nil =>
    intro m m' _ e he
    simp at he
  | cons e0 es ih =>
    intro m m' h e he c hc a ha
    rw [compileFrom] at h
    cases hra : replayClusters p m e0.2 with
    | error er =>
      rw [hra] at h
      simp at h
    | ok m1 =>
      rw [hra] at h
      rcases List.mem_cons.mp he with hh | hh
      · subst hh
        exact replayClusters_ok_pass p _ m m1 hra c hc a ha
      · exact ih m1 m' h e hh c hc a ha

theorem replayAllocs_pass_ok (p : IPAMPool) :
    ∀ (l : List IPAMAllocation), (∀ a ∈ l, replayPasses p a) →
      ∀ m, ∃ m', replayAllocs p m l = .ok m' := by
  intro l
  induction l with
  | nil =>
    intro _ m
    exact ⟨m, rfl⟩
  | cons a l ih =>
    intro h m
    obtain ⟨m1, h1⟩ := h a (by simp) m
    obtain ⟨m', h2⟩ := ih (fun a' ha' => h a' (by simp [ha'])) m1
    exact ⟨m', by rw [replayAllocs, h1]; exact h2⟩

theorem replayClusters_pass_ok (p : IPAMPool) :
    ∀ (cs : List Cluster),
      (∀ c ∈ cs, ∀ a ∈ c.ipamAllocations, replayPasses p a) →
      ∀ m, ∃ m', replayClusters p m cs = .ok m' := by
  intro cs
  induction cs with
  | nil =>
    intro _ m
    exact ⟨m, rfl⟩
  | cons c cs ih =>
    intro h m
    obtain ⟨m1, h1⟩ := replayAllocs_pass_ok p c.ipamAllocations
      (h c (by simp)) m
    obtain ⟨m', h2⟩ := ih (fun c' hc' => h c' (by simp [hc'])) m1
    exact ⟨m', by rw [replayClusters, h1]; exact h2⟩

theorem compileFrom_pass_ok (p : IPAMPool) :
    ∀ (es : List (String × List Cluster)),
      (∀ e ∈ es, ∀ c ∈ e.2, ∀ a ∈ c.ipamAllocations, replayPasses p a) →
      ∀ m, ∃ m', compileFrom p m es = .ok m' := by
  intro es
  induction es with
  | nil =>
    intro _ m
    exact ⟨m, rfl⟩
  | cons e es ih =>
    intro h m
    obtain ⟨m1, h1⟩ := replayClusters_pass_ok p e.2 (h e (by simp)) m
    obtain ⟨m', h2⟩ := ih (fun e' he' => h e' (by simp [he'])) m1
    exact ⟨m', by rw [compileFrom, h1]; exact h2⟩

theorem appendToFirstMatch_names (name : String) (a : IPAMAllocation) :
    ∀ cs : List Cluster,
      (appendToFirstMatch name a cs).map Cluster.name = cs.map Cluster.name := by
  intro cs
  induction cs with
  | nil => rfl
  | cons c cs ih =>
    rw [appendToFirstMatch]
    by_cases hc : c.name = name
    · rw [if_pos hc]
      simp
    · rw [if_neg hc]
      simp [ih]

theorem appendToFirstMatch_mem (name : String) (a : IPAMAllocation) :
    ∀ (cs : List Cluster) (c' : Cluster) (x : IPAMAllocation),
      c' ∈ appendToFirstMatch name a cs → x ∈ c'.ipamAllocations →
      (∃ c ∈ cs, x ∈ c.ipamAllocations) ∨ x = a := by
  intro cs
  induction cs with
  | nil =>
    intro c' x hc'
    simp [appendToFirstMatch] at hc'
  | cons c cs ih =>
    intro c' x hc' hx
    rw [appendToFirstMatch] at hc'
    by_cases hc : c.name = name
    · rw [if_pos hc] at hc'
      rcases List.mem_cons.mp hc' with hh | hh
      · subst hh
        simp only [List.mem_append] at hx
        rcases hx with hx | hx
        · exact Or.inl ⟨c, by simp, hx⟩
        · simp at hx
          exact Or.inr hx
      · exact Or.inl ⟨c', by simp [hh], hx⟩
    · rw [if_neg hc] at hc'
      rcases List.mem_cons.mp hc' with hh | hh
      · subst hh
        exact Or.inl ⟨c', by simp, hx⟩
      · rcases ih c' x hh hx with ⟨c0, hc0, hx0⟩ | hxa
        · exact Or.inl ⟨c0, by simp [hc0], hx0⟩
        · exact Or.inr hxa

theorem updateDC_mem (dc : String) (f : List Cluster → List Cluster) :
    ∀ (t : Table) (e : String × List Cluster), e ∈ updateDC t dc f →
      e ∈ t ∨ ∃ cs, (dc, cs) ∈ t ∧ e = (dc, f cs) := by
  intro t
  induction t with
  | nil =>
    intro e he
    simp [updateDC] at he
  | cons e0 t ih =>
    intro e he
    obtain ⟨d0, cs0⟩ := e0
    rw [updateDC] at he
    by_cases hd : d0 = dc
    · rw [if_pos hd] at he
      rcases List.mem_cons.mp he with hh | hh
      · subst hd
        exact Or.inr ⟨cs0, by simp, hh⟩
      · exact Or.inl (by simp [hh])
    · rw [if_neg hd] at he
      rcases List.mem_cons.mp he with hh | hh
      · exact Or.inl (by simp [hh])
      · rcases ih e hh with h | ⟨cs, hcs, hecs⟩
        · exact Or.inl (by simp [h])
        · exact Or.inr ⟨cs, by simp [hcs], hecs⟩

theorem commit_step_mem (t : Table) (r : IPAMAllocation) :
    ∀ e ∈ updateDC t r.datacenter (appendToFirstMatch r.cluster r),
      ∀ c ∈ e.2, ∀ x ∈ c.ipamAllocations,
        (∃ e₀ ∈ t, ∃ c₀ ∈ e₀.2, x ∈ c₀.ipamAllocations) ∨ x = r := by
  intro e he c hc x hx
  rcases updateDC_mem r.datacenter (appendToFirstMatch r.cluster r) t e he with
    h | ⟨cs, hcs, hecs⟩
  · exact Or.inl ⟨e, h, c, hc, hx⟩
  · subst hecs
    rcases appendToFirstMatch_mem r.cluster r cs c x hc hx with
      ⟨c0, hc0, hx0⟩ | hxa
    · exact Or.inl ⟨(r.datacenter, cs), hcs, c0, hc0, hx0⟩
    · exact Or.inr hxa

theorem commitAllocations_mem :
    ∀ (recs : List IPAMAllocation) (t : Table),
      ∀ e ∈ commitAllocations t recs, ∀ c ∈ e.2, ∀ x ∈ c.ipamAllocations,
        (∃ e₀ ∈ t, ∃ c₀ ∈ e₀.2, x ∈ c₀.ipamAllocations) ∨ x ∈ recs := by
  intro recs
  induction recs with
  | nil =>
    intro t e he c hc x hx
    exact Or.inl ⟨e, he, c, hc, hx⟩
  | cons r recs ih =>
    intro t e he c hc x hx
    have hstep : commitAllocations t (r :: recs) =
        commitAllocations
          (updateDC t r.datacenter (appendToFirstMatch r.cluster r)) recs := rfl
    rw [hstep] at he
    rcases ih _ e he c hc x hx with ⟨e₀, he₀, c₀, hc₀, hx₀⟩ | hxr
    · rcases commit_step_mem t r e₀ he₀ c₀ hc₀ x hx₀ with h | h
      · exact Or.inl h
      · exact Or.inr (by simp [h])
    · exact Or.inr (by simp [hxr])

theorem updateDC_head_hit (d : String) (cs : List Cluster) (rest : Table)
    (f : List Cluster → List Cluster) :
    updateDC ((d, cs) :: rest) d f = (d, f cs) :: rest := by
  rw [updateDC, if_pos rfl]

theorem commit_all_dc_head (d : String) (rest : Table) :
    ∀ (recs : List IPAMAllocation) (cs : List Cluster),
      (∀ a ∈ recs, a.datacenter = d) →
      commitAllocations ((d, cs) :: rest) recs =
        (d, commitFold recs cs) :: rest := by
  intro recs
  induction recs with
  | nil =>
    intro cs _
    rfl
  | cons r recs ih =>
    intro cs hdc
    have hstep : commitAllocations ((d, cs) :: rest) (r :: recs) =
        commitAllocations
          (updateDC ((d, cs) :: rest) r.datacenter
            (appendToFirstMatch r.cluster r)) recs := rfl
    rw [hstep, hdc r (by simp), updateDC_head_hit]
    exact ih _ (fun a ha => hdc a (by simp [ha]))

theorem commit_skip_head (e0 : String × List Cluster) (rest : Table) :
    ∀ (recs : List IPAMAllocation),
      (∀ a ∈ recs, a.datacenter ≠ e0.1) →
      commitAllocations (e0 :: rest) recs = e0 :: commitAllocations rest recs := by
  intro recs
  induction recs generalizing rest with
  | nil =>
    intro _
    rfl
  | cons r recs ih =>
    intro hdc
    have hstep : commitAllocations (e0 :: rest) (r :: recs) =
        commitAllocations
          (updateDC (e0 :: rest) r.datacenter
            (appendToFirstMatch r.cluster r)) recs := rfl
    rw [hstep]
    obtain ⟨d0, cs0⟩ := e0
    rw [updateDC, if_neg (by intro hcon; exact hdc r (by simp) (by simp [hcon]))]
    exact ih _ (fun a ha => hdc a (by simp [ha]))

theorem genClusters_all_skip (p : IPAMPool) (d : String)
    (cfg : IPAMPoolDatacenterSettings) :
    ∀ (cs : List Cluster) (m : DCUsage),
      (∀ c ∈ cs, clusterHasPool p.name c = true) →
      genClusters p d cfg m cs = .ok ([], m) := by
  intro cs
  induction cs with
  | nil =>
    intro m _
    rfl
  | cons c cs ih =>
    intro m h
    have hg : genCluster p d cfg m c = .ok (none, m) := by
      unfold genCluster
      rw [if_pos (h c (by simp))]
    simp only [genClusters, hg]
    exact ih m (fun c' hc' => h c' (by simp [hc']))

theorem rangesOfPool_spec (dc : String) (pool : CIDR)
    (n : Nat) (m : DCUsage) (free : List Nat)
    (hfree : free = calculateRangeFreeIPsFromDatacenterPool dc pool m) :
    (findFirstFreeRangesOfPool dc pool n m = .error .noEnoughFreeIPs ↔
      free.length < n) ∧
    (n ≤ free.length → (n ≠ 0 ∨ free ≠ []) →
      findFirstFreeRangesOfPool dc pool n m =
        .ok ((specRuns pool.bits (free.take n)).map
            (fun r => AddrRange.mk pool.bits r.1 r.2),
          (free.take n).foldl
            (fun mm v => setUsed mm dc (UKey.addr pool.bits v)) m) ∧
      ((specRuns pool.bits (free.take n)).map
          (fun r => rangeIPs pool.bits r.1 r.2)).flatten = free.take n ∧
      ∀ v ∈ free.take n,
        isUsed ((free.take n).foldl
            (fun mm v => setUsed mm dc (UKey.addr pool.bits v)) m) dc
          (UKey.addr pool.bits v) = true) := by
  constructor
  · constructor
    · intro h
      by_contra hcon
      push_neg at hcon
      cases hfx : calculateRangeFreeIPsFromDatacenterPool dc pool m with
      | nil =>
        rw [findFirstFreeRangesOfPool_nil_eq dc pool n m hfx
          (by rw [hfree, hfx] at hcon; simpa using hcon)] at h
        simp at h
      | cons f0 rest =>
        rcases Nat.eq_zero_or_pos n with hn | hn
        · subst hn
          rw [findFirstFreeRangesOfPool_eq_loop dc pool 0 m f0 rest hfx
            (by omega)] at h
          simp [rangesLoop] at h
        · obtain ⟨n', rfl⟩ : ∃ n', n = n' + 1 := ⟨n - 1, by omega⟩
          have hlen : n' ≤ rest.length := by
            rw [hfree, hfx] at hcon
            simp at hcon
            omega
          rw [findFirstFreeRangesOfPool_eq_loop dc pool (n' + 1) m f0 rest hfx
            (by rw [hfree, hfx] at hcon; simpa using hcon)] at h
          rw [rangesLoop_eq dc pool.bits n' f0 rest f0 m [] hlen] at h
          simp at h
    · intro h
      exact findFirstFreeRangesOfPool_cap_eq dc pool n m (by rw [hfree] at h; omega)
  · intro hle hnz
    cases hfx : calculateRangeFreeIPsFromDatacenterPool dc pool m with
    | nil =>
      exfalso
      rw [hfree, hfx] at hle hnz
      rcases hnz with h | h
      · simp at hle
        omega
      · exact h rfl
    | cons f0 rest =>
      rw [hfree, hfx] at hle ⊢
      have hcap : ¬n > (f0 :: rest).length := by omega
      rcases Nat.eq_zero_or_pos n with hn | hn
      · subst hn
        rw [findFirstFreeRangesOfPool_eq_loop dc pool 0 m f0 rest hfx hcap]
        refine ⟨rfl, rfl, ?_⟩
        intro v hv
        simp at hv
      · obtain ⟨n', rfl⟩ : ∃ n', n = n' + 1 := ⟨n - 1, by omega⟩
        have hlen : n' ≤ rest.length := by
          simp at hle
          omega
        rw [findFirstFreeRangesOfPool_eq_loop dc pool (n' + 1) m f0 rest hfx hcap]
        rw [rangesLoop_eq dc pool.bits n' f0 rest f0 m [] hlen]
        have hlt : ∀ x ∈ (f0 :: rest).take (n' + 1), x < 2 ^ pool.bits := by
          intro x hx
          apply freeIPs_lt dc pool m
          rw [hfx]
          exact List.mem_of_mem_take hx
        have hlenle : ((f0 :: rest).take (n' + 1)).length ≤ 2 ^ pool.bits := by
          calc ((f0 :: rest).take (n' + 1)).length ≤ (f0 :: rest).length := by
                rw [List.length_take]
                omega
            _ ≤ 2 ^ pool.bits := by
                rw [← hfx]
                exact freeIPs_length_le dc pool m
        refine ⟨?_, ?_, ?_⟩
        · rw [List.take_succ_cons, specRuns]
          simp
        · exact specRuns_flatten pool.bits _ hlt hlenle
        · intro v hv
          exact foldl_setUsed_isUsed dc pool.bits _ m v hv

theorem findFirstFreeRangesOfPool_ok_props (dc : String) (pool : CIDR)
    (n : Nat) (m : DCUsage) (addrs : List AddrRange) (m' : DCUsage)
    (h : findFirstFreeRangesOfPool dc pool n m = .ok (addrs, m')) :
    n ≤ (calculateRangeFreeIPsFromDatacenterPool dc pool m).length ∧
    addrs = (specRuns pool.bits
        ((calculateRangeFreeIPsFromDatacenterPool dc pool m).take n)).map
        (fun r => AddrRange.mk pool.bits r.1 r.2) ∧
    getUsedIPsFromAddressRanges addrs =
      ((calculateRangeFreeIPsFromDatacenterPool dc pool m).take n).map
        (fun v => IPv.mk pool.bits v) := by
  have hle : n ≤ (calculateRangeFreeIPsFromDatacenterPool dc pool m).length := by
    by_contra hcon
    push_neg at hcon
    rw [findFirstFreeRangesOfPool_cap_eq dc pool n m (by omega)] at h
    simp at h
  have hne : calculateRangeFreeIPsFromDatacenterPool dc pool m ≠ [] := by
    intro hnil
    have hn0 : n = 0 := by
      rw [hnil] at hle
      simpa using hle
    rw [findFirstFreeRangesOfPool_nil_eq dc pool n m hnil (by omega)] at h
    simp at h
  obtain ⟨heq, hflat, _⟩ :=
    (rangesOfPool_spec dc pool n m _ rfl).2 hle (Or.inr hne)
  rw [h] at heq
  simp only [Except.ok.injEq, Prod.mk.injEq] at heq
  obtain ⟨haddrs, _⟩ := heq
  refine ⟨hle, haddrs, ?_⟩
  rw [haddrs]
  unfold getUsedIPsFromAddressRanges
  rw [List.map_map]
  have hcomp : ((fun r : AddrRange =>
      (rangeIPs r.bits r.first r.last).map (fun v => IPv.mk r.bits v)) ∘
        fun r : Nat × Nat => AddrRange.mk pool.bits r.1 r.2) =
      fun r : Nat × Nat =>
        (rangeIPs pool.bits r.1 r.2).map (fun v => IPv.mk pool.bits v) := by
    funext r
    rfl
  rw [hcomp]
  have hmapmap : (fun r : Nat × Nat =>
      (rangeIPs pool.bits r.1 r.2).map (fun v => IPv.mk pool.bits v)) =
      (fun l : List Nat => l.map (fun v => IPv.mk pool.bits v)) ∘
        (fun r : Nat × Nat => rangeIPs pool.bits r.1 r.2) := by
    funext r
    rfl
  rw [hmapmap, ← List.map_map, ← List.map_flatten, hflat]

theorem genClusters_shape (p : IPAMPool) (d : String)
    (cfg : IPAMPoolDatacenterSettings)
    (hcfg : p.datacenters.lookup d = some cfg)
    (hv1 : cfg.poolCIDR.pfxLen ≤ cfg.poolCIDR.bits)
    (hv2 : cfg.poolCIDR.addr < 2 ^ cfg.poolCIDR.bits) :
    ∀ (cs : List Cluster) (m : DCUsage) (recs : List IPAMAllocation)
      (m' : DCUsage), genClusters p d cfg m cs = .ok (recs, m') →
      recs.map (fun a => a.cluster) =
        (cs.filter (fun c => !(clusterHasPool p.name c))).map Cluster.name ∧
      ∀ a ∈ recs, a.datacenter = d ∧ a.ipamPoolName = p.name ∧
        replayPasses p a := by
  intro cs
  induction cs with
  | nil =>
    intro m recs m' h
    simp only [genClusters, Except.ok.injEq, Prod.mk.injEq] at h
    obtain ⟨hrecs, _⟩ := h
    subst hrecs
    exact ⟨rfl, by simp⟩
  | cons c cs ih =>
    intro m recs m' h
    rw [genClusters] at h
    by_cases hhp : clusterHasPool p.name c
    · have hg : genCluster p d cfg m c = .ok (none, m) := by
        unfold genCluster
        rw [if_pos hhp]
      simp only [hg] at h
      obtain ⟨hmap, hprops⟩ := ih m recs m' h
      refine ⟨?_, hprops⟩
      rw [hmap, List.filter_cons]
      simp [hhp]
    · by_cases hty1 : cfg.type = "range"
      · have hg : genCluster p d cfg m c =
            match findFirstFreeRangesOfPool d cfg.poolCIDR cfg.allocRange m with
            | .error e => .error e
            | .ok (addresses, m1) =>
              .ok (some (IPAMAllocation.mk p.name c.name d cfg.type none
                addresses), m1) := by
          unfold genCluster
          rw [if_neg hhp, if_pos hty1]
        simp only [hg] at h
        cases hfr : findFirstFreeRangesOfPool d cfg.poolCIDR cfg.allocRange m with
        | error e =>
          simp only [hfr] at h
          simp at h
        | ok r1 =>
          obtain ⟨addrs, m1⟩ := r1
          simp only [hfr] at h
          cases hgen : genClusters p d cfg m1 cs with
          | error e =>
            simp only [hgen] at h
            simp at h
          | ok r2 =>
            obtain ⟨recs', m2⟩ := r2
            simp only [hgen] at h
            simp only [Except.ok.injEq, Prod.mk.injEq] at h
            obtain ⟨hrecs, _⟩ := h
            subst hrecs
            obtain ⟨hmap, hprops⟩ := ih m1 recs' m2 hgen
            constructor
            · rw [List.filter_cons]
              simp only [hhp, Bool.not_false, List.map_cons, List.map_cons]
              simp [hmap]
            · intro a ha
              rcases List.mem_cons.mp ha with hh | hh
              · subst hh
                refine ⟨rfl, rfl, ?_⟩
                refine replayAllocation_checkOk p _ cfg hcfg
                  (fun _ => ?_) (fun ht => ?_)
                · obtain ⟨hle, _, hexp⟩ :=
                    findFirstFreeRangesOfPool_ok_props d cfg.poolCIDR
                      cfg.allocRange m addrs m1 hfr
                  show checkRangeAllocation (getUsedIPsFromAddressRanges addrs)
                      cfg.poolCIDR cfg.allocRange = .ok ()
                  rw [hexp]
                  apply (checkRangeAllocation_iff _ _ _).mpr
                  constructor
                  · rw [List.length_map, List.length_take]
                    omega
                  · intro ip hip
                    simp only [List.mem_map] at hip
                    obtain ⟨v, hv, hipv⟩ := hip
                    rw [← hipv]
                    have hvfree : v ∈ calculateRangeFreeIPsFromDatacenterPool d
                        cfg.poolCIDR m := List.mem_of_mem_take hv
                    have hvblock : v ∈ blockIPs cfg.poolCIDR := by
                      unfold calculateRangeFreeIPsFromDatacenterPool at hvfree
                      exact List.mem_of_mem_filter hvfree
                    exact blockIPs_contained cfg.poolCIDR hv1 hv2 v hvblock
                · have ht' : cfg.type = "prefix" := ht
                  rw [hty1] at ht'
                  exact absurd ht' (by decide)
              · exact hprops a hh
      · by_cases hty2 : cfg.type = "prefix"
        · have hg : genCluster p d cfg m c =
              match findFirstFreeSubnetOfPool d cfg.poolCIDR cfg.allocPfx m with
              | .error e => .error e
              | .ok (subnetCIDR, m1) =>
                .ok (some (IPAMAllocation.mk p.name c.name d cfg.type
                  (some subnetCIDR) []), m1) := by
            unfold genCluster
            rw [if_neg hhp, if_neg hty1, if_pos hty2]
          simp only [hg] at h
          cases hfr : findFirstFreeSubnetOfPool d cfg.poolCIDR cfg.allocPfx m with
          | error e =>
            simp only [hfr] at h
            simp at h
          | ok r1 =>
            obtain ⟨cand, m1⟩ := r1
            simp only [hfr] at h
            cases hgen : genClusters p d cfg m1 cs with
            | error e =>
              simp only [hgen] at h
              simp at h
            | ok r2 =>
              obtain ⟨recs', m2⟩ := r2
              simp only [hgen] at h
              simp only [Except.ok.injEq, Prod.mk.injEq] at h
              obtain ⟨hrecs, _⟩ := h
              subst hrecs
              obtain ⟨hmap, hprops⟩ := ih m1 recs' m2 hgen
              constructor
              · rw [List.filter_cons]
                simp only [hhp, Bool.not_false, List.map_cons, List.map_cons]
                simp [hmap]
              · intro a ha
                rcases List.mem_cons.mp ha with hh | hh
                · subst hh
                  refine ⟨rfl, rfl, ?_⟩
                  obtain ⟨hpp, hpb', hpfxeq, hbits, hcont⟩ :=
                    findFirstFreeSubnetOfPool_ok_props d cfg.poolCIDR
                      cfg.allocPfx m cand m1 hfr
                  refine replayAllocation_checkOk p _ cfg hcfg
                    (fun ht => ?_) (fun _ => ?_)
                  · have ht' : cfg.type = "range" := ht
                    rw [hty2] at ht'
                    exact absurd ht' (by decide)
                  · apply (checkPrefixAllocation_iff (some cand) cfg.poolCIDR
                      cfg.allocPfx).mpr
                    refine ⟨cand, rfl, hpfxeq, by omega, by omega, ?_⟩
                    rw [containsAddr_network cfg.poolCIDR cand (by omega)
                      (by omega)]
                    exact hcont
                · exact hprops a hh
        · have hg : genCluster p d cfg m c =
              .ok (some (IPAMAllocation.mk p.name c.name d cfg.type none []),
                m) := by
            unfold genCluster
            rw [if_neg hhp, if_neg hty1, if_neg hty2]
          simp only [hg] at h
          cases hgen : genClusters p d cfg m cs with
          | error e =>
            simp only [hgen] at h
            simp at h
          | ok r2 =>
            obtain ⟨recs', m2⟩ := r2
            simp only [hgen] at h
            simp only [Except.ok.injEq, Prod.mk.injEq] at h
            obtain ⟨hrecs, _⟩ := h
            subst hrecs
            obtain ⟨hmap, hprops⟩ := ih m recs' m2 hgen
            constructor
            · rw [List.filter_cons]
              simp only [hhp, Bool.not_false, List.map_cons, List.map_cons]
              simp [hmap]
            · intro a ha
              rcases List.mem_cons.mp ha with hh | hh
              · subst hh
                refine ⟨rfl, rfl, ?_⟩
                exact replayAllocation_checkOk p _ cfg hcfg
                  (fun ht => absurd ht hty1) (fun ht => absurd ht hty2)
              · exact hprops a hh

theorem genCluster_cases (p : IPAMPool) (d : String)
    (cfg : IPAMPoolDatacenterSettings) (m : DCUsage) (c : Cluster) :
    ∀ (oa : Option IPAMAllocation) (m1 : DCUsage),
      genCluster p d cfg m c = .ok (oa, m1) →
      oa = none ∨ ∃ a, oa = some a ∧ a.datacenter = d ∧
        a.ipamPoolName = p.name ∧ a.cluster = c.name := by
  intro oa m1 h
  unfold genCluster at h
  split_ifs at h with h1 h2 h3
  · simp only [Except.ok.injEq, Prod.mk.injEq] at h
    exact Or.inl h.1.symm
  · cases hfr : findFirstFreeRangesOfPool d cfg.poolCIDR cfg.allocRange m with
    | error er =>
      simp only [hfr] at h
      simp at h
    | ok r =>
      obtain ⟨addrs, mm⟩ := r
      simp only [hfr, Except.ok.injEq, Prod.mk.injEq] at h
      exact Or.inr ⟨_, h.1.symm, rfl, rfl, rfl⟩
  · cases hfr : findFirstFreeSubnetOfPool d cfg.poolCIDR cfg.allocPfx m with
    | error er =>
      simp only [hfr] at h
      simp at h
    | ok r =>
      obtain ⟨cand, mm⟩ := r
      simp only [hfr, Except.ok.injEq, Prod.mk.injEq] at h
      exact Or.inr ⟨_, h.1.symm, rfl, rfl, rfl⟩
  · simp only [Except.ok.injEq, Prod.mk.injEq] at h
    exact Or.inr ⟨_, h.1.symm, rfl, rfl, rfl⟩

theorem genClusters_dc (p : IPAMPool) (d : String)
    (cfg : IPAMPoolDatacenterSettings) :
    ∀ (cs : List Cluster) (m : DCUsage) (recs : List IPAMAllocation)
      (m' : DCUsage), genClusters p d cfg m cs = .ok (recs, m') →
      ∀ a ∈ recs, a.datacenter = d ∧ a.ipamPoolName = p.name := by
  intro cs
  induction cs with
  | nil =>
    intro m recs m' h a ha
    simp only [genClusters, Except.ok.injEq, Prod.mk.injEq] at h
    rw [← h.1] at ha
    simp at ha
  | cons c cs ih =>
    intro m recs m' h a ha
    rw [genClusters] at h
    cases hgc : genCluster p d cfg m c with
    | error er =>
      simp only [hgc] at h
      simp at h
    | ok r1 =>
      obtain ⟨oa, mi⟩ := r1
      simp only [hgc] at h
      cases oa with
      | none => exact ih mi recs m' h a ha
      | some a0 =>
        cases hgen : genClusters p d cfg mi cs with
        | error er =>
          simp only [hgen] at h
          simp at h
        | ok r2 =>
          obtain ⟨recs', m2⟩ := r2
          simp only [hgen, Except.ok.injEq, Prod.mk.injEq] at h
          rw [← h.1] at ha
          rcases List.mem_cons.mp ha with hh | hh
          · subst hh
            rcases genCluster_cases p d cfg m c (some a) mi hgc with hno | ⟨a', ha', hd, hp', _⟩
            · simp at hno
            · simp only [Option.some.injEq] at ha'
              rw [ha']
              exact ⟨hd, hp'⟩
          · exact ih mi recs' m2 hgen a hh

theorem genEntry_cases (p : IPAMPool) (m : DCUsage) (e : String × List Cluster)
    (recs : List IPAMAllocation) (m' : DCUsage)
    (h : genEntry p m e = .ok (recs, m')) :
    (p.datacenters.lookup e.1 = none ∧ recs = [] ∧ m' = m) ∨
    (∃ cfg, p.datacenters.lookup e.1 = some cfg ∧
      genClusters p e.1 cfg m e.2 = .ok (recs, m')) := by
  unfold genEntry at h
  cases hl : p.datacenters.lookup e.1 with
  | none =>
    simp only [hl, Except.ok.injEq, Prod.mk.injEq] at h
    exact Or.inl ⟨rfl, h.1.symm, h.2.symm⟩
  | some cfg =>
    simp only [hl] at h
    exact Or.inr ⟨cfg, rfl, h⟩

theorem generate_dc_mem (p : IPAMPool) :
    ∀ (es : List (String × List Cluster)) (m : DCUsage)
      (recs : List IPAMAllocation) (m' : DCUsage),
      generateNewAllocationsForPool p m es = .ok (recs, m') →
      ∀ a ∈ recs, ∃ e ∈ es, a.datacenter = e.1 := by
  intro es
  induction es with
  | nil =>
    intro m recs m' h a ha
    simp only [generateNewAllocationsForPool, Except.ok.injEq,
      Prod.mk.injEq] at h
    rw [← h.1] at ha
    simp at ha
  | cons e es ih =>
    intro m recs m' h a ha
    rw [generateNewAllocationsForPool] at h
    cases hge : genEntry p m e with
    | error er =>
      simp only [hge] at h
      simp at h
    | ok r1 =>
      obtain ⟨block, m1⟩ := r1
      simp only [hge] at h
      cases hgr : generateNewAllocationsForPool p m1 es with
      | error er =>
        simp only [hgr] at h
        simp at h
      | ok r2 =>
        obtain ⟨recs', m2⟩ := r2
        simp only [hgr, Except.ok.injEq, Prod.mk.injEq] at h
        rw [← h.1] at ha
        rcases List.mem_append.mp ha with hh | hh
        · rcases genEntry_cases p m e block m1 hge with ⟨_, hb, _⟩ | ⟨cfg, _, hgc⟩
          · rw [hb] at hh
            simp at hh
          · exact ⟨e, by simp, (genClusters_dc p e.1 cfg e.2 m block m1 hgc a hh).1⟩
        · obtain ⟨e0, he0, hd⟩ := ih m1 recs' m2 hgr a hh
          exact ⟨e0, by simp [he0], hd⟩

theorem commitAllocations_append (t : Table) (xs ys : List IPAMAllocation) :
    commitAllocations t (xs ++ ys) =
      commitAllocations (commitAllocations t xs) ys := by
  unfold commitAllocations
  rw [List.foldl_append]

theorem commitFold_pass_head (c : Cluster) :
    ∀ (recs : List IPAMAllocation) (cs : List Cluster),
      (∀ a ∈ recs, a.cluster ≠ c.name) →
      commitFold recs (c :: cs) = c :: commitFold recs cs := by
  intro recs
  induction recs with
  | nil =>
    intro cs _
    rfl
  | cons r recs ih =>
    intro cs h
    have hstep : commitFold (r :: recs) (c :: cs) =
        commitFold recs (appendToFirstMatch r.cluster r (c :: cs)) := rfl
    rw [hstep, appendToFirstMatch,
      if_neg (fun hcon => h r (by simp) hcon.symm)]
    exact ih _ (fun a ha => h a (by simp [ha]))

theorem covered_after_commitFold (p : IPAMPool) :
    ∀ (cs : List Cluster) (recs : List IPAMAllocation),
      (cs.map Cluster.name).Nodup →
      recs.map (fun a => a.cluster) =
        (cs.filter (fun c => !(clusterHasPool p.name c))).map Cluster.name →
      (∀ a ∈ recs, a.ipamPoolName = p.name) →
      ∀ c' ∈ commitFold recs cs, clusterHasPool p.name c' = true := by
  intro cs
  induction cs with
  | nil =>
    intro recs _ hmap _ c' hc'
    simp only [List.filter_nil, List.map_nil, List.map_eq_nil_iff] at hmap
    subst hmap
    simp [commitFold] at hc'
  | cons c cs ih =>
    intro recs hnodup hmap hpn c' hc'
    obtain ⟨hn1, hn2⟩ := List.nodup_cons.mp hnodup
    by_cases hcp : clusterHasPool p.name c
    · rw [List.filter_cons, if_neg (by simp [hcp])] at hmap
      have hnotc : ∀ a ∈ recs, a.cluster ≠ c.name := by
        intro a ha hcon
        have : a.cluster ∈ recs.map (fun a => a.cluster) := List.mem_map_of_mem _ ha
        rw [hmap] at this
        simp only [List.mem_map] at this
        obtain ⟨c0, hc0, hc0n⟩ := this
        have hc0cs : c0 ∈ cs := List.mem_of_mem_filter hc0
        refine hn1 ?_
        have hceq : c.name = c0.name := by
          rw [hc0n, hcon]
        rw [hceq]
        exact List.mem_map_of_mem _ hc0cs
      rw [commitFold_pass_head c recs cs hnotc] at hc'
      rcases List.mem_cons.mp hc' with hh | hh
      · subst hh
        exact hcp
      · exact ih recs hn2 hmap hpn c' hh
    · rw [List.filter_cons, if_pos (by simp [hcp])] at hmap
      cases recs with
      | nil => simp at hmap
      | cons a0 recs' =>
        simp only [List.map_cons, List.cons.injEq] at hmap
        obtain ⟨ha0, hmap'⟩ := hmap
        have hstep : commitFold (a0 :: recs') (c :: cs) =
            commitFold recs' (appendToFirstMatch a0.cluster a0 (c :: cs)) := rfl
        rw [hstep, appendToFirstMatch, if_pos ha0.symm] at hc'
        have hnotc : ∀ a ∈ recs',
            a.cluster ≠ (Cluster.mk c.name (c.ipamAllocations ++ [a0])).name := by
          intro a ha hcon
          have hmem : a.cluster ∈ recs'.map (fun a => a.cluster) :=
            List.mem_map_of_mem _ ha
          rw [hmap'] at hmem
          simp only [List.mem_map] at hmem
          obtain ⟨c0, hc0, hc0n⟩ := hmem
          have hc0cs : c0 ∈ cs := List.mem_of_mem_filter hc0
          refine hn1 ?_
          have hceq : c.name = c0.name := by
            rw [hc0n, hcon]
          rw [hceq]
          exact List.mem_map_of_mem _ hc0cs
        rw [commitFold_pass_head _ recs' cs hnotc] at hc'
        rcases List.mem_cons.mp hc' with hh | hh
        · subst hh
          unfold clusterHasPool
          apply List.any_eq_true.mpr
          refine ⟨a0, by simp, ?_⟩
          simp [hpn a0 (by simp)]
        · exact ih recs' hn2 hmap' (fun a ha => hpn a (by simp [ha])) c' hh

theorem generate_commit_covered (p : IPAMPool)
    (hvalid : ∀ ec ∈ p.datacenters,
      ec.2.poolCIDR.pfxLen ≤ ec.2.poolCIDR.bits ∧
        ec.2.poolCIDR.addr < 2 ^ ec.2.poolCIDR.bits) :
    ∀ (t : Table) (m : DCUsage) (recs : List IPAMAllocation) (m' : DCUsage),
      (t.map Prod.fst).Nodup →
      (∀ e ∈ t, (e.2.map Cluster.name).Nodup) →
      generateNewAllocationsForPool p m t = .ok (recs, m') →
      (∀ e' ∈ commitAllocations t recs, entryCovered p e') ∧
      (∀ a ∈ recs, replayPasses p a) := by
  intro t
  induction t with
  | nil =>
    intro m recs m' _ _ h
    simp only [generateNewAllocationsForPool, Except.ok.injEq,
      Prod.mk.injEq] at h
    obtain ⟨hrecs, _⟩ := h
    rw [← hrecs]
    constructor
    · intro e' he'
      simp [commitAllocations] at he'
    · simp
  | cons e rest ih =>
    intro m recs m' hkeys hnames h
    rw [generateNewAllocationsForPool] at h
    cases hge : genEntry p m e with
    | error er =>
      simp only [hge] at h
      simp at h
    | ok r1 =>
      obtain ⟨block, m1⟩ := r1
      simp only [hge] at h
      cases hgr : generateNewAllocationsForPool p m1 rest with
      | error er =>
        simp only [hgr] at h
        simp at h
      | ok r2 =>
        obtain ⟨recs', m2⟩ := r2
        simp only [hgr, Except.ok.injEq, Prod.mk.injEq] at h
        obtain ⟨hrecs, _⟩ := h
        rw [← hrecs]
        have hblockdc : ∀ a ∈ block, a.datacenter = e.1 := by
          rcases genEntry_cases p m e block m1 hge with ⟨_, hb, _⟩ | ⟨cfg, _, hgc⟩
          · rw [hb]
            simp
          · exact fun a ha => (genClusters_dc p e.1 cfg e.2 m block m1 hgc a ha).1
        rw [List.map_cons] at hkeys
        obtain ⟨hk1, hk2⟩ := List.nodup_cons.mp hkeys
        have hrecs'ne : ∀ a ∈ recs', a.datacenter ≠ e.1 := by
          intro a ha hcon
          obtain ⟨e0, he0, hd⟩ := generate_dc_mem p rest m1 recs' m2 hgr a ha
          rw [hcon] at hd
          exact hk1 (hd ▸ List.mem_map_of_mem Prod.fst he0)
        have hsplit : commitAllocations (e :: rest) (block ++ recs') =
            (e.1, commitFold block e.2) :: commitAllocations rest recs' := by
          rw [commitAllocations_append]
          have h1 : commitAllocations (e :: rest) block =
              (e.1, commitFold block e.2) :: rest :=
            commit_all_dc_head e.1 rest block e.2 hblockdc
          rw [h1]
          exact commit_skip_head (e.1, commitFold block e.2) rest recs' hrecs'ne
        have hrest := ih m1 recs' m2 hk2 (fun e0 he0 => hnames e0 (by simp [he0])) hgr
        constructor
        · intro e' he'
          rw [hsplit] at he'
          rcases List.mem_cons.mp he' with hh | hh
          · subst hh
            rcases genEntry_cases p m e block m1 hge with
              ⟨hnone, _, _⟩ | ⟨cfg, hcfg, hgc⟩
            · exact Or.inl hnone
            · right
              intro c' hc'
              have hvcfg := hvalid (e.1, cfg) (lookup_mem_of_eq_some hcfg)
              obtain ⟨hmap, hprops⟩ := genClusters_shape p e.1 cfg hcfg
                hvcfg.1 hvcfg.2 e.2 m block m1 hgc
              exact covered_after_commitFold p e.2 block (hnames e (by simp))
                hmap (fun a ha => (hprops a ha).2.1) c' hc'
          · exact hrest.1 e' hh
        · intro a ha
          rcases List.mem_append.mp ha with hh | hh
          · rcases genEntry_cases p m e block m1 hge with
              ⟨_, hb, _⟩ | ⟨cfg, hcfg, hgc⟩
            · rw [hb] at hh
              simp at hh
            · have hvcfg := hvalid (e.1, cfg) (lookup_mem_of_eq_some hcfg)
              obtain ⟨_, hprops⟩ := genClusters_shape p e.1 cfg hcfg
                hvcfg.1 hvcfg.2 e.2 m block m1 hgc
              exact (hprops a hh).2.2
          · exact hrest.2 a hh

theorem generate_of_covered (p : IPAMPool) :
    ∀ (es : List (String × List Cluster)) (m : DCUsage),
      (∀ e ∈ es, entryCovered p e) →
      generateNewAllocationsForPool p m es = .ok ([], m) := by
  intro es
  induction es with
  | nil =>
    intro m _
    rfl
  | cons e es ih =>
    intro m h
    rw [generateNewAllocationsForPool]
    have hge : genEntry p m e = .ok ([], m) := by
      unfold genEntry
      rcases h e (by simp) with hnone | hcov
      · simp only [hnone]
      · cases hl : p.datacenters.lookup e.1 with
        | none => rfl
        | some cfg =>
          simp only []
          exact genClusters_all_skip p e.1 cfg e.2 m hcov
    rw [hge]
    simp only [ih m (fun e' he' => h e' (by simp [he'])), List.nil_append]

/-! ### Claims -/

/-- Claim C1: transactional apply — whenever `apply` returns an error,
whether from the replay/compatibility pass or from an allocator during
generation, the datacenter allocation table it returns is exactly the
table it received; no allocation record is added, removed, or changed
on any error path. -/
theorem apply_error_leaves_table_unchanged (t : Table) (p : IPAMPool)
    (e : GoErr) (h : (apply t p).2 = some e) : (apply t p).1 = t := by
  unfold apply applyOrd at h ⊢
  cases hc : compileEntries p t with
  | error e' => simp [hc]
  | ok m =>
    cases hg : generateNewAllocationsForPool p m t with
    | error e' => simp [hc, hg]
    | ok r => simp [hc, hg] at h

/-- Witness for C1: a concrete failing apply (two clusters asking for
2 addresses each from a single-address pool) leaves the table
unchanged. -/
theorem apply_error_leaves_table_unchanged_witness :
    (apply tPair pOverCap).2 = some GoErr.noEnoughFreeIPs ∧
      (apply tPair pOverCap).1 = tPair :=
  ⟨by decide,
    apply_error_leaves_table_unchanged tPair pOverCap GoErr.noEnoughFreeIPs
      (by decide)⟩

/-- Counterexample to C8 as stated: the pool spec `pUnknownDC` names
datacenter `dc2`, which is absent from the table `tOne`, yet `apply`
returns no error at all (and leaves the table unchanged), instead of
failing with an unknown-datacenter error. -/
theorem apply_unknown_dc_no_error : (apply tOne pUnknownDC).2 = none := by
  decide

/-- Claim C8 (amended): the engine raises no unknown-datacenter error.
A datacenter named by the pool spec but absent from the allocation
table is silently ignored: when every spec lookup made by the call
misses (no table entry and no existing record names a configured
datacenter), `apply` succeeds and returns the table unchanged. -/
theorem apply_ignores_unknown_datacenters (t : Table) (p : IPAMPool)
    (hdc : ∀ e ∈ t, p.datacenters.lookup e.1 = none)
    (hrec : ∀ e ∈ t, ∀ c ∈ e.2, ∀ a ∈ c.ipamAllocations,
      p.datacenters.lookup a.datacenter = none) :
    apply t p = (t, none) := by
  unfold apply applyOrd compileEntries
  rw [compileFrom_unconfigured p [] t hrec]
  simp [generate_unconfigured p [] t hdc, commitAllocations]

/-- Witness for the amended C8: the concrete spec naming only the
absent datacenter `dc2` succeeds without touching the table. -/
theorem apply_ignores_unknown_datacenters_witness :
    apply tOne pUnknownDC = (tOne, none) :=
  apply_ignores_unknown_datacenters tOne pUnknownDC (by decide) (by decide)

/-- Claim C10: an unrecognized allocation type in a datacenter's
settings is not an error.  When every configured datacenter carries a
type other than `"range"` and `"prefix"`, and the replay pass
succeeds, `apply` succeeds and commits, for every cluster of a
configured datacenter not already allocated under the pool name, a
record carrying that type with an empty address list and an empty
CIDR. -/
theorem apply_unrecognized_type (t : Table) (p : IPAMPool) (m : DCUsage)
    (hty : ∀ e ∈ p.datacenters, e.2.type ≠ "range" ∧ e.2.type ≠ "prefix")
    (hc : compileEntries p t = .ok m) :
    apply t p = (commitAllocations t (skeletonRecords t p), none) := by
  unfold apply applyOrd
  rw [hc]
  simp only [generate_unrecognized p m t hty]

/-- Witness for C10: a concrete spec of type `"weird"` succeeds,
committing a record with type `"weird"`, no addresses and no CIDR. -/
theorem apply_unrecognized_type_witness :
    compileEntries pWeirdType tOne = .ok [] ∧
      apply tOne pWeirdType =
        (commitAllocations tOne (skeletonRecords tOne pWeirdType), none) :=
  ⟨by decide, apply_unrecognized_type tOne pWeirdType [] (by decide) (by decide)⟩

/-- Counterexample to C3 as stated: on a table whose datacenter holds
two clusters both named `"A"`, the first `apply` succeeds but commits
both new records to the first cluster of that name (the commit loop
breaks at the first name match), so the second cluster still holds no
allocation under the pool; a second `apply` of the identical spec then
succeeds but appends a further allocation, changing the table. -/
theorem apply_not_idempotent_dup_names :
    (apply tDup pDup).2 = none ∧
      (apply (apply tDup pDup).1 pDup).2 = none ∧
      (apply (apply tDup pDup).1 pDup).1 ≠ (apply tDup pDup).1 := by
  decide

/-- Claim C3 (amended): idempotence — for every datacenter allocation
table whose datacenter keys are distinct and whose cluster names are
distinct within each datacenter (as they are for a Go map of uniquely
named clusters), with parseable pool CIDRs, if `apply` of a pool spec
succeeds then applying the identical spec a second time also succeeds
and leaves the table exactly as after the first apply: every cluster
already holding an allocation under the pool name is skipped and no
new record is appended. -/
theorem apply_idempotent (t : Table) (p : IPAMPool) (t1 : Table)
    (hvalid : ∀ ec ∈ p.datacenters,
      ec.2.poolCIDR.pfxLen ≤ ec.2.poolCIDR.bits ∧
        ec.2.poolCIDR.addr < 2 ^ ec.2.poolCIDR.bits)
    (hkeys : (t.map Prod.fst).Nodup)
    (hnames : ∀ e ∈ t, (e.2.map Cluster.name).Nodup)
    (h1 : apply t p = (t1, none)) :
    apply t1 p = (t1, none) := by
  unfold apply applyOrd at h1
  cases hc : compileEntries p t with
  | error e =>
    simp only [hc] at h1
    simp at h1
  | ok m0 =>
    simp only [hc] at h1
    cases hg : generateNewAllocationsForPool p m0 t with
    | error e =>
      simp only [hg] at h1
      simp at h1
    | ok r =>
      obtain ⟨recs, mf⟩ := r
      simp only [hg, Prod.mk.injEq] at h1
      obtain ⟨ht1, _⟩ := h1
      obtain ⟨hcov, hpass⟩ :=
        generate_commit_covered p hvalid t m0 recs mf hkeys hnames hg
      have holdpass := compileFrom_ok_pass p t [] m0 hc
      have ht1pass : ∀ e ∈ t1, ∀ c ∈ e.2, ∀ a ∈ c.ipamAllocations,
          replayPasses p a := by
        intro e he c hcm a ha
        rw [← ht1] at he
        rcases commitAllocations_mem recs t e he c hcm a ha with
          ⟨e₀, he₀, c₀, hc₀, hx₀⟩ | hxr
        · exact holdpass e₀ he₀ c₀ hc₀ a hx₀
        · exact hpass a hxr
      obtain ⟨m2, hc2⟩ := compileFrom_pass_ok p t1 ht1pass []
      have hg2 : generateNewAllocationsForPool p m2 t1 = .ok ([], m2) := by
        apply generate_of_covered
        intro e he
        rw [← ht1] at he
        exact hcov e he
      unfold apply applyOrd
      simp only [compileEntries, hc2, hg2]
      rfl

/-- Witness for the amended C3: a concrete successful apply on two
uniquely named clusters, reapplied, leaves the table unchanged. -/
theorem apply_idempotent_witness :
    apply (apply tPair pRangeOk).1 pRangeOk = ((apply tPair pRangeOk).1, none) :=
  apply_idempotent tPair pRangeOk (apply tPair pRangeOk).1 (by decide)
    (by decide) (by decide) (by decide)

/-- Counterexample to C4 as stated: for the range allocation `rsDup`
whose two range strings overlap, the expanded address SET has only 2
members, yet `checkRangeAllocation` succeeds with
`allocationRange = 3` because the source compares the expanded LIST
length (with multiplicity), not the set's cardinality. -/
theorem checkRangeAllocation_counts_multiplicity :
    (getUsedIPsFromAddressRanges rsDup).dedup.length = 2 ∧
      checkRangeAllocation (getUsedIPsFromAddressRanges rsDup)
        (CIDR.mk 32 net1 28) 3 = .ok () := by
  decide

/-- Claim C6 (amended): prefix allocator error conditions — for every
parseable pool CIDR of NONZERO prefix length,
`findFirstFreeSubnetOfPool` fails with the invalid-prefix error
exactly when the requested prefix length is strictly less than the
pool's own prefix length or strictly greater than the address width;
when it is in range, the result is the first candidate subnet
(enumerated at stride `2 ^ (bits - sp)` from the pool's masked network
address while contained in the pool) whose canonical key is not marked
used, and the cannot-find-free-subnet error occurs exactly when every
candidate subnet in the pool is marked used.  The nonzero-prefix
restriction is necessary: for the parseable pool `0.0.0.0/0` with all
candidates used, `nextSubnet` wraps back into the pool and the Go loop
never terminates instead of returning the error — see the
counterexample `findFirstFreeSubnetOfPool_slash0_diverges`.  With
`0 < pfxLen` the candidate following the pool block fails the
containment test (`candAt_exit`), so the Go loop exits and the finite
model is its exact behaviour. -/
theorem findFirstFreeSubnetOfPool_characterization (dc : String) (pool : CIDR)
    (sp : Nat) (m : DCUsage) (hpb : pool.pfxLen ≤ pool.bits)
    (hpa : pool.addr < 2 ^ pool.bits) (_hp0 : 0 < pool.pfxLen) :
    (findFirstFreeSubnetOfPool dc pool sp m = .error .invalidPfxForSubnet ↔
      sp < pool.pfxLen ∨ pool.bits < sp) ∧
    (pool.pfxLen ≤ sp → sp ≤ pool.bits →
      (findFirstFreeSubnetOfPool dc pool sp m =
        match (specCandidates pool sp).find?
            (fun c => !(isUsed m dc (cidrKey c))) with
        | some c => .ok (c, setUsed m dc (cidrKey c))
        | none => .error .cannotFindFreeSubnet) ∧
      (findFirstFreeSubnetOfPool dc pool sp m = .error .cannotFindFreeSubnet ↔
        ∀ c ∈ specCandidates pool sp, isUsed m dc (cidrKey c) = true)) := by
  constructor
  · unfold findFirstFreeSubnetOfPool
    split_ifs with h1 h2
    · simp [h1]
    · simp only [eq_self_iff_true, true_iff]
      right
      omega
    · constructor
      · intro h
        have := subnetSearch_error_value dc pool m _ _ _ h
        exact absurd this (by simp)
      · intro h
        omega
  · intro hsp1 hsp2
    have hmain : findFirstFreeSubnetOfPool dc pool sp m =
        match (specCandidates pool sp).find?
            (fun c => !(isUsed m dc (cidrKey c))) with
        | some c => .ok (c, setUsed m dc (cidrKey c))
        | none => .error .cannotFindFreeSubnet := by
      unfold findFirstFreeSubnetOfPool
      rw [if_neg (by omega), if_neg (by omega)]
      rw [start_eq_candAt_zero pool sp hpa hsp1]
      have hrun := subnetSearch_run dc pool sp m hpb hpa hsp1 hsp2
        (2 ^ (sp - pool.pfxLen)) 0 (by omega) (by omega)
      rw [List.drop_zero] at hrun
      exact hrun
    refine ⟨hmain, ?_⟩
    rw [hmain]
    cases hf : (specCandidates pool sp).find?
        (fun c => !(isUsed m dc (cidrKey c))) with
    | none =>
      simp only [List.find?_eq_none] at hf
      constructor
      · intro _ c hc
        have := hf c hc
        simp at this
        exact this
      · intro _
        rfl
    | some c =>
      have hp := List.find?_some hf
      have hcmem := List.mem_of_find?_eq_some hf
      constructor
      · intro h
        simp at h
      · intro hall
        have := hall c hcmem
        simp [this] at hp

/-- Witness for the amended C6: at pool `192.168.0.0/28` (nonzero
prefix length) with requested prefix length 30 and an empty usage map,
the hypotheses hold and the allocator's result is the first free
candidate of the spec's enumeration. -/
theorem findFirstFreeSubnetOfPool_characterization_witness :
    (28 : Nat) ≤ 32 ∧ net0 < 2 ^ 32 ∧ (0 : Nat) < 28 ∧
      findFirstFreeSubnetOfPool "dc1" (CIDR.mk 32 net0 28) 30 [] =
        match (specCandidates (CIDR.mk 32 net0 28) 30).find?
            (fun c => !(isUsed [] "dc1" (cidrKey c))) with
        | some c => .ok (c, setUsed [] "dc1" (cidrKey c))
        | none => .error .cannotFindFreeSubnet :=
  ⟨by decide, by decide, by decide,
    ((findFirstFreeSubnetOfPool_characterization "dc1" (CIDR.mk 32 net0 28) 30 []
        (by decide) (by decide) (by decide)).2 (by decide) (by decide)).1⟩

/-- Counterexample to C2 as stated: with pool `192.168.1.0/32` whose
only address is already marked used and a requested count of 0, no
address of the pool is wanted and none is free, so the claim's
capacity condition does not hold and a (trivially empty) range list
should be returned; instead the source indexes `rangeFreeIPs[0]` on
the empty free slice and panics (modelled as `indexOutOfRange`). -/
theorem findFirstFreeRangesOfPool_zero_count_panics :
    findFirstFreeRangesOfPool "dc1" (CIDR.mk 32 net1 32) 0 mPanic =
        .error .indexOutOfRange ∧
      calculateRangeFreeIPsFromDatacenterPool "dc1" (CIDR.mk 32 net1 32)
        mPanic = [] := by
  decide

/-- Claim C2 (amended): range allocator correctness — for a pool of
NONZERO prefix length, `findFirstFreeRangesOfPool` fails with a
capacity error exactly when fewer than `count` addresses of the pool
CIDR are unmarked in the usage map; otherwise, provided the count is
nonzero or some address is free (the excluded corner panics on an
out-of-bounds index), it returns the minimal partition of the first
`count` free addresses in ascending order into maximal contiguous runs
(a single-address run being the pair `(ip, ip)`), whose expansion
concatenated in order is exactly those `count` addresses, and each
taken address is marked used in the returned usage map.  The
nonzero-prefix restriction is necessary: for the parseable pool
`0.0.0.0/0` the free-address loop's `Contains` test is always true and
`incIP` wraps, so the Go loop never terminates and nothing is returned
at all.  With `0 < pfxLen` the address following the pool block fails
`Contains` (`blockIPs_exit`), the loop exits after exactly the
`blockIPs` visit sequence, and the characterization is the program's
exact behaviour. -/
theorem findFirstFreeRangesOfPool_characterization (dc : String) (pool : CIDR)
    (n : Nat) (m : DCUsage) (free : List Nat) (_hp0 : 0 < pool.pfxLen)
    (hfree : free = calculateRangeFreeIPsFromDatacenterPool dc pool m) :
    (findFirstFreeRangesOfPool dc pool n m = .error .noEnoughFreeIPs ↔
      free.length < n) ∧
    (n ≤ free.length → (n ≠ 0 ∨ free ≠ []) →
      findFirstFreeRangesOfPool dc pool n m =
        .ok ((specRuns pool.bits (free.take n)).map
            (fun r => AddrRange.mk pool.bits r.1 r.2),
          (free.take n).foldl
            (fun mm v => setUsed mm dc (UKey.addr pool.bits v)) m) ∧
      ((specRuns pool.bits (free.take n)).map
          (fun r => rangeIPs pool.bits r.1 r.2)).flatten = free.take n ∧
      ∀ v ∈ free.take n,
        isUsed ((free.take n).foldl
            (fun mm v => setUsed mm dc (UKey.addr pool.bits v)) m) dc
          (UKey.addr pool.bits v) = true) :=
  rangesOfPool_spec dc pool n m free hfree

/-- Witness for the amended C2: pool `192.168.1.0/30` with
`192.168.1.1` already used and count 2 — the taken addresses are
`192.168.1.0` and `192.168.1.2`, emitted as two single-address runs,
expanded back to exactly those addresses, both marked used. -/
theorem findFirstFreeRangesOfPool_characterization_witness :
    (0 : Nat) < poolR.pfxLen ∧ (2 : Nat) ≤ freeR.length ∧
      (findFirstFreeRangesOfPool "dc1" poolR 2 mR =
        .ok ((specRuns poolR.bits (freeR.take 2)).map
            (fun r => AddrRange.mk poolR.bits r.1 r.2),
          (freeR.take 2).foldl
            (fun mm v => setUsed mm "dc1" (UKey.addr poolR.bits v)) mR) ∧
      ((specRuns poolR.bits (freeR.take 2)).map
          (fun r => rangeIPs poolR.bits r.1 r.2)).flatten = freeR.take 2 ∧
      ∀ v ∈ freeR.take 2,
        isUsed ((freeR.take 2).foldl
            (fun mm v => setUsed mm "dc1" (UKey.addr poolR.bits v)) mR) "dc1"
          (UKey.addr poolR.bits v) = true) :=
  ⟨by decide, by decide,
    (findFirstFreeRangesOfPool_characterization "dc1" poolR 2 mR freeR
        (by decide) rfl).2
      (by decide) (Or.inl (by decide))⟩

/-- Counterexample to C7 as stated: starting from an empty usage map,
`findFirstFreeSubnetOfPool` returns the subnet `192.168.0.0/30` of
pool `192.168.0.0/28` together with a usage map that now contains that
subnet's key — the map immediately after the call is NOT unchanged,
because the allocator marks the returned subnet used itself. -/
theorem prefix_allocator_mutates_usage_cex :
    findFirstFreeSubnetOfPool "dc1" (CIDR.mk 32 net0 28) 30 [] =
      .ok (CIDR.mk 32 net0 30, [("dc1", UKey.cidr 32 net0 30)]) ∧
      ([("dc1", UKey.cidr 32 net0 30)] : DCUsage) ≠ ([] : DCUsage) := by
  decide

/-- Claim C7 (amended): when `findFirstFreeSubnetOfPool` returns a
subnet, the usage map immediately after the call equals the map before
the call with exactly the returned subnet's key added: the allocator
itself marks the key used before returning (so the returned key is
marked used after the call), and no separate marking in the caller is
required. -/
theorem prefix_allocator_marks_returned_subnet (dc : String) (pool : CIDR)
    (sp : Nat) (m : DCUsage) (c : CIDR) (m' : DCUsage)
    (h : findFirstFreeSubnetOfPool dc pool sp m = .ok (c, m')) :
    m' = setUsed m dc (UKey.cidr c.bits c.addr c.pfxLen) ∧
      isUsed m' dc (UKey.cidr c.bits c.addr c.pfxLen) = true := by
  unfold findFirstFreeSubnetOfPool at h
  split_ifs at h
  have hm := subnetSearch_ok_usage _ _ _ _ _ _ _ h
  refine ⟨hm, ?_⟩
  rw [hm]
  simp [isUsed, setUsed]

/-- Witness for the amended C7: at the concrete input of the
counterexample the returned map is exactly the input map with the
returned subnet's key marked used. -/
theorem prefix_allocator_marks_returned_subnet_witness :
    ([("dc1", UKey.cidr 32 net0 30)] : DCUsage) =
        setUsed [] "dc1" (UKey.cidr 32 net0 30) ∧
      isUsed [("dc1", UKey.cidr 32 net0 30)] "dc1" (UKey.cidr 32 net0 30) = true :=
  prefix_allocator_marks_returned_subnet "dc1" (CIDR.mk 32 net0 28) 30 []
    (CIDR.mk 32 net0 30) [("dc1", UKey.cidr 32 net0 30)] (by decide)

/-- Claim C4 (amended): compatibility checker — for a range-type
existing allocation, the check succeeds iff the list of addresses
expanded from its range strings, counted with multiplicity, has
exactly `allocationRange` elements and every address is contained in
the new pool CIDR, failing with the incompatible-pool error otherwise;
for a prefix-type existing allocation, the check succeeds iff its CIDR
parses, its prefix length equals `allocationPrefix` exactly, lies
within `[poolPfxLen, addressBits]`, and its network address is
contained in the new pool CIDR. -/
theorem compatibility_checker_characterization (rs : List AddrRange)
    (sub : Option CIDR) (pool : CIDR) (nRange nPfx : Nat) :
    (checkRangeAllocation (getUsedIPsFromAddressRanges rs) pool nRange = .ok () ↔
      (getUsedIPsFromAddressRanges rs).length = nRange ∧
        ∀ ip ∈ getUsedIPsFromAddressRanges rs,
          pool.containsAddr ip.bits ip.val = true) ∧
    (checkPrefixAllocation sub pool nPfx = .ok () ↔
      ∃ c, sub = some c ∧ c.pfxLen = nPfx ∧ pool.pfxLen ≤ c.pfxLen ∧
        c.pfxLen ≤ pool.bits ∧
        pool.containsAddr c.bits (CIDR.network c) = true) :=
  ⟨checkRangeAllocation_iff (getUsedIPsFromAddressRanges rs) pool nRange,
    checkPrefixAllocation_iff sub pool nPfx⟩

theorem containsAddr_true_iff (c : CIDR) (b a : Nat) :
    c.containsAddr b a = true ↔
      b = c.bits ∧ maskAddr c.bits c.pfxLen a = c.network := by
  simp [CIDR.containsAddr]

theorem containsAddr_lt (pool : CIDR) (b a : Nat)
    (hpb : pool.pfxLen ≤ pool.bits) (hpa : pool.addr < 2 ^ pool.bits)
    (h : pool.containsAddr b a = true) : a < 2 ^ pool.bits := by
  obtain ⟨hb, hm⟩ := (containsAddr_true_iff pool b a).mp h
  by_contra hcon
  push_neg at hcon
  have hS : 0 < 2 ^ (pool.bits - pool.pfxLen) :=
    Nat.pos_pow_of_pos _ (by norm_num)
  have h1 : a / 2 ^ (pool.bits - pool.pfxLen) * 2 ^ (pool.bits - pool.pfxLen)
      + a % 2 ^ (pool.bits - pool.pfxLen) = a := Nat.div_add_mod' a _
  have h2 : a % 2 ^ (pool.bits - pool.pfxLen) <
      2 ^ (pool.bits - pool.pfxLen) := Nat.mod_lt _ hS
  have h3 := network_add_block_le pool hpb hpa
  unfold maskAddr at hm
  omega

theorem isUsed_iff_mem (m : DCUsage) (d : String) (k : UKey) :
    isUsed m d k = true ↔ (d, k) ∈ m := by
  simp [isUsed]

theorem isUsed_append (d1 m : DCUsage) (d : String) (k : UKey) :
    isUsed (d1 ++ m) d k = (isUsed d1 d k || isUsed m d k) := by
  simp [isUsed, List.contains_eq_any_beq, List.any_append]

theorem foldl_setUsedIP_eq (dc : String) :
    ∀ (l : List IPv) (m : DCUsage),
      l.foldl (fun acc ip => setUsed acc dc (UKey.addr ip.bits ip.val)) m =
        (l.reverse.map (fun ip => (dc, UKey.addr ip.bits ip.val))) ++ m := by
  intro l
  induction l with
  | nil => intro m; rfl
  | cons a l ih =>
    intro m
    rw [List.foldl_cons, ih, List.reverse_cons, List.map_append]
    simp [setUsed]

theorem foldl_setUsedNat_eq (dc : String) (w : Nat) :
    ∀ (l : List Nat) (m : DCUsage),
      l.foldl (fun mm v => setUsed mm dc (UKey.addr w v)) m =
        (l.reverse.map (fun v => (dc, UKey.addr w v))) ++ m := by
  intro l
  induction l with
  | nil => intro m; rfl
  | cons a l ih =>
    intro m
    rw [List.foldl_cons, ih, List.reverse_cons, List.map_append]
    simp [setUsed]

theorem replayAllocation_marks (p : IPAMPool) (a : IPAMAllocation)
    (m m₁ : DCUsage) (h : replayAllocation p m a = .ok m₁) :
    m₁ = marksOf p a ++ m := by
  unfold replayAllocation at h
  unfold marksOf
  cases hcfg : p.datacenters.lookup a.datacenter with
  | none =>
    simp only [hcfg] at h ⊢
    simp only [Except.ok.injEq] at h
    rw [← h]
    rfl
  | some cfg =>
    simp only [hcfg] at h ⊢
    by_cases hname : a.ipamPoolName = p.name
    · rw [if_pos hname] at h ⊢
      by_cases ht1 : a.type = "range"
      · rw [if_pos ht1] at h ⊢
        cases hchk : checkRangeAllocation (getUsedIPsFromAddressRanges
            a.addresses) cfg.poolCIDR cfg.allocRange with
        | error e =>
          simp only [hchk] at h
          simp at h
        | ok u =>
          cases u
          simp only [hchk, Except.ok.injEq] at h
          rw [← h]
          exact foldl_setUsedIP_eq a.datacenter _ m
      · rw [if_neg ht1] at h ⊢
        by_cases ht2 : a.type = "prefix"
        · rw [if_pos ht2] at h ⊢
          cases hchk : checkPrefixAllocation a.cidr cfg.poolCIDR
              cfg.allocPfx with
          | error e =>
            simp only [hchk] at h
            simp at h
          | ok u =>
            cases u
            simp only [hchk] at h
            cases hc : a.cidr with
            | none =>
              simp only [hc, Except.ok.injEq] at h ⊢
              rw [← h]
              rfl
            | some c =>
              simp only [hc, Except.ok.injEq] at h ⊢
              rw [← h]
              rfl
        · rw [if_neg ht2] at h ⊢
          simp only [Except.ok.injEq] at h
          rw [← h]
          rfl
    · rw [if_neg hname] at h ⊢
      simp only [Except.ok.injEq] at h
      rw [← h]
      rfl

theorem replayAllocs_marks (p : IPAMPool) :
    ∀ (l : List IPAMAllocation) (m m' : DCUsage),
      replayAllocs p m l = .ok m' →
      ∀ (d : String) (k : UKey),
        isUsed m' d k =
          (l.any (fun a => isUsed (marksOf p a) d k) || isUsed m d k) := by
  intro l
  induction l with
  | nil =>
    intro m m' h d k
    simp only [replayAllocs, Except.ok.injEq] at h
    rw [← h]
    simp
  | cons a l ih =>
    intro m m' h d k
    rw [replayAllocs] at h
    cases hra : replayAllocation p m a with
    | error e =>
      rw [hra] at h
      simp at h
    | ok m₁ =>
      rw [hra] at h
      have hm1 : isUsed m₁ d k = (isUsed (marksOf p a) d k || isUsed m d k) := by
        rw [replayAllocation_marks p a m m₁ hra, isUsed_append]
      rw [ih m₁ m' h d k, hm1, List.any_cons]
      cases isUsed (marksOf p a) d k <;>
        cases l.any (fun a => isUsed (marksOf p a) d k) <;>
        cases isUsed m d k <;> rfl

theorem replayClusters_marks (p : IPAMPool) :
    ∀ (cs : List Cluster) (m m' : DCUsage),
      replayClusters p m cs = .ok m' →
      ∀ (d : String) (k : UKey),
        isUsed m' d k =
          (cs.any (fun c => c.ipamAllocations.any
              (fun a => isUsed (marksOf p a) d k)) || isUsed m d k) := by
  intro cs
  induction cs with
  | nil =>
    intro m m' h d k
    simp only [replayClusters, Except.ok.injEq] at h
    rw [← h]
    simp
  | cons c cs ih =>
    intro m m' h d k
    rw [replayClusters] at h
    cases hra : replayAllocs p m c.ipamAllocations with
    | error e =>
      rw [hra] at h
      simp at h
    | ok m₁ =>
      rw [hra] at h
      have hm1 := replayAllocs_marks p c.ipamAllocations m m₁ hra d k
      rw [ih m₁ m' h d k, hm1, List.any_cons]
      cases c.ipamAllocations.any (fun a => isUsed (marksOf p a) d k) <;>
        cases cs.any (fun c => c.ipamAllocations.any
          (fun a => isUsed (marksOf p a) d k)) <;>
        cases isUsed m d k <;> rfl

theorem compileFrom_marks (p : IPAMPool) :
    ∀ (es : List (String × List Cluster)) (m m' : DCUsage),
      compileFrom p m es = .ok m' →
      ∀ (d : String) (k : UKey),
        isUsed m' d k =
          (es.any (fun e => e.2.any (fun c => c.ipamAllocations.any
              (fun a => isUsed (marksOf p a) d k))) || isUsed m d k) := by
  intro es
  induction es with
  | nil =>
    intro m m' h d k
    simp only [compileFrom, Except.ok.injEq] at h
    rw [← h]
    simp
  | cons e es ih =>
    intro m m' h d k
    rw [compileFrom] at h
    cases hra : replayClusters p m e.2 with
    | error er =>
      rw [hra] at h
      simp at h
    | ok m₁ =>
      rw [hra] at h
      have hm1 := replayClusters_marks p e.2 m m₁ hra d k
      rw [ih m₁ m' h d k, hm1, List.any_cons]
      cases e.2.any (fun c => c.ipamAllocations.any
          (fun a => isUsed (marksOf p a) d k)) <;>
        cases es.any (fun e => e.2.any (fun c => c.ipamAllocations.any
          (fun a => isUsed (marksOf p a) d k))) <;>
        cases isUsed m d k <;> rfl

theorem compileEntries_mark_present (p : IPAMPool) (t : Table) (m0 : DCUsage)
    (hc : compileEntries p t = .ok m0) (e : String × List Cluster) (he : e ∈ t)
    (c : Cluster) (hcl : c ∈ e.2) (a : IPAMAllocation)
    (ha : a ∈ c.ipamAllocations) (d : String) (k : UKey)
    (hk : isUsed (marksOf p a) d k = true) : isUsed m0 d k = true := by
  rw [compileFrom_marks p t [] m0 hc d k]
  have hany : t.any (fun e => e.2.any (fun c => c.ipamAllocations.any
      (fun a => isUsed (marksOf p a) d k))) = true :=
    List.any_eq_true.mpr ⟨e, he, List.any_eq_true.mpr
      ⟨c, hcl, List.any_eq_true.mpr ⟨a, ha, hk⟩⟩⟩
  rw [hany]
  rfl

theorem marksOf_range_mark (p : IPAMPool) (a : IPAMAllocation)
    (cfg : IPAMPoolDatacenterSettings)
    (hcfg : p.datacenters.lookup a.datacenter = some cfg)
    (hname : a.ipamPoolName = p.name) (ht : a.type = "range")
    (ip : IPv) (hip : ip ∈ getUsedIPsFromAddressRanges a.addresses) :
    isUsed (marksOf p a) a.datacenter (UKey.addr ip.bits ip.val) = true := by
  unfold marksOf
  simp only [hcfg, if_pos hname, if_pos ht]
  refine (isUsed_iff_mem _ _ _).mpr ?_
  simp only [List.mem_map, List.mem_reverse]
  exact ⟨ip, hip, rfl⟩

theorem marksOf_pfx_mark (p : IPAMPool) (a : IPAMAllocation)
    (cfg : IPAMPoolDatacenterSettings)
    (hcfg : p.datacenters.lookup a.datacenter = some cfg)
    (hname : a.ipamPoolName = p.name) (ht : a.type = "prefix")
    (c : CIDR) (hc : a.cidr = some c) :
    isUsed (marksOf p a) a.datacenter
      (UKey.cidr c.bits c.addr c.pfxLen) = true := by
  unfold marksOf
  simp only [hcfg, if_pos hname, if_neg (by simp [ht] : ¬a.type = "range"),
    if_pos ht, hc]
  simp [isUsed]

theorem replayPasses_range_check (p : IPAMPool) (a : IPAMAllocation)
    (cfg : IPAMPoolDatacenterSettings)
    (hcfg : p.datacenters.lookup a.datacenter = some cfg)
    (hname : a.ipamPoolName = p.name) (ht : a.type = "range")
    (hp : replayPasses p a) :
    checkRangeAllocation (getUsedIPsFromAddressRanges a.addresses)
      cfg.poolCIDR cfg.allocRange = .ok () := by
  obtain ⟨m', h⟩ := hp []
  unfold replayAllocation at h
  simp only [hcfg, if_pos hname, if_pos ht] at h
  cases hchk : checkRangeAllocation (getUsedIPsFromAddressRanges a.addresses)
      cfg.poolCIDR cfg.allocRange with
  | error e =>
    simp only [hchk] at h
    simp at h
  | ok u =>
    cases u
    rfl

theorem replayPasses_pfx_check (p : IPAMPool) (a : IPAMAllocation)
    (cfg : IPAMPoolDatacenterSettings)
    (hcfg : p.datacenters.lookup a.datacenter = some cfg)
    (hname : a.ipamPoolName = p.name) (ht : a.type = "prefix")
    (hp : replayPasses p a) :
    checkPrefixAllocation a.cidr cfg.poolCIDR cfg.allocPfx = .ok () := by
  obtain ⟨m', h⟩ := hp []
  unfold replayAllocation at h
  simp only [hcfg, if_pos hname, if_neg (by simp [ht] : ¬a.type = "range"),
    if_pos ht] at h
  cases hchk : checkPrefixAllocation a.cidr cfg.poolCIDR cfg.allocPfx with
  | error e =>
    simp only [hchk] at h
    simp at h
  | ok u =>
    cases u
    rfl

theorem blockIPs_mem_plain (c : CIDR) (hpb : c.pfxLen ≤ c.bits)
    (hca : c.addr < 2 ^ c.bits) (v : Nat) :
    v ∈ blockIPs c ↔
      ∃ i, i < 2 ^ (c.bits - c.pfxLen) ∧ v = c.network + i := by
  unfold blockIPs
  simp only [List.mem_map, List.mem_range, CIDR.size]
  have hle := network_add_block_le c hpb hca
  constructor
  · rintro ⟨i, hi, rfl⟩
    rw [Nat.mod_eq_of_lt (by omega)]
    exact ⟨i, hi, rfl⟩
  · rintro ⟨i, hi, rfl⟩
    refine ⟨i, hi, ?_⟩
    rw [Nat.mod_eq_of_lt (by omega)]

theorem blockIPs_disjoint (c1 c2 : CIDR) (hb : c2.bits = c1.bits)
    (hp : c2.pfxLen = c1.pfxLen) (hpb : c1.pfxLen ≤ c1.bits)
    (ha1 : c1.addr < 2 ^ c1.bits) (ha2 : c2.addr < 2 ^ c2.bits)
    (hne : c1.network ≠ c2.network) (v : Nat) (h1 : v ∈ blockIPs c1) :
    v ∉ blockIPs c2 := by
  intro h2
  rw [blockIPs_mem_plain c1 hpb ha1 v] at h1
  rw [blockIPs_mem_plain c2 (by omega) ha2 v] at h2
  obtain ⟨i1, hi1, hv1⟩ := h1
  obtain ⟨i2, hi2, hv2⟩ := h2
  obtain ⟨q1, hq1⟩ := network_dvd c1
  obtain ⟨q2, hq2⟩ := network_dvd c2
  have hSeq : 2 ^ (c2.bits - c2.pfxLen) = 2 ^ (c1.bits - c1.pfxLen) := by
    rw [hb, hp]
  rw [hSeq] at hq2 hi2
  have hS : 0 < 2 ^ (c1.bits - c1.pfxLen) :=
    Nat.pos_pow_of_pos _ (by norm_num)
  have hq : q1 = q2 := by
    have e1 : v / 2 ^ (c1.bits - c1.pfxLen) = q1 := by
      rw [hv1, hq1, Nat.mul_add_div hS, Nat.div_eq_of_lt hi1, Nat.add_zero]
    have e2 : v / 2 ^ (c1.bits - c1.pfxLen) = q2 := by
      rw [hv2, hq2, Nat.mul_add_div hS, Nat.div_eq_of_lt hi2, Nat.add_zero]
    omega
  exact hne (by rw [hq1, hq2, hq])

theorem subnetSearch_ok_dvd (dc : String) (pool : CIDR) (m : DCUsage) :
    ∀ (fuel : Nat) (cand c : CIDR) (m' : DCUsage),
      2 ^ (cand.bits - cand.pfxLen) ∣ cand.addr →
      subnetSearch dc pool m fuel cand = .ok (c, m') →
      2 ^ (c.bits - c.pfxLen) ∣ c.addr := by
  intro fuel
  induction fuel with
  | zero =>
    intro cand c m' _ h
    simp [subnetSearch] at h
  | succ fuel ih =>
    intro cand c m' hdvd h
    rw [subnetSearch] at h
    split_ifs at h with h1 h2
    · refine ih (nextSubnet cand cand.pfxLen) c m' ?_ h
      show 2 ^ (cand.bits - cand.pfxLen) ∣
        (cand.network + 2 ^ (cand.bits - cand.pfxLen)) % 2 ^ cand.bits
      rw [Nat.dvd_mod_iff (pow_dvd_pow 2 (Nat.sub_le _ _))]
      exact Nat.dvd_add (network_dvd cand) dvd_rfl
    · simp only [Except.ok.injEq, Prod.mk.injEq] at h
      rw [← h.1]
      exact hdvd

theorem subnetSearch_ok_fresh (dc : String) (pool : CIDR) (m : DCUsage) :
    ∀ (fuel : Nat) (cand c : CIDR) (m' : DCUsage),
      subnetSearch dc pool m fuel cand = .ok (c, m') →
      isUsed m dc (UKey.cidr c.bits c.addr c.pfxLen) = false := by
  intro fuel
  induction fuel with
  | zero =>
    intro cand c m' h
    simp [subnetSearch] at h
  | succ fuel ih =>
    intro cand c m' h
    rw [subnetSearch] at h
    split_ifs at h with h1 h2
    · exact ih (nextSubnet cand cand.pfxLen) c m' h
    · simp only [Except.ok.injEq, Prod.mk.injEq] at h
      simp only [Bool.not_eq_true] at h2
      rw [← h.1]
      exact h2

theorem findFirstFreeSubnetOfPool_ok_canonical (dc : String) (pool : CIDR)
    (sp : Nat) (m : DCUsage) (c : CIDR) (m' : DCUsage)
    (h : findFirstFreeSubnetOfPool dc pool sp m = .ok (c, m')) :
    c.addr = CIDR.network c ∧
      isUsed m dc (UKey.cidr c.bits c.addr c.pfxLen) = false ∧
      m' = setUsed m dc (UKey.cidr c.bits c.addr c.pfxLen) := by
  unfold findFirstFreeSubnetOfPool at h
  split_ifs at h with h1 h2
  refine ⟨?_, subnetSearch_ok_fresh dc pool m _ _ c m' h,
    subnetSearch_ok_usage dc pool m _ _ c m' h⟩
  have hdvd := subnetSearch_ok_dvd dc pool m _ _ c m'
    (maskAddr_dvd pool.bits sp pool.network) h
  rw [CIDR.network, maskAddr_eq_of_dvd c.bits c.pfxLen c.addr hdvd]

theorem findFirstFreeRangesOfPool_ok_usage (dc : String) (pool : CIDR)
    (n : Nat) (m : DCUsage) (addrs : List AddrRange) (m' : DCUsage)
    (h : findFirstFreeRangesOfPool dc pool n m = .ok (addrs, m')) :
    m' = ((calculateRangeFreeIPsFromDatacenterPool dc pool m).take n).foldl
      (fun mm v => setUsed mm dc (UKey.addr pool.bits v)) m := by
  have hle : n ≤ (calculateRangeFreeIPsFromDatacenterPool dc pool m).length := by
    by_contra hcon
    push_neg at hcon
    rw [findFirstFreeRangesOfPool_cap_eq dc pool n m (by omega)] at h
    simp at h
  have hne : calculateRangeFreeIPsFromDatacenterPool dc pool m ≠ [] := by
    intro hnil
    have hn0 : n = 0 := by
      rw [hnil] at hle
      simpa using hle
    rw [findFirstFreeRangesOfPool_nil_eq dc pool n m hnil (by omega)] at h
    simp at h
  obtain ⟨heq, _, _⟩ := (rangesOfPool_spec dc pool n m _ rfl).2 hle (Or.inr hne)
  rw [h] at heq
  simp only [Except.ok.injEq, Prod.mk.injEq] at heq
  exact heq.2

theorem freeIPs_not_used (dc : String) (pool : CIDR) (m : DCUsage) (v : Nat)
    (hv : v ∈ calculateRangeFreeIPsFromDatacenterPool dc pool m) :
    isUsed m dc (UKey.addr pool.bits v) = false := by
  unfold calculateRangeFreeIPsFromDatacenterPool at hv
  have := List.of_mem_filter hv
  simpa using this

theorem genCluster_mono (p : IPAMPool) (d : String)
    (cfg : IPAMPoolDatacenterSettings) (m : DCUsage) (c : Cluster)
    (oa : Option IPAMAllocation) (m₁ : DCUsage)
    (h : genCluster p d cfg m c = .ok (oa, m₁)) :
    ∀ (d0 : String) (k : UKey), isUsed m d0 k = true →
      isUsed m₁ d0 k = true := by
  intro d0 k hk
  unfold genCluster at h
  split_ifs at h with h1 h2 h3
  · simp only [Except.ok.injEq, Prod.mk.injEq] at h
    rw [← h.2]
    exact hk
  · cases hfr : findFirstFreeRangesOfPool d cfg.poolCIDR cfg.allocRange m with
    | error er =>
      simp only [hfr] at h
      simp at h
    | ok r =>
      obtain ⟨addrs, mm⟩ := r
      simp only [hfr, Except.ok.injEq, Prod.mk.injEq] at h
      rw [← h.2, findFirstFreeRangesOfPool_ok_usage d cfg.poolCIDR
        cfg.allocRange m addrs mm hfr]
      exact foldl_setUsed_mono d cfg.poolCIDR.bits _ m d0 k hk
  · cases hfr : findFirstFreeSubnetOfPool d cfg.poolCIDR cfg.allocPfx m with
    | error er =>
      simp only [hfr] at h
      simp at h
    | ok r =>
      obtain ⟨cand, mm⟩ := r
      simp only [hfr, Except.ok.injEq, Prod.mk.injEq] at h
      rw [← h.2, (findFirstFreeSubnetOfPool_ok_canonical d cfg.poolCIDR
        cfg.allocPfx m cand mm hfr).2.2]
      exact isUsed_setUsed_mono m d0 d k _ hk
  · simp only [Except.ok.injEq, Prod.mk.injEq] at h
    rw [← h.2]
    exact hk

theorem genClusters_mono (p : IPAMPool) (d : String)
    (cfg : IPAMPoolDatacenterSettings) :
    ∀ (cs : List Cluster) (m : DCUsage) (recs : List IPAMAllocation)
      (m' : DCUsage), genClusters p d cfg m cs = .ok (recs, m') →
      ∀ (d0 : String) (k : UKey), isUsed m d0 k = true →
        isUsed m' d0 k = true := by
  intro cs
  induction cs with
  | nil =>
    intro m recs m' h d0 k hk
    simp only [genClusters, Except.ok.injEq, Prod.mk.injEq] at h
    rw [← h.2]
    exact hk
  | cons c cs ih =>
    intro m recs m' h d0 k hk
    rw [genClusters] at h
    cases hgc : genCluster p d cfg m c with
    | error e =>
      simp only [hgc] at h
      simp at h
    | ok r =>
      obtain ⟨oa, mi⟩ := r
      simp only [hgc] at h
      cases oa with
      | none =>
        exact ih mi recs m' h d0 k
          (genCluster_mono p d cfg m c none mi hgc d0 k hk)
      | some a0 =>
        cases hgen : genClusters p d cfg mi cs with
        | error e =>
          simp only [hgen] at h
          simp at h
        | ok r2 =>
          obtain ⟨recs', m2⟩ := r2
          simp only [hgen, Except.ok.injEq, Prod.mk.injEq] at h
          rw [← h.2]
          exact ih mi recs' m2 hgen d0 k
            (genCluster_mono p d cfg m c _ mi hgc d0 k hk)

theorem genEntry_mono (p : IPAMPool) (m : DCUsage) (e : String × List Cluster)
    (recs : List IPAMAllocation) (m' : DCUsage)
    (h : genEntry p m e = .ok (recs, m')) :
    ∀ (d0 : String) (k : UKey), isUsed m d0 k = true →
      isUsed m' d0 k = true := by
  intro d0 k hk
  rcases genEntry_cases p m e recs m' h with ⟨_, _, hm⟩ | ⟨cfg, _, hgc⟩
  · rw [hm]
    exact hk
  · exact genClusters_mono p e.1 cfg e.2 m recs m' hgc d0 k hk

theorem generate_mono (p : IPAMPool) :
    ∀ (es : List (String × List Cluster)) (m : DCUsage)
      (recs : List IPAMAllocation) (m' : DCUsage),
      generateNewAllocationsForPool p m es = .ok (recs, m') →
      ∀ (d0 : String) (k : UKey), isUsed m d0 k = true →
        isUsed m' d0 k = true := by
  intro es
  induction es with
  | nil =>
    intro m recs m' h d0 k hk
    simp only [generateNewAllocationsForPool, Except.ok.injEq,
      Prod.mk.injEq] at h
    rw [← h.2]
    exact hk
  | cons e es ih =>
    intro m recs m' h d0 k hk
    rw [generateNewAllocationsForPool] at h
    cases hge : genEntry p m e with
    | error er =>
      simp only [hge] at h
      simp at h
    | ok r1 =>
      obtain ⟨as, m1⟩ := r1
      simp only [hge] at h
      cases hgr : generateNewAllocationsForPool p m1 es with
      | error er =>
        simp only [hgr] at h
        simp at h
      | ok r2 =>
        obtain ⟨as', m2⟩ := r2
        simp only [hgr, Except.ok.injEq, Prod.mk.injEq] at h
        rw [← h.2]
        exact ih m1 as' m2 hgr d0 k
          (genEntry_mono p m e as m1 hge d0 k hk)

theorem allocAddrs_rangeRec (pn cn dc : String) (rs : List AddrRange) :
    allocAddrs (IPAMAllocation.mk pn cn dc "range" none rs) =
      getUsedIPsFromAddressRanges rs := by
  simp [allocAddrs]

theorem allocAddrs_pfxRec (pn cn dc : String) (c : CIDR)
    (rs : List AddrRange) :
    allocAddrs (IPAMAllocation.mk pn cn dc "prefix" (some c) rs) =
      (blockIPs c).map (fun v => IPv.mk c.bits v) := by
  simp [allocAddrs]

theorem genClusters_other_sound (p : IPAMPool) (d : String)
    (cfg : IPAMPoolDatacenterSettings) (ht1 : ¬cfg.type = "range")
    (ht2 : ¬cfg.type = "prefix") :
    ∀ (cs : List Cluster) (m : DCUsage) (recs : List IPAMAllocation)
      (m' : DCUsage), genClusters p d cfg m cs = .ok (recs, m') →
      m' = m ∧ ∀ r ∈ recs, allocAddrs r = [] := by
  intro cs
  induction cs with
  | nil =>
    intro m recs m' h
    simp only [genClusters, Except.ok.injEq, Prod.mk.injEq] at h
    refine ⟨h.2.symm, ?_⟩
    rw [← h.1]
    simp
  | cons c cs ih =>
    intro m recs m' h
    rw [genClusters] at h
    by_cases hhp : clusterHasPool p.name c
    · have hgc : genCluster p d cfg m c = .ok (none, m) := by
        unfold genCluster
        rw [if_pos hhp]
      simp only [hgc] at h
      exact ih m recs m' h
    · have hgc : genCluster p d cfg m c =
          .ok (some (IPAMAllocation.mk p.name c.name d cfg.type none []), m) := by
        unfold genCluster
        rw [if_neg hhp, if_neg ht1, if_neg ht2]
      simp only [hgc] at h
      cases hgen : genClusters p d cfg m cs with
      | error e =>
        simp only [hgen] at h
        simp at h
      | ok r2 =>
        obtain ⟨as, m₂⟩ := r2
        simp only [hgen, Except.ok.injEq, Prod.mk.injEq] at h
        obtain ⟨hrecs, hm⟩ := h
        obtain ⟨hmm, hall⟩ := ih m as m₂ hgen
        refine ⟨by rw [← hm, hmm], ?_⟩
        rw [← hrecs]
        intro r hr
        rcases List.mem_cons.mp hr with hh | hh
        · subst hh
          unfold allocAddrs
          rw [if_neg ht1, if_neg ht2]
        · exact hall r hh

theorem genClusters_range_sound (p : IPAMPool) (d : String)
    (cfg : IPAMPoolDatacenterSettings) (hty : cfg.type = "range")
    (hv1 : cfg.poolCIDR.pfxLen ≤ cfg.poolCIDR.bits)
    (hv2 : cfg.poolCIDR.addr < 2 ^ cfg.poolCIDR.bits) :
    ∀ (cs : List Cluster) (m : DCUsage) (recs : List IPAMAllocation)
      (m' : DCUsage), genClusters p d cfg m cs = .ok (recs, m') →
      (∀ r ∈ recs, r.type = "range" ∧ ∀ ip ∈ allocAddrs r,
        ip.bits = cfg.poolCIDR.bits ∧
        cfg.poolCIDR.containsAddr ip.bits ip.val = true ∧
        isUsed m d (UKey.addr ip.bits ip.val) = false ∧
        isUsed m' d (UKey.addr ip.bits ip.val) = true) ∧
      List.Pairwise (fun r1 r2 =>
        ∀ ip ∈ allocAddrs r1, ip ∉ allocAddrs r2) recs := by
  intro cs
  induction cs with
  | nil =>
    intro m recs m' h
    simp only [genClusters, Except.ok.injEq, Prod.mk.injEq] at h
    rw [← h.1]
    exact ⟨by simp, by simp⟩
  | cons c cs ih =>
    intro m recs m' h
    rw [genClusters] at h
    by_cases hhp : clusterHasPool p.name c
    · have hgc : genCluster p d cfg m c = .ok (none, m) := by
        unfold genCluster
        rw [if_pos hhp]
      simp only [hgc] at h
      exact ih m recs m' h
    · cases hfr : findFirstFreeRangesOfPool d cfg.poolCIDR cfg.allocRange m with
      | error er =>
        have hgc : genCluster p d cfg m c = .error er := by
          unfold genCluster
          rw [if_neg hhp, if_pos hty]
          simp only [hfr]
        simp only [hgc] at h
        simp at h
      | ok r =>
        obtain ⟨addrs, m₁⟩ := r
        have hgc : genCluster p d cfg m c =
            .ok (some (IPAMAllocation.mk p.name c.name d "range" none addrs),
              m₁) := by
          unfold genCluster
          rw [if_neg hhp, if_pos hty]
          simp only [hfr, hty]
        simp only [hgc] at h
        cases hgen : genClusters p d cfg m₁ cs with
        | error e =>
          simp only [hgen] at h
          simp at h
        | ok r2 =>
          obtain ⟨as, m₂⟩ := r2
          simp only [hgen, Except.ok.injEq, Prod.mk.injEq] at h
          obtain ⟨hrecs, hm⟩ := h
          subst hm
          obtain ⟨hle, haddrs, hexp⟩ := findFirstFreeRangesOfPool_ok_props d
            cfg.poolCIDR cfg.allocRange m addrs m₁ hfr
          have husage := findFirstFreeRangesOfPool_ok_usage d cfg.poolCIDR
            cfg.allocRange m addrs m₁ hfr
          obtain ⟨ihrec, ihpw⟩ := ih m₁ as m₂ hgen
          have hAA : allocAddrs (IPAMAllocation.mk p.name c.name d "range"
              none addrs) = getUsedIPsFromAddressRanges addrs :=
            allocAddrs_rangeRec p.name c.name d addrs
          have hheadip : ∀ ip ∈ allocAddrs (IPAMAllocation.mk p.name c.name d
              "range" none addrs),
              ip.bits = cfg.poolCIDR.bits ∧
              cfg.poolCIDR.containsAddr ip.bits ip.val = true ∧
              isUsed m d (UKey.addr ip.bits ip.val) = false ∧
              isUsed m₁ d (UKey.addr ip.bits ip.val) = true := by
            intro ip hip
            rw [hAA, hexp] at hip
            simp only [List.mem_map] at hip
            obtain ⟨v, hv, rfl⟩ := hip
            have hvfree : v ∈ calculateRangeFreeIPsFromDatacenterPool d
                cfg.poolCIDR m := List.mem_of_mem_take hv
            have hvblock : v ∈ blockIPs cfg.poolCIDR := by
              unfold calculateRangeFreeIPsFromDatacenterPool at hvfree
              exact List.mem_of_mem_filter hvfree
            refine ⟨rfl, blockIPs_contained cfg.poolCIDR hv1 hv2 v hvblock,
              freeIPs_not_used d cfg.poolCIDR m v hvfree, ?_⟩
            rw [husage]
            exact foldl_setUsed_isUsed d cfg.poolCIDR.bits _ m v hv
          rw [← hrecs]
          constructor
          · intro r hr
            rcases List.mem_cons.mp hr with hh | hh
            · subst hh
              refine ⟨rfl, ?_⟩
              intro ip hip
              obtain ⟨hb, hcont, hfresh, hmark⟩ := hheadip ip hip
              exact ⟨hb, hcont, hfresh,
                genClusters_mono p d cfg cs m₁ as m₂ hgen d _ hmark⟩
            · obtain ⟨hty', hips⟩ := ihrec r hh
              refine ⟨hty', ?_⟩
              intro ip hip
              obtain ⟨hb, hcont, hfresh1, hmark⟩ := hips ip hip
              refine ⟨hb, hcont, ?_, hmark⟩
              cases hm0 : isUsed m d (UKey.addr ip.bits ip.val) with
              | false => rfl
              | true =>
                rw [genCluster_mono p d cfg m c _ m₁ hgc d _ hm0] at hfresh1
                simp at hfresh1
          · refine List.Pairwise.cons ?_ ihpw
            intro r' hr' ip hip hip'
            obtain ⟨_, _, _, hmark1⟩ := hheadip ip hip
            obtain ⟨_, hips'⟩ := ihrec r' hr'
            obtain ⟨_, _, hfresh', _⟩ := hips' ip hip'
            rw [hmark1] at hfresh'
            simp at hfresh'

theorem genClusters_pfx_sound (p : IPAMPool) (d : String)
    (cfg : IPAMPoolDatacenterSettings) (hty : cfg.type = "prefix")
    (hv1 : cfg.poolCIDR.pfxLen ≤ cfg.poolCIDR.bits)
    (hv2 : cfg.poolCIDR.addr < 2 ^ cfg.poolCIDR.bits) :
    ∀ (cs : List Cluster) (m : DCUsage) (recs : List IPAMAllocation)
      (m' : DCUsage), genClusters p d cfg m cs = .ok (recs, m') →
      (∀ r ∈ recs, ∃ c : CIDR, r.type = "prefix" ∧ r.cidr = some c ∧
        allocAddrs r = (blockIPs c).map (fun v => IPv.mk c.bits v) ∧
        c.bits = cfg.poolCIDR.bits ∧ c.pfxLen = cfg.allocPfx ∧
        cfg.poolCIDR.pfxLen ≤ c.pfxLen ∧ c.pfxLen ≤ c.bits ∧
        c.addr = CIDR.network c ∧ c.addr < 2 ^ c.bits ∧
        cfg.poolCIDR.containsAddr c.bits c.addr = true ∧
        isUsed m d (UKey.cidr c.bits c.addr c.pfxLen) = false ∧
        isUsed m' d (UKey.cidr c.bits c.addr c.pfxLen) = true) ∧
      List.Pairwise (fun r1 r2 =>
        ∀ ip ∈ allocAddrs r1, ip ∉ allocAddrs r2) recs := by
  intro cs
  induction cs with
  | nil =>
    intro m recs m' h
    simp only [genClusters, Except.ok.injEq, Prod.mk.injEq] at h
    rw [← h.1]
    exact ⟨by simp, by simp⟩
  | cons c cs ih =>
    intro m recs m' h
    rw [genClusters] at h
    by_cases hhp : clusterHasPool p.name c
    · have hgc : genCluster p d cfg m c = .ok (none, m) := by
        unfold genCluster
        rw [if_pos hhp]
      simp only [hgc] at h
      exact ih m recs m' h
    · cases hfr : findFirstFreeSubnetOfPool d cfg.poolCIDR cfg.allocPfx m with
      | error er =>
        have hgc : genCluster p d cfg m c = .error er := by
          unfold genCluster
          rw [if_neg hhp, if_neg (by simp [hty] : ¬cfg.type = "range"),
            if_pos hty]
          simp only [hfr]
        simp only [hgc] at h
        simp at h
      | ok r =>
        obtain ⟨cand, m₁⟩ := r
        have hgc : genCluster p d cfg m c =
            .ok (some (IPAMAllocation.mk p.name c.name d "prefix"
              (some cand) []), m₁) := by
          unfold genCluster
          rw [if_neg hhp, if_neg (by simp [hty] : ¬cfg.type = "range"),
            if_pos hty]
          simp only [hfr, hty]
        simp only [hgc] at h
        cases hgen : genClusters p d cfg m₁ cs with
        | error e =>
          simp only [hgen] at h
          simp at h
        | ok r2 =>
          obtain ⟨as, m₂⟩ := r2
          simp only [hgen, Except.ok.injEq, Prod.mk.injEq] at h
          obtain ⟨hrecs, hm⟩ := h
          subst hm
          obtain ⟨hsp1, hsp2, hpfx, hbits, hcont⟩ :=
            findFirstFreeSubnetOfPool_ok_props d cfg.poolCIDR cfg.allocPfx m
              cand m₁ hfr
          obtain ⟨hcanon, hfresh, husage⟩ :=
            findFirstFreeSubnetOfPool_ok_canonical d cfg.poolCIDR cfg.allocPfx
              m cand m₁ hfr
          have hlt : cand.addr < 2 ^ cand.bits := by
            rw [hbits]
            exact containsAddr_lt cfg.poolCIDR cand.bits cand.addr hv1 hv2 hcont
          have hmark1 : isUsed m₁ d
              (UKey.cidr cand.bits cand.addr cand.pfxLen) = true := by
            rw [husage]
            exact isUsed_setUsed_self m d _
          obtain ⟨ihrec, ihpw⟩ := ih m₁ as m₂ hgen
          have hAA : allocAddrs (IPAMAllocation.mk p.name c.name d "prefix"
              (some cand) []) =
              (blockIPs cand).map (fun v => IPv.mk cand.bits v) :=
            allocAddrs_pfxRec p.name c.name d cand []
          rw [← hrecs]
          constructor
          · intro r hr
            rcases List.mem_cons.mp hr with hh | hh
            · subst hh
              exact ⟨cand, rfl, rfl, hAA, hbits, hpfx,
                (by rw [hpfx]; exact hsp1), (by rw [hpfx, hbits]; omega),
                hcanon, hlt, hcont,
                hfresh, genClusters_mono p d cfg cs m₁ as m₂ hgen d _ hmark1⟩
            · obtain ⟨c', hty', hc', hAA', hb', hp', hq', hq2', hcan',
                hlt', hcont', hfresh1', hmark'⟩ := ihrec r hh
              refine ⟨c', hty', hc', hAA', hb', hp', hq', hq2', hcan', hlt',
                hcont', ?_, hmark'⟩
              cases hm0 : isUsed m d (UKey.cidr c'.bits c'.addr c'.pfxLen) with
              | false => rfl
              | true =>
                rw [genCluster_mono p d cfg m c _ m₁ hgc d _ hm0] at hfresh1'
                simp at hfresh1'
          · refine List.Pairwise.cons ?_ ihpw
            intro r' hr' ip hip hip'
            obtain ⟨c', _, _, hAA', hb', hp', _, _, hcan', hlt', _,
              hfresh1', _⟩ := ihrec r' hr'
            have hkeyne : UKey.cidr c'.bits c'.addr c'.pfxLen ≠
                UKey.cidr cand.bits cand.addr cand.pfxLen := by
              intro hkeq
              rw [hkeq, hmark1] at hfresh1'
              simp at hfresh1'
            have haddrne : cand.addr ≠ c'.addr := by
              intro haeq
              exact hkeyne (by rw [hb', hbits, hp', ← hpfx, haeq])
            have hnetne : cand.network ≠ c'.network := by
              rw [← hcanon, ← hcan']
              exact haddrne
            rw [hAA] at hip
            rw [hAA'] at hip'
            simp only [List.mem_map] at hip hip'
            obtain ⟨v, hvb, hveq⟩ := hip
            obtain ⟨v', hvb', hveq'⟩ := hip'
            have hvv : v = v' := by
              rw [← hveq'] at hveq
              exact congrArg IPv.val hveq
            rw [hvv] at hvb
            exact blockIPs_disjoint cand c'
              (by rw [hb', hbits]) (by rw [hp', hpfx])
              (by rw [hpfx, hbits]; omega) hlt hlt' hnetne v' hvb hvb'

theorem generate_sound (p : IPAMPool)
    (hvalid : ∀ ec ∈ p.datacenters,
      ec.2.poolCIDR.pfxLen ≤ ec.2.poolCIDR.bits ∧
        ec.2.poolCIDR.addr < 2 ^ ec.2.poolCIDR.bits) :
    ∀ (es : List (String × List Cluster)) (m : DCUsage)
      (recs : List IPAMAllocation) (m' : DCUsage),
      (es.map Prod.fst).Nodup →
      generateNewAllocationsForPool p m es = .ok (recs, m') →
      (∀ r ∈ recs, ∀ cfg, p.datacenters.lookup r.datacenter = some cfg →
        (cfg.type = "range" → r.type = "range" ∧ ∀ ip ∈ allocAddrs r,
          ip.bits = cfg.poolCIDR.bits ∧
          cfg.poolCIDR.containsAddr ip.bits ip.val = true ∧
          isUsed m r.datacenter (UKey.addr ip.bits ip.val) = false ∧
          isUsed m' r.datacenter (UKey.addr ip.bits ip.val) = true) ∧
        (cfg.type = "prefix" → ∃ c : CIDR, r.type = "prefix" ∧
          r.cidr = some c ∧
          allocAddrs r = (blockIPs c).map (fun v => IPv.mk c.bits v) ∧
          c.bits = cfg.poolCIDR.bits ∧ c.pfxLen = cfg.allocPfx ∧
          cfg.poolCIDR.pfxLen ≤ c.pfxLen ∧ c.pfxLen ≤ c.bits ∧
          c.addr = CIDR.network c ∧ c.addr < 2 ^ c.bits ∧
          cfg.poolCIDR.containsAddr c.bits c.addr = true ∧
          isUsed m r.datacenter (UKey.cidr c.bits c.addr c.pfxLen) = false ∧
          isUsed m' r.datacenter (UKey.cidr c.bits c.addr c.pfxLen) = true) ∧
        (¬cfg.type = "range" → ¬cfg.type = "prefix" → allocAddrs r = [])) ∧
      List.Pairwise (fun r1 r2 => r1.datacenter = r2.datacenter →
        ∀ ip ∈ allocAddrs r1, ip ∉ allocAddrs r2) recs := by
  intro es
  induction es with
  | nil =>
    intro m recs m' hnd h
    simp only [generateNewAllocationsForPool, Except.ok.injEq,
      Prod.mk.injEq] at h
    rw [← h.1]
    exact ⟨by simp, by simp⟩
  | cons e es ih =>
    intro m recs m' hnd h
    rw [generateNewAllocationsForPool] at h
    cases hge : genEntry p m e with
    | error er =>
      simp only [hge] at h
      simp at h
    | ok r1 =>
      obtain ⟨as, m₁⟩ := r1
      simp only [hge] at h
      cases hgr : generateNewAllocationsForPool p m₁ es with
      | error er =>
        simp only [hgr] at h
        simp at h
      | ok r2 =>
        obtain ⟨as', m₂⟩ := r2
        simp only [hgr, Except.ok.injEq, Prod.mk.injEq] at h
        obtain ⟨hrecs, hm⟩ := h
        subst hm
        rw [List.map_cons, List.nodup_cons] at hnd
        obtain ⟨hkey, hnd'⟩ := hnd
        obtain ⟨ihrec, ihpw⟩ := ih m₁ as' m₂ hnd' hgr
        have freshadj : ∀ (d0 : String) (k : UKey),
            isUsed m₁ d0 k = false → isUsed m d0 k = false := by
          intro d0 k h1
          cases hm0 : isUsed m d0 k with
          | false => rfl
          | true =>
            rw [genEntry_mono p m e as m₁ hge d0 k hm0] at h1
            simp at h1
        have ihrec' : ∀ r ∈ as', ∀ cfg,
            p.datacenters.lookup r.datacenter = some cfg →
            (cfg.type = "range" → r.type = "range" ∧ ∀ ip ∈ allocAddrs r,
              ip.bits = cfg.poolCIDR.bits ∧
              cfg.poolCIDR.containsAddr ip.bits ip.val = true ∧
              isUsed m r.datacenter (UKey.addr ip.bits ip.val) = false ∧
              isUsed m₂ r.datacenter (UKey.addr ip.bits ip.val) = true) ∧
            (cfg.type = "prefix" → ∃ c : CIDR, r.type = "prefix" ∧
              r.cidr = some c ∧
              allocAddrs r = (blockIPs c).map (fun v => IPv.mk c.bits v) ∧
              c.bits = cfg.poolCIDR.bits ∧ c.pfxLen = cfg.allocPfx ∧
              cfg.poolCIDR.pfxLen ≤ c.pfxLen ∧ c.pfxLen ≤ c.bits ∧
              c.addr = CIDR.network c ∧ c.addr < 2 ^ c.bits ∧
              cfg.poolCIDR.containsAddr c.bits c.addr = true ∧
              isUsed m r.datacenter
                (UKey.cidr c.bits c.addr c.pfxLen) = false ∧
              isUsed m₂ r.datacenter
                (UKey.cidr c.bits c.addr c.pfxLen) = true) ∧
            (¬cfg.type = "range" → ¬cfg.type = "prefix" →
              allocAddrs r = []) := by
          intro r hr cfg hcfg
          obtain ⟨hR, hP, hO⟩ := ihrec r hr cfg hcfg
          refine ⟨?_, ?_, hO⟩
          · intro hty
            obtain ⟨h1, h2⟩ := hR hty
            refine ⟨h1, ?_⟩
            intro ip hip
            obtain ⟨hb, hcont, hfr1, hmk⟩ := h2 ip hip
            exact ⟨hb, hcont, freshadj _ _ hfr1, hmk⟩
          · intro hty
            obtain ⟨c, h1, h2, h3, h4, h5, h5a, h5b, h6, h7, h8, hfr1,
              hmk⟩ := hP hty
            exact ⟨c, h1, h2, h3, h4, h5, h5a, h5b, h6, h7, h8,
              freshadj _ _ hfr1, hmk⟩
        rcases genEntry_cases p m e as m₁ hge with ⟨hl, has, hmm⟩ |
          ⟨cfg, hl, hgc⟩
        · subst has
          rw [← hrecs]
          simp only [List.nil_append]
          exact ⟨ihrec', ihpw⟩
        · have hdcas : ∀ a ∈ as, a.datacenter = e.1 := fun a ha =>
            (genClusters_dc p e.1 cfg e.2 m as m₁ hgc a ha).1
          obtain ⟨hv1, hv2⟩ := hvalid (e.1, cfg) (lookup_mem_of_eq_some hl)
          have markadj : ∀ (d0 : String) (k : UKey),
              isUsed m₁ d0 k = true → isUsed m₂ d0 k = true :=
            fun d0 k hk => generate_mono p es m₁ as' m₂ hgr d0 k hk
          have hcross : ∀ r1 ∈ as, ∀ r2 ∈ as',
              r1.datacenter = r2.datacenter →
              ∀ ip ∈ allocAddrs r1, ip ∉ allocAddrs r2 := by
            intro r1 h1 r2 h2 hdc
            exfalso
            obtain ⟨e0, he0, hd0⟩ := generate_dc_mem p es m₁ as' m₂ hgr r2 h2
            apply hkey
            rw [← hdcas r1 h1, hdc, hd0]
            exact List.mem_map_of_mem Prod.fst he0
          by_cases hty : cfg.type = "range"
          · obtain ⟨hrecfacts, hpwas⟩ := genClusters_range_sound p e.1 cfg
              hty hv1 hv2 e.2 m as m₁ hgc
            rw [← hrecs]
            constructor
            · intro r hr cfg' hcfg'
              rcases List.mem_append.mp hr with hh | hh
              · have hdce : r.datacenter = e.1 := hdcas r hh
                rw [hdce, hl] at hcfg'
                injection hcfg' with hcfg'
                subst hcfg'
                refine ⟨?_, ?_, ?_⟩
                · intro _
                  obtain ⟨h1, h2⟩ := hrecfacts r hh
                  refine ⟨h1, ?_⟩
                  intro ip hip
                  obtain ⟨hb, hcont, hfr1, hmk⟩ := h2 ip hip
                  rw [hdce]
                  exact ⟨hb, hcont, hfr1, markadj _ _ hmk⟩
                · intro hp2
                  rw [hty] at hp2
                  exact absurd hp2 (by decide)
                · intro hn1 _
                  exact absurd hty hn1
              · exact ihrec' r hh cfg' hcfg'
            · rw [List.pairwise_append]
              refine ⟨hpwas.imp ?_, ihpw, ?_⟩
              · intro r1 r2 hdisj _
                exact hdisj
              · intro r1 h1 r2 h2
                exact fun hdc => hcross r1 h1 r2 h2 hdc
          · by_cases hty2 : cfg.type = "prefix"
            · obtain ⟨hrecfacts, hpwas⟩ := genClusters_pfx_sound p e.1 cfg
                hty2 hv1 hv2 e.2 m as m₁ hgc
              rw [← hrecs]
              constructor
              · intro r hr cfg' hcfg'
                rcases List.mem_append.mp hr with hh | hh
                · have hdce : r.datacenter = e.1 := hdcas r hh
                  rw [hdce, hl] at hcfg'
                  injection hcfg' with hcfg'
                  subst hcfg'
                  refine ⟨?_, ?_, ?_⟩
                  · intro hp1
                    rw [hty2] at hp1
                    exact absurd hp1 (by decide)
                  · intro _
                    obtain ⟨c, h1, h2, h3, h4, h5, h5a, h5b, h6, h7, h8,
                      hfr1, hmk⟩ := hrecfacts r hh
                    rw [hdce]
                    exact ⟨c, h1, h2, h3, h4, h5, h5a, h5b, h6, h7, h8, hfr1,
                      markadj _ _ hmk⟩
                  · intro _ hn2
                    exact absurd hty2 hn2
                · exact ihrec' r hh cfg' hcfg'
              · rw [List.pairwise_append]
                refine ⟨hpwas.imp ?_, ihpw, ?_⟩
                · intro r1 r2 hdisj _
                  exact hdisj
                · intro r1 h1 r2 h2
                  exact fun hdc => hcross r1 h1 r2 h2 hdc
            · obtain ⟨hm1, hall⟩ := genClusters_other_sound p e.1 cfg hty hty2
                e.2 m as m₁ hgc
              rw [← hrecs]
              constructor
              · intro r hr cfg' hcfg'
                rcases List.mem_append.mp hr with hh | hh
                · have hdce : r.datacenter = e.1 := hdcas r hh
                  rw [hdce, hl] at hcfg'
                  injection hcfg' with hcfg'
                  subst hcfg'
                  refine ⟨?_, ?_, ?_⟩
                  · intro hp1
                    exact absurd hp1 hty
                  · intro hp2
                    exact absurd hp2 hty2
                  · intro _ _
                    exact hall r hh
                · exact ihrec' r hh cfg' hcfg'
              · rw [List.pairwise_append]
                refine ⟨List.pairwise_of_forall_mem_list ?_, ihpw, ?_⟩
                · intro r1 h1 r2 h2 _ ip hip
                  rw [hall r1 h1] at hip
                  simp at hip
                · intro r1 h1 r2 h2
                  exact fun hdc => hcross r1 h1 r2 h2 hdc

theorem containsAddr_block (pool c : CIDR) (hq : pool.pfxLen ≤ c.pfxLen)
    (hcb : c.pfxLen ≤ c.bits) (hca : c.addr < 2 ^ c.bits)
    (hcont : pool.containsAddr c.bits c.addr = true)
    (v : Nat) (hv : v ∈ blockIPs c) :
    pool.containsAddr c.bits v = true := by
  obtain ⟨i, hi, rfl⟩ := (blockIPs_mem_plain c hcb hca v).mp hv
  obtain ⟨hb', hm⟩ := (containsAddr_true_iff pool c.bits c.addr).mp hcont
  refine (containsAddr_true_iff pool c.bits _).mpr ⟨hb', ?_⟩
  have hq1 : maskAddr c.bits c.pfxLen (c.network + i) = c.network := by
    obtain ⟨k, hk⟩ := network_dvd c
    have hS : 0 < 2 ^ (c.bits - c.pfxLen) :=
      Nat.pos_pow_of_pos _ (by norm_num)
    unfold maskAddr
    rw [hk, Nat.mul_add_div hS, Nat.div_eq_of_lt hi, Nat.add_zero,
      Nat.mul_comm]
  rw [← hb'] at hm ⊢
  calc maskAddr c.bits pool.pfxLen (c.network + i)
      = maskAddr c.bits pool.pfxLen
          (maskAddr c.bits c.pfxLen (c.network + i)) :=
        (maskAddr_mask c.bits pool.pfxLen c.pfxLen _ hq hcb).symm
    _ = maskAddr c.bits pool.pfxLen c.network := by rw [hq1]
    _ = maskAddr c.bits pool.pfxLen (maskAddr c.bits c.pfxLen c.addr) := rfl
    _ = maskAddr c.bits pool.pfxLen c.addr :=
        maskAddr_mask c.bits pool.pfxLen c.pfxLen c.addr hq hcb
    _ = pool.network := hm

/-- **C5** (counterexample): the spec's non-overlap claim fails as
stated.  In `tC5` the existing prefix allocation of pool `p` is
recorded under the non-canonical string `10.0.0.5/24`; its
compatibility check passes and the replay pass marks exactly that raw
string used.  The generation pass then hands cluster `B` the subnet
`10.0.0.0/24`, whose canonical key differs from the raw key, so the
apply succeeds — yet the new subnet is the very same address block as
the replayed allocation: the address `10.0.0.0` lies in both. -/
theorem apply_overlap_noncanonical :
    (apply tC5 pC5).2 = none ∧
    (apply tC5 pC5).1 =
      [("dc1",
        [Cluster.mk "A" [IPAMAllocation.mk "p" "A" "dc1" "prefix"
          (some cNonCanon) []],
         Cluster.mk "B" [IPAMAllocation.mk "p" "B" "dc1" "prefix"
          (some (CIDR.mk 32 netA 24)) []]])] ∧
    IPv.mk 32 netA ∈ allocAddrs (IPAMAllocation.mk "p" "B" "dc1" "prefix"
      (some (CIDR.mk 32 netA 24)) []) ∧
    IPv.mk 32 netA ∈ allocAddrs (IPAMAllocation.mk "p" "A" "dc1" "prefix"
      (some cNonCanon) []) := by
  decide

/-- **C5** (amended): after a successful apply — stated on its compile
pass producing the usage map `m0` and its generation pass producing
the new records `recs` — every new record's address set (the expanded
ranges of a `range` record, the whole subnet of a `prefix` record) is
contained in the pool CIDR configured for its datacenter; the address
sets of records sharing one datacenter are pairwise disjoint and
disjoint from the address sets of the replayed existing allocations of
the same pool — PROVIDED the table's datacenter keys are distinct and
every existing allocation of this pool in a configured datacenter
carries its datacenter's configured type and a canonically written
CIDR (address equal to its network).  The counterexample above shows
the proviso is needed: a non-canonically written existing CIDR defeats
the string-keyed usage map and the pass re-allocates the same
block. -/
theorem apply_containment_nonoverlap (t : Table) (p : IPAMPool)
    (m0 : DCUsage) (recs : List IPAMAllocation) (mf : DCUsage)
    (hkeys : (t.map Prod.fst).Nodup)
    (hvalid : ∀ ec ∈ p.datacenters,
      ec.2.poolCIDR.pfxLen ≤ ec.2.poolCIDR.bits ∧
        ec.2.poolCIDR.addr < 2 ^ ec.2.poolCIDR.bits)
    (hcanon : ∀ e ∈ t, ∀ cl ∈ e.2, ∀ a ∈ cl.ipamAllocations,
      a.ipamPoolName = p.name →
      ∀ cfg, p.datacenters.lookup a.datacenter = some cfg →
        a.type = cfg.type ∧
        ∀ cc, a.cidr = some cc → cc.addr = CIDR.network cc)
    (hc : compileEntries p t = .ok m0)
    (hg : generateNewAllocationsForPool p m0 t = .ok (recs, mf)) :
    apply t p = (commitAllocations t recs, none) ∧
    (∀ r ∈ recs, ∀ cfg, p.datacenters.lookup r.datacenter = some cfg →
      ∀ ip ∈ allocAddrs r,
        cfg.poolCIDR.containsAddr ip.bits ip.val = true) ∧
    List.Pairwise (fun r1 r2 => r1.datacenter = r2.datacenter →
      ∀ ip ∈ allocAddrs r1, ip ∉ allocAddrs r2) recs ∧
    (∀ r ∈ recs, ∀ cfg, p.datacenters.lookup r.datacenter = some cfg →
      ∀ e ∈ t, ∀ cl ∈ e.2, ∀ a ∈ cl.ipamAllocations,
        a.ipamPoolName = p.name → a.datacenter = r.datacenter →
        ∀ ip ∈ allocAddrs r, ip ∉ allocAddrs a) := by
  obtain ⟨hrec, hpw⟩ := generate_sound p hvalid t m0 recs mf hkeys hg
  refine ⟨?_, ?_, hpw, ?_⟩
  · show applyOrd t t t p = (commitAllocations t recs, none)
    unfold applyOrd
    simp only [hc, hg]
  · intro r hr cfg hcfg ip hip
    obtain ⟨hR, hP, hO⟩ := hrec r hr cfg hcfg
    by_cases hty : cfg.type = "range"
    · obtain ⟨_, h2⟩ := hR hty
      exact (h2 ip hip).2.1
    · by_cases hty2 : cfg.type = "prefix"
      · obtain ⟨c, _, _, hAA, hb, hp5, hq5, hq6, hcanr, hltr, hcontr, _,
          _⟩ := hP hty2
        rw [hAA] at hip
        simp only [List.mem_map] at hip
        obtain ⟨v, hv, rfl⟩ := hip
        exact containsAddr_block cfg.poolCIDR c hq5 hq6 hltr hcontr v hv
      · rw [hO hty hty2] at hip
        simp at hip
  · intro r hr cfg hcfg e he cl hcl a ha hpname hdca ip hip hip'
    have hpass := compileFrom_ok_pass p t [] m0 hc e he cl hcl a ha
    obtain ⟨htype_eq, hccanon⟩ := hcanon e he cl hcl a ha hpname cfg
      (by rw [hdca]; exact hcfg)
    obtain ⟨hR, hP, hO⟩ := hrec r hr cfg hcfg
    by_cases hty : cfg.type = "range"
    · have hta : a.type = "range" := by rw [htype_eq, hty]
      have hAAa : allocAddrs a = getUsedIPsFromAddressRanges a.addresses := by
        unfold allocAddrs
        rw [if_pos hta]
      rw [hAAa] at hip'
      have hm0 : isUsed m0 a.datacenter (UKey.addr ip.bits ip.val) = true :=
        compileEntries_mark_present p t m0 hc e he cl hcl a ha _ _
          (marksOf_range_mark p a cfg (by rw [hdca]; exact hcfg) hpname hta
            ip hip')
      obtain ⟨_, h2⟩ := hR hty
      obtain ⟨_, _, hfresh, _⟩ := h2 ip hip
      rw [hdca] at hm0
      rw [hm0] at hfresh
      simp at hfresh
    · by_cases hty2 : cfg.type = "prefix"
      · have hta : a.type = "prefix" := by rw [htype_eq, hty2]
        obtain ⟨c, _, _, hAA, hb, hp5, hq5, hq6, hcanr, hltr, hcontr,
          hfresh, _⟩ := hP hty2
        have hchk := replayPasses_pfx_check p a cfg
          (by rw [hdca]; exact hcfg) hpname hta hpass
        obtain ⟨cc, hcc, hccpfx, hccq, hccb, hcccont⟩ :=
          (checkPrefixAllocation_iff a.cidr cfg.poolCIDR cfg.allocPfx).mp hchk
        have hccanon' : cc.addr = CIDR.network cc := hccanon cc hcc
        have hcontA : cfg.poolCIDR.containsAddr cc.bits cc.addr = true := by
          rw [hccanon']
          exact hcccont
        have hccbits : cc.bits = cfg.poolCIDR.bits :=
          ((containsAddr_true_iff _ _ _).mp hcontA).1
        obtain ⟨hv1, hv2⟩ := hvalid (r.datacenter, cfg)
          (lookup_mem_of_eq_some hcfg)
        have hcclt : cc.addr < 2 ^ cc.bits := by
          rw [hccbits]
          exact containsAddr_lt cfg.poolCIDR _ _ hv1 hv2 hcontA
        have hm0 : isUsed m0 a.datacenter
            (UKey.cidr cc.bits cc.addr cc.pfxLen) = true :=
          compileEntries_mark_present p t m0 hc e he cl hcl a ha _ _
            (marksOf_pfx_mark p a cfg (by rw [hdca]; exact hcfg) hpname hta
              cc hcc)
        have hkeyne : UKey.cidr c.bits c.addr c.pfxLen ≠
            UKey.cidr cc.bits cc.addr cc.pfxLen := by
          intro hkeq
          rw [hdca] at hm0
          rw [← hkeq] at hm0
          rw [hm0] at hfresh
          simp at hfresh
        have haddrne : c.addr ≠ cc.addr := by
          intro haeq
          exact hkeyne (by rw [hccbits, ← hb, hccpfx, ← hp5, haeq])
        have hnetne : c.network ≠ cc.network := by
          rw [← hcanr, ← hccanon']
          exact haddrne
        have hAAa : allocAddrs a =
            (blockIPs cc).map (fun v => IPv.mk cc.bits v) := by
          unfold allocAddrs
          rw [if_neg (by simp [hta] : ¬a.type = "range"), if_pos hta]
          simp only [hcc]
        rw [hAA] at hip
        rw [hAAa] at hip'
        simp only [List.mem_map] at hip hip'
        obtain ⟨v, hvb, hveq⟩ := hip
        obtain ⟨v', hvb', hveq'⟩ := hip'
        have hvv : v = v' := by
          rw [← hveq'] at hveq
          exact congrArg IPv.val hveq
        rw [hvv] at hvb
        exact blockIPs_disjoint c cc (by rw [hccbits, hb])
          (by rw [hccpfx, hp5]) hq6 hltr hcclt
          hnetne v' hvb hvb'
      · rw [hO hty hty2] at hip
        simp at hip

/-- Witness for the amended C5 theorem at a concrete instance: the
canonical table `tC5W` with its compiled map and generated record. -/
theorem apply_containment_nonoverlap_witness :
    (tC5W.map Prod.fst).Nodup ∧
    compileEntries pC5 tC5W = .ok m0W ∧
    generateNewAllocationsForPool pC5 m0W tC5W = .ok (recsW, mfW) ∧
    (apply tC5W pC5 = (commitAllocations tC5W recsW, none) ∧
     (∀ r ∈ recsW, ∀ cfg, pC5.datacenters.lookup r.datacenter = some cfg →
       ∀ ip ∈ allocAddrs r,
         cfg.poolCIDR.containsAddr ip.bits ip.val = true) ∧
     List.Pairwise (fun r1 r2 => r1.datacenter = r2.datacenter →
       ∀ ip ∈ allocAddrs r1, ip ∉ allocAddrs r2) recsW ∧
     (∀ r ∈ recsW, ∀ cfg, pC5.datacenters.lookup r.datacenter = some cfg →
       ∀ e ∈ tC5W, ∀ cl ∈ e.2, ∀ a ∈ cl.ipamAllocations,
         a.ipamPoolName = pC5.name → a.datacenter = r.datacenter →
         ∀ ip ∈ allocAddrs r, ip ∉ allocAddrs a)) :=
  ⟨by decide, by decide, by decide,
    apply_containment_nonoverlap tC5W pC5 m0W recsW mfW (by decide)
      (by decide) (by decide) (by decide) (by decide)⟩

theorem any_perm {α : Type} (l l' : List α) (f : α → Bool) (h : l.Perm l') :
    l.any f = l'.any f := by
  cases h1 : l.any f <;> cases h2 : l'.any f <;> try rfl
  · rw [List.any_eq_true] at h2
    obtain ⟨x, hx, hfx⟩ := h2
    have hh : l.any f = true := List.any_eq_true.mpr ⟨x, h.mem_iff.mpr hx, hfx⟩
    rw [h1] at hh
    simp at hh
  · rw [List.any_eq_true] at h1
    obtain ⟨x, hx, hfx⟩ := h1
    have hh : l'.any f = true := List.any_eq_true.mpr ⟨x, h.mem_iff.mp hx, hfx⟩
    rw [h2] at hh
    simp at hh

theorem isUsed_ne_of_keys (δ : DCUsage) (d0 d : String) (k : UKey)
    (hδ : ∀ x ∈ δ, x.1 = d0) (hne : d ≠ d0) : isUsed δ d k = false := by
  cases hu : isUsed δ d k with
  | false => rfl
  | true =>
    exact absurd (hδ (d, k) ((isUsed_iff_mem δ d k).mp hu)) hne

theorem calcFree_congr (dc : String) (pool : CIDR) (m₁ m₂ : DCUsage)
    (h : ∀ k, isUsed m₁ dc k = isUsed m₂ dc k) :
    calculateRangeFreeIPsFromDatacenterPool dc pool m₁ =
      calculateRangeFreeIPsFromDatacenterPool dc pool m₂ := by
  unfold calculateRangeFreeIPsFromDatacenterPool
  exact List.filter_congr (fun v _ => by rw [h (UKey.addr pool.bits v)])

theorem findFirstFreeRangesOfPool_det (dc : String) (pool : CIDR) (n : Nat)
    (m₁ m₂ : DCUsage) (h : ∀ k, isUsed m₁ dc k = isUsed m₂ dc k) :
    (∀ er, findFirstFreeRangesOfPool dc pool n m₁ = .error er →
      findFirstFreeRangesOfPool dc pool n m₂ = .error er) ∧
    (∀ rs mo, findFirstFreeRangesOfPool dc pool n m₁ = .ok (rs, mo) →
      ∃ δ, mo = δ ++ m₁ ∧ (∀ x ∈ δ, x.1 = dc) ∧
        findFirstFreeRangesOfPool dc pool n m₂ = .ok (rs, δ ++ m₂)) := by
  have hfeq := calcFree_congr dc pool m₁ m₂ h
  constructor
  · intro er her
    by_cases hcap : n >
        (calculateRangeFreeIPsFromDatacenterPool dc pool m₁).length
    · rw [findFirstFreeRangesOfPool_cap_eq dc pool n m₁ hcap] at her
      rw [findFirstFreeRangesOfPool_cap_eq dc pool n m₂
        (by rw [← hfeq]; exact hcap)]
      exact her
    · push_neg at hcap
      cases hfx : calculateRangeFreeIPsFromDatacenterPool dc pool m₁ with
      | nil =>
        have hn0 : n = 0 := by
          rw [hfx] at hcap
          simpa using hcap
        rw [findFirstFreeRangesOfPool_nil_eq dc pool n m₁ hfx
          (by omega)] at her
        rw [findFirstFreeRangesOfPool_nil_eq dc pool n m₂
          (by rw [← hfeq]; exact hfx) (by omega)]
        exact her
      | cons f0 rest =>
        exfalso
        obtain ⟨heq, _, _⟩ := (rangesOfPool_spec dc pool n m₁ _ rfl).2 hcap
          (Or.inr (by rw [hfx]; simp))
        rw [her] at heq
        simp at heq
  · intro rs mo hok
    have hle : n ≤
        (calculateRangeFreeIPsFromDatacenterPool dc pool m₁).length := by
      by_contra hcon
      push_neg at hcon
      rw [findFirstFreeRangesOfPool_cap_eq dc pool n m₁ (by omega)] at hok
      simp at hok
    have hne : calculateRangeFreeIPsFromDatacenterPool dc pool m₁ ≠ [] := by
      intro hnil
      have hn0 : n = 0 := by
        rw [hnil] at hle
        simpa using hle
      rw [findFirstFreeRangesOfPool_nil_eq dc pool n m₁ hnil (by omega)] at hok
      simp at hok
    obtain ⟨heq1, _, _⟩ := (rangesOfPool_spec dc pool n m₁ _ rfl).2 hle
      (Or.inr hne)
    obtain ⟨heq2, _, _⟩ := (rangesOfPool_spec dc pool n m₂ _ rfl).2
      (by rw [← hfeq]; exact hle) (Or.inr (by rw [← hfeq]; exact hne))
    rw [← hfeq] at heq2
    rw [hok] at heq1
    simp only [Except.ok.injEq, Prod.mk.injEq] at heq1
    obtain ⟨hrs, hmo⟩ := heq1
    refine ⟨((calculateRangeFreeIPsFromDatacenterPool dc pool
        m₁).take n).reverse.map (fun v => (dc, UKey.addr pool.bits v)),
        ?_, ?_, ?_⟩
    · rw [hmo, foldl_setUsedNat_eq]
    · intro x hx
      simp only [List.mem_map, List.mem_reverse] at hx
      obtain ⟨v, _, rfl⟩ := hx
      rfl
    · rw [heq2, hrs, foldl_setUsedNat_eq]

theorem subnetSearch_det (dc : String) (pool : CIDR) (m₁ m₂ : DCUsage)
    (h : ∀ k, isUsed m₁ dc k = isUsed m₂ dc k) :
    ∀ (fuel : Nat) (cand : CIDR),
      (∀ er, subnetSearch dc pool m₁ fuel cand = .error er →
        subnetSearch dc pool m₂ fuel cand = .error er) ∧
      (∀ c mo, subnetSearch dc pool m₁ fuel cand = .ok (c, mo) →
        mo = setUsed m₁ dc (UKey.cidr c.bits c.addr c.pfxLen) ∧
        subnetSearch dc pool m₂ fuel cand =
          .ok (c, setUsed m₂ dc (UKey.cidr c.bits c.addr c.pfxLen))) := by
  intro fuel
  induction fuel with
  | zero =>
    intro cand
    constructor
    · intro er her
      exact her
    · intro c mo hok
      simp [subnetSearch] at hok
  | succ fuel ih =>
    intro cand
    constructor
    · intro er her
      rw [subnetSearch] at her ⊢
      by_cases h1 : pool.containsAddr cand.bits cand.addr
      · rw [if_pos h1] at her ⊢
        by_cases h2 : isUsed m₁ dc
            (UKey.cidr cand.bits cand.addr cand.pfxLen) = true
        · rw [if_pos h2] at her
          rw [if_pos (show isUsed m₂ dc
            (UKey.cidr cand.bits cand.addr cand.pfxLen) = true by
              rw [← h _]; exact h2)]
          exact (ih _).1 er her
        · rw [if_neg h2] at her
          simp at her
      · rw [if_neg h1] at her ⊢
        exact her
    · intro c mo hok
      rw [subnetSearch] at hok ⊢
      by_cases h1 : pool.containsAddr cand.bits cand.addr
      · rw [if_pos h1] at hok ⊢
        by_cases h2 : isUsed m₁ dc
            (UKey.cidr cand.bits cand.addr cand.pfxLen) = true
        · rw [if_pos h2] at hok
          rw [if_pos (show isUsed m₂ dc
            (UKey.cidr cand.bits cand.addr cand.pfxLen) = true by
              rw [← h _]; exact h2)]
          exact (ih _).2 c mo hok
        · rw [if_neg h2] at hok
          rw [if_neg (show ¬isUsed m₂ dc
            (UKey.cidr cand.bits cand.addr cand.pfxLen) = true by
              rw [← h _]; exact h2)]
          simp only [Except.ok.injEq, Prod.mk.injEq] at hok
          obtain ⟨hc, hmo⟩ := hok
          subst hc
          exact ⟨hmo.symm, rfl⟩
      · rw [if_neg h1] at hok
        simp at hok

theorem findFirstFreeSubnetOfPool_det (dc : String) (pool : CIDR) (sp : Nat)
    (m₁ m₂ : DCUsage) (h : ∀ k, isUsed m₁ dc k = isUsed m₂ dc k) :
    (∀ er, findFirstFreeSubnetOfPool dc pool sp m₁ = .error er →
      findFirstFreeSubnetOfPool dc pool sp m₂ = .error er) ∧
    (∀ c mo, findFirstFreeSubnetOfPool dc pool sp m₁ = .ok (c, mo) →
      mo = setUsed m₁ dc (UKey.cidr c.bits c.addr c.pfxLen) ∧
      findFirstFreeSubnetOfPool dc pool sp m₂ =
        .ok (c, setUsed m₂ dc (UKey.cidr c.bits c.addr c.pfxLen))) := by
  unfold findFirstFreeSubnetOfPool
  split_ifs with h1 h2
  · exact ⟨fun er her => her, fun c mo hok => by simp at hok⟩
  · exact ⟨fun er her => her, fun c mo hok => by simp at hok⟩
  · exact subnetSearch_det dc pool m₁ m₂ h _ _

theorem genCluster_det (p : IPAMPool) (d : String)
    (cfg : IPAMPoolDatacenterSettings) (c : Cluster) (m₁ m₂ : DCUsage)
    (h : ∀ k, isUsed m₁ d k = isUsed m₂ d k) :
    (∀ er, genCluster p d cfg m₁ c = .error er →
      genCluster p d cfg m₂ c = .error er) ∧
    (∀ oa mo, genCluster p d cfg m₁ c = .ok (oa, mo) →
      ∃ δ, mo = δ ++ m₁ ∧ (∀ x ∈ δ, x.1 = d) ∧
        genCluster p d cfg m₂ c = .ok (oa, δ ++ m₂)) := by
  unfold genCluster
  split_ifs with h1 h2 h3
  · constructor
    · intro er her
      simp at her
    · intro oa mo hok
      simp only [Except.ok.injEq, Prod.mk.injEq] at hok
      refine ⟨[], by rw [← hok.2]; exact (List.nil_append _).symm,
        fun x hx => by simp at hx, ?_⟩
      rw [← hok.1]
      rfl
  · constructor
    · intro er her
      cases hfr : findFirstFreeRangesOfPool d cfg.poolCIDR cfg.allocRange
          m₁ with
      | error er1 =>
        simp only [hfr, Except.error.injEq] at her
        simp only [(findFirstFreeRangesOfPool_det d cfg.poolCIDR
          cfg.allocRange m₁ m₂ h).1 er1 hfr]
        rw [her]
      | ok r =>
        simp only [hfr] at her
        simp at her
    · intro oa mo hok
      cases hfr : findFirstFreeRangesOfPool d cfg.poolCIDR cfg.allocRange
          m₁ with
      | error er1 =>
        simp only [hfr] at hok
        simp at hok
      | ok r =>
        obtain ⟨addrs, mm⟩ := r
        simp only [hfr, Except.ok.injEq, Prod.mk.injEq] at hok
        obtain ⟨δ, hδ1, hδ2, hffr2⟩ := (findFirstFreeRangesOfPool_det d
          cfg.poolCIDR cfg.allocRange m₁ m₂ h).2 addrs mm hfr
        refine ⟨δ, by rw [← hok.2]; exact hδ1, hδ2, ?_⟩
        simp only [hffr2]
        rw [← hok.1]
  · constructor
    · intro er her
      cases hfr : findFirstFreeSubnetOfPool d cfg.poolCIDR cfg.allocPfx
          m₁ with
      | error er1 =>
        simp only [hfr, Except.error.injEq] at her
        simp only [(findFirstFreeSubnetOfPool_det d cfg.poolCIDR
          cfg.allocPfx m₁ m₂ h).1 er1 hfr]
        rw [her]
      | ok r =>
        simp only [hfr] at her
        simp at her
    · intro oa mo hok
      cases hfr : findFirstFreeSubnetOfPool d cfg.poolCIDR cfg.allocPfx
          m₁ with
      | error er1 =>
        simp only [hfr] at hok
        simp at hok
      | ok r =>
        obtain ⟨cand, mm⟩ := r
        simp only [hfr, Except.ok.injEq, Prod.mk.injEq] at hok
        obtain ⟨hδ1, hffr2⟩ := (findFirstFreeSubnetOfPool_det d cfg.poolCIDR
          cfg.allocPfx m₁ m₂ h).2 cand mm hfr
        refine ⟨[(d, UKey.cidr cand.bits cand.addr cand.pfxLen)],
          by rw [← hok.2]; exact hδ1,
          fun x hx => by simp only [List.mem_singleton] at hx; rw [hx],
          ?_⟩
        simp only [hffr2]
        rw [← hok.1]
        rfl
  · constructor
    · intro er her
      simp at her
    · intro oa mo hok
      simp only [Except.ok.injEq, Prod.mk.injEq] at hok
      refine ⟨[], by rw [← hok.2]; exact (List.nil_append _).symm,
        fun x hx => by simp at hx, ?_⟩
      rw [← hok.1]
      rfl

theorem genClusters_det (p : IPAMPool) (d : String)
    (cfg : IPAMPoolDatacenterSettings) :
    ∀ (cs : List Cluster) (m₁ m₂ : DCUsage),
      (∀ k, isUsed m₁ d k = isUsed m₂ d k) →
      (∀ er, genClusters p d cfg m₁ cs = .error er →
        genClusters p d cfg m₂ cs = .error er) ∧
      (∀ recs mo, genClusters p d cfg m₁ cs = .ok (recs, mo) →
        ∃ δ, mo = δ ++ m₁ ∧ (∀ x ∈ δ, x.1 = d) ∧
          genClusters p d cfg m₂ cs = .ok (recs, δ ++ m₂)) := by
  intro cs
  induction cs with
  | nil =>
    intro m₁ m₂ h
    constructor
    · intro er her
      simp [genClusters] at her
    · intro recs mo hok
      simp only [genClusters, Except.ok.injEq, Prod.mk.injEq] at hok
      refine ⟨[], by rw [← hok.2]; exact (List.nil_append _).symm,
        fun x hx => by simp at hx, ?_⟩
      rw [← hok.1]
      rfl
  | cons c cs ih =>
    intro m₁ m₂ h
    constructor
    · intro er her
      rw [genClusters] at her ⊢
      cases hgc : genCluster p d cfg m₁ c with
      | error e1 =>
        simp only [hgc, Except.error.injEq] at her
        simp only [(genCluster_det p d cfg c m₁ m₂ h).1 e1 hgc]
        rw [her]
      | ok r =>
        obtain ⟨oa, mi⟩ := r
        simp only [hgc] at her
        obtain ⟨δ, hδ1, hδ2, hgc2⟩ := (genCluster_det p d cfg c m₁ m₂ h).2
          oa mi hgc
        have hnew : ∀ k, isUsed mi d k = isUsed (δ ++ m₂) d k := by
          intro k
          rw [hδ1, isUsed_append, isUsed_append, h k]
        simp only [hgc2]
        cases oa with
        | none => exact (ih mi (δ ++ m₂) hnew).1 er her
        | some a0 =>
          cases hgen : genClusters p d cfg mi cs with
          | error e2 =>
            simp only [hgen, Except.error.injEq] at her
            simp only [(ih mi (δ ++ m₂) hnew).1 e2 hgen]
            rw [her]
          | ok r2 =>
            simp only [hgen] at her
            simp at her
    · intro recs mo hok
      rw [genClusters] at hok ⊢
      cases hgc : genCluster p d cfg m₁ c with
      | error e1 =>
        simp only [hgc] at hok
        simp at hok
      | ok r =>
        obtain ⟨oa, mi⟩ := r
        simp only [hgc] at hok
        obtain ⟨δ, hδ1, hδ2, hgc2⟩ := (genCluster_det p d cfg c m₁ m₂ h).2
          oa mi hgc
        have hnew : ∀ k, isUsed mi d k = isUsed (δ ++ m₂) d k := by
          intro k
          rw [hδ1, isUsed_append, isUsed_append, h k]
        simp only [hgc2]
        cases oa with
        | none =>
          obtain ⟨δ', h1', h2', h3'⟩ := (ih mi (δ ++ m₂) hnew).2 recs mo hok
          refine ⟨δ' ++ δ, ?_, ?_, ?_⟩
          · rw [h1', hδ1, List.append_assoc]
          · intro x hx
            rcases List.mem_append.mp hx with hx | hx
            exacts [h2' x hx, hδ2 x hx]
          · show genClusters p d cfg (δ ++ m₂) cs =
              Except.ok (recs, δ' ++ δ ++ m₂)
            rw [h3', List.append_assoc]
        | some a0 =>
          cases hgen : genClusters p d cfg mi cs with
          | error e2 =>
            simp only [hgen] at hok
            simp at hok
          | ok r2 =>
            obtain ⟨as, mo2⟩ := r2
            simp only [hgen, Except.ok.injEq, Prod.mk.injEq] at hok
            obtain ⟨δ', h1', h2', h3'⟩ := (ih mi (δ ++ m₂) hnew).2 as mo2 hgen
            simp only [h3']
            refine ⟨δ' ++ δ, ?_, ?_, ?_⟩
            · rw [← hok.2, h1', hδ1, List.append_assoc]
            · intro x hx
              rcases List.mem_append.mp hx with hx | hx
              exacts [h2' x hx, hδ2 x hx]
            · rw [← hok.1, List.append_assoc]

theorem genEntry_det (p : IPAMPool) (e : String × List Cluster)
    (m₁ m₂ : DCUsage) (h : ∀ k, isUsed m₁ e.1 k = isUsed m₂ e.1 k) :
    (∀ er, genEntry p m₁ e = .error er → genEntry p m₂ e = .error er) ∧
    (∀ as mo, genEntry p m₁ e = .ok (as, mo) →
      ∃ δ, mo = δ ++ m₁ ∧ (∀ x ∈ δ, x.1 = e.1) ∧
        genEntry p m₂ e = .ok (as, δ ++ m₂)) := by
  unfold genEntry
  cases hl : p.datacenters.lookup e.1 with
  | none =>
    constructor
    · intro er her
      simp at her
    · intro as mo hok
      simp only [Except.ok.injEq, Prod.mk.injEq] at hok
      refine ⟨[], by rw [← hok.2]; exact (List.nil_append _).symm,
        fun x hx => by simp at hx, ?_⟩
      rw [← hok.1]
      rfl
  | some cfg => exact genClusters_det p e.1 cfg e.2 m₁ m₂ h

theorem generate_det (p : IPAMPool) :
    ∀ (es : List (String × List Cluster)) (m₁ m₂ : DCUsage),
      (∀ d k, isUsed m₁ d k = isUsed m₂ d k) →
      (∀ er, generateNewAllocationsForPool p m₁ es = .error er →
        generateNewAllocationsForPool p m₂ es = .error er) ∧
      (∀ recs mo, generateNewAllocationsForPool p m₁ es = .ok (recs, mo) →
        ∃ δ, mo = δ ++ m₁ ∧
          generateNewAllocationsForPool p m₂ es = .ok (recs, δ ++ m₂)) := by
  intro es
  induction es with
  | nil =>
    intro m₁ m₂ h
    constructor
    · intro er her
      simp [generateNewAllocationsForPool] at her
    · intro recs mo hok
      simp only [generateNewAllocationsForPool, Except.ok.injEq,
        Prod.mk.injEq] at hok
      refine ⟨[], by rw [← hok.2]; exact (List.nil_append _).symm, ?_⟩
      rw [← hok.1]
      rfl
  | cons e es ih =>
    intro m₁ m₂ h
    constructor
    · intro er her
      rw [generateNewAllocationsForPool] at her ⊢
      cases hge : genEntry p m₁ e with
      | error e1 =>
        simp only [hge, Except.error.injEq] at her
        simp only [(genEntry_det p e m₁ m₂ (fun k => h e.1 k)).1 e1 hge]
        rw [her]
      | ok r =>
        obtain ⟨as, mi⟩ := r
        simp only [hge] at her
        obtain ⟨δ, hδ1, _, hge2⟩ := (genEntry_det p e m₁ m₂
          (fun k => h e.1 k)).2 as mi hge
        have hnew : ∀ d k, isUsed mi d k = isUsed (δ ++ m₂) d k := by
          intro d k
          rw [hδ1, isUsed_append, isUsed_append, h d k]
        simp only [hge2]
        cases hgen : generateNewAllocationsForPool p mi es with
        | error e2 =>
          simp only [hgen, Except.error.injEq] at her
          simp only [(ih mi (δ ++ m₂) hnew).1 e2 hgen]
          rw [her]
        | ok r2 =>
          simp only [hgen] at her
          simp at her
    · intro recs mo hok
      rw [generateNewAllocationsForPool] at hok ⊢
      cases hge : genEntry p m₁ e with
      | error e1 =>
        simp only [hge] at hok
        simp at hok
      | ok r =>
        obtain ⟨as, mi⟩ := r
        simp only [hge] at hok
        obtain ⟨δ, hδ1, _, hge2⟩ := (genEntry_det p e m₁ m₂
          (fun k => h e.1 k)).2 as mi hge
        have hnew : ∀ d k, isUsed mi d k = isUsed (δ ++ m₂) d k := by
          intro d k
          rw [hδ1, isUsed_append, isUsed_append, h d k]
        simp only [hge2]
        cases hgen : generateNewAllocationsForPool p mi es with
        | error e2 =>
          simp only [hgen] at hok
          simp at hok
        | ok r2 =>
          obtain ⟨as', mo2⟩ := r2
          simp only [hgen, Except.ok.injEq, Prod.mk.injEq] at hok
          obtain ⟨δ', h1', h3'⟩ := (ih mi (δ ++ m₂) hnew).2 as' mo2 hgen
          simp only [h3']
          refine ⟨δ' ++ δ, ?_, ?_⟩
          · rw [← hok.2, h1', hδ1, List.append_assoc]
          · rw [← hok.1, List.append_assoc]

theorem genEntry_dc (p : IPAMPool) (m : DCUsage) (e : String × List Cluster)
    (as : List IPAMAllocation) (mo : DCUsage)
    (h : genEntry p m e = .ok (as, mo)) : ∀ a ∈ as, a.datacenter = e.1 := by
  intro a ha
  rcases genEntry_cases p m e as mo h with ⟨_, has, _⟩ | ⟨cfg, _, hgc⟩
  · rw [has] at ha
    simp at ha
  · exact (genClusters_dc p e.1 cfg e.2 m as mo hgc a ha).1

theorem filter_dc_append_comm (la lb : List IPAMAllocation) (da db : String)
    (hda : ∀ a ∈ la, a.datacenter = da) (hdb : ∀ a ∈ lb, a.datacenter = db)
    (hne : da ≠ db) (d : String) (tail : List IPAMAllocation) :
    (la ++ (lb ++ tail)).filter (fun r => r.datacenter == d) =
      (lb ++ (la ++ tail)).filter (fun r => r.datacenter == d) := by
  rw [List.filter_append, List.filter_append, List.filter_append,
    List.filter_append]
  by_cases hd : d = da
  · have hlb : lb.filter (fun r => r.datacenter == d) = [] := by
      rw [List.filter_eq_nil_iff]
      intro a ha
      simp only [beq_iff_eq]
      rw [hdb a ha, hd]
      exact fun hc => hne hc.symm
    rw [hlb]
    simp
  · have hla : la.filter (fun r => r.datacenter == d) = [] := by
      rw [List.filter_eq_nil_iff]
      intro a ha
      simp only [beq_iff_eq]
      rw [hda a ha]
      exact fun hc => hd hc.symm
    rw [hla]
    simp

theorem gen_perm (p : IPAMPool) :
    ∀ (es es' : List (String × List Cluster)), es.Perm es' →
      ∀ m₁ m₂ : DCUsage, (es.map Prod.fst).Nodup →
        (∀ d k, isUsed m₁ d k = isUsed m₂ d k) →
        ((∃ er, generateNewAllocationsForPool p m₁ es = .error er) ↔
          (∃ er, generateNewAllocationsForPool p m₂ es' = .error er)) ∧
        (∀ recs mo recs' mo',
          generateNewAllocationsForPool p m₁ es = .ok (recs, mo) →
          generateNewAllocationsForPool p m₂ es' = .ok (recs', mo') →
          ∀ d, recs.filter (fun r => r.datacenter == d) =
            recs'.filter (fun r => r.datacenter == d)) := by
  intro es es' hperm
  induction hperm with
  | nil =>
    intro m₁ m₂ hnd heq
    constructor
    · refine iff_of_false ?_ ?_ <;> rintro ⟨er, her⟩ <;>
        simp [generateNewAllocationsForPool] at her
    · intro recs mo recs' mo' h1 h2 d
      simp only [generateNewAllocationsForPool, Except.ok.injEq,
        Prod.mk.injEq] at h1 h2
      rw [← h1.1, ← h2.1]
  | @cons x l₁ l₂ hsub ih =>
    intro m₁ m₂ hnd heq
    rw [List.map_cons, List.nodup_cons] at hnd
    obtain ⟨hkey, hnd'⟩ := hnd
    cases hge1 : genEntry p m₁ x with
    | error e1 =>
      have hge2 : genEntry p m₂ x = .error e1 :=
        (genEntry_det p x m₁ m₂ (fun k => heq x.1 k)).1 e1 hge1
      constructor
      · refine iff_of_true ⟨e1, ?_⟩ ⟨e1, ?_⟩
        · rw [generateNewAllocationsForPool]
          simp only [hge1]
        · rw [generateNewAllocationsForPool]
          simp only [hge2]
      · intro recs mo recs' mo' h1 h2 d
        rw [generateNewAllocationsForPool] at h1
        simp only [hge1] at h1
        simp at h1
    | ok r =>
      obtain ⟨as, mi⟩ := r
      obtain ⟨δ, hδ1, hδk, hge2⟩ :=
        (genEntry_det p x m₁ m₂ (fun k => heq x.1 k)).2 as mi hge1
      have hnew : ∀ d k, isUsed mi d k = isUsed (δ ++ m₂) d k := by
        intro d k
        rw [hδ1, isUsed_append, isUsed_append, heq d k]
      obtain ⟨ihiff, ihok⟩ := ih mi (δ ++ m₂) hnd' hnew
      constructor
      · constructor
        · rintro ⟨er, her⟩
          rw [generateNewAllocationsForPool] at her
          simp only [hge1] at her
          cases hgen : generateNewAllocationsForPool p mi l₁ with
          | error e2 =>
            obtain ⟨er2, her2⟩ := ihiff.mp ⟨e2, hgen⟩
            refine ⟨er2, ?_⟩
            rw [generateNewAllocationsForPool]
            simp only [hge2, her2]
          | ok r2 =>
            obtain ⟨as2, mo2⟩ := r2
            simp only [hgen] at her
            simp at her
        · rintro ⟨er, her⟩
          rw [generateNewAllocationsForPool] at her
          simp only [hge2] at her
          cases hgen : generateNewAllocationsForPool p (δ ++ m₂) l₂ with
          | error e2 =>
            obtain ⟨er2, her2⟩ := ihiff.mpr ⟨e2, hgen⟩
            refine ⟨er2, ?_⟩
            rw [generateNewAllocationsForPool]
            simp only [hge1, her2]
          | ok r2 =>
            obtain ⟨as2, mo2⟩ := r2
            simp only [hgen] at her
            simp at her
      · intro recs mo recs' mo' h1 h2 d
        rw [generateNewAllocationsForPool] at h1 h2
        simp only [hge1] at h1
        simp only [hge2] at h2
        cases hgen1 : generateNewAllocationsForPool p mi l₁ with
        | error e2 =>
          simp only [hgen1] at h1
          simp at h1
        | ok r2 =>
          obtain ⟨asl, mol⟩ := r2
          simp only [hgen1, Except.ok.injEq, Prod.mk.injEq] at h1
          cases hgen2 : generateNewAllocationsForPool p (δ ++ m₂) l₂ with
          | error e2 =>
            simp only [hgen2] at h2
            simp at h2
          | ok r3 =>
            obtain ⟨asl', mol'⟩ := r3
            simp only [hgen2, Except.ok.injEq, Prod.mk.injEq] at h2
            have hfil := ihok asl mol asl' mol' hgen1 hgen2 d
            rw [← h1.1, ← h2.1, List.filter_append, List.filter_append, hfil]
  | swap x y l =>
    intro m₁ m₂ hnd heq
    rw [List.map_cons, List.map_cons, List.nodup_cons, List.nodup_cons] at hnd
    obtain ⟨hky, hkx, hndl⟩ := hnd
    have hxy : y.1 ≠ x.1 := by
      intro hcon
      exact hky (by rw [hcon]; exact List.mem_cons_self _ _)
    cases hy1 : genEntry p m₁ y with
    | error ery =>
      cases hx2 : genEntry p m₂ x with
      | error erx =>
        constructor
        · refine iff_of_true ⟨ery, ?_⟩ ⟨erx, ?_⟩
          · rw [generateNewAllocationsForPool]
            simp only [hy1]
          · rw [generateNewAllocationsForPool]
            simp only [hx2]
        · intro recs mo recs' mo' h1 h2 d
          rw [generateNewAllocationsForPool] at h1
          simp only [hy1] at h1
          simp at h1
      | ok rx =>
        obtain ⟨asx, mBx⟩ := rx
        obtain ⟨δx, hδx1, hδxk, _⟩ :=
          (genEntry_det p x m₂ m₂ (fun k => rfl)).2 asx mBx hx2
        have heqy : ∀ k, isUsed m₁ y.1 k = isUsed mBx y.1 k := by
          intro k
          rw [hδx1, isUsed_append,
            isUsed_ne_of_keys δx x.1 y.1 k hδxk hxy, Bool.false_or, heq y.1 k]
        have hy2 : genEntry p mBx y = .error ery :=
          (genEntry_det p y m₁ mBx heqy).1 ery hy1
        constructor
        · refine iff_of_true ⟨ery, ?_⟩ ⟨ery, ?_⟩
          · rw [generateNewAllocationsForPool]
            simp only [hy1]
          · rw [generateNewAllocationsForPool]
            simp only [hx2]
            rw [generateNewAllocationsForPool]
            simp only [hy2]
        · intro recs mo recs' mo' h1 h2 d
          rw [generateNewAllocationsForPool] at h1
          simp only [hy1] at h1
          simp at h1
    | ok ry =>
      obtain ⟨asy, mAy⟩ := ry
      obtain ⟨δy, hδy1, hδyk, _⟩ :=
        (genEntry_det p y m₁ m₁ (fun k => rfl)).2 asy mAy hy1
      have heqx : ∀ k, isUsed mAy x.1 k = isUsed m₂ x.1 k := by
        intro k
        rw [hδy1, isUsed_append,
          isUsed_ne_of_keys δy y.1 x.1 k hδyk (fun hc => hxy hc.symm),
          Bool.false_or, heq x.1 k]
      cases hx1 : genEntry p mAy x with
      | error erx =>
        have hx2 : genEntry p m₂ x = .error erx :=
          (genEntry_det p x mAy m₂ heqx).1 erx hx1
        constructor
        · refine iff_of_true ⟨erx, ?_⟩ ⟨erx, ?_⟩
          · rw [generateNewAllocationsForPool]
            simp only [hy1]
            rw [generateNewAllocationsForPool]
            simp only [hx1]
          · rw [generateNewAllocationsForPool]
            simp only [hx2]
        · intro recs mo recs' mo' h1 h2 d
          rw [generateNewAllocationsForPool] at h1
          simp only [hy1] at h1
          rw [generateNewAllocationsForPool] at h1
          simp only [hx1] at h1
          simp at h1
      | ok rx =>
        obtain ⟨asx, mBx1⟩ := rx
        obtain ⟨δx, hδx1, hδxk, hx2⟩ :=
          (genEntry_det p x mAy m₂ heqx).2 asx mBx1 hx1
        have heqy : ∀ k, isUsed m₁ y.1 k = isUsed (δx ++ m₂) y.1 k := by
          intro k
          rw [isUsed_append,
            isUsed_ne_of_keys δx x.1 y.1 k hδxk hxy, Bool.false_or, heq y.1 k]
        obtain ⟨δy', hδy'1, hδy'k, hy2⟩ :=
          (genEntry_det p y m₁ (δx ++ m₂) heqy).2 asy mAy hy1
        have heqt : ∀ d k, isUsed mBx1 d k =
            isUsed (δy' ++ (δx ++ m₂)) d k := by
          intro d k
          rw [hδx1, hδy'1, isUsed_append, isUsed_append, isUsed_append,
            isUsed_append, heq d k, Bool.or_left_comm]
        constructor
        · constructor
          · rintro ⟨er, her⟩
            rw [generateNewAllocationsForPool] at her
            simp only [hy1] at her
            rw [generateNewAllocationsForPool] at her
            simp only [hx1] at her
            cases hgen : generateNewAllocationsForPool p mBx1 l with
            | error e2 =>
              have hgen2 := (generate_det p l mBx1 _ heqt).1 e2 hgen
              refine ⟨e2, ?_⟩
              rw [generateNewAllocationsForPool]
              simp only [hx2]
              rw [generateNewAllocationsForPool]
              simp only [hy2]
              simp only [hgen2]
            | ok r2 =>
              obtain ⟨as2, mo2⟩ := r2
              simp only [hgen] at her
              simp at her
          · rintro ⟨er, her⟩
            rw [generateNewAllocationsForPool] at her
            simp only [hx2] at her
            rw [generateNewAllocationsForPool] at her
            simp only [hy2] at her
            cases hgen : generateNewAllocationsForPool p
                (δy' ++ (δx ++ m₂)) l with
            | error e2 =>
              have hgen2 := (generate_det p l _ mBx1
                (fun d k => (heqt d k).symm)).1 e2 hgen
              refine ⟨e2, ?_⟩
              rw [generateNewAllocationsForPool]
              simp only [hy1]
              rw [generateNewAllocationsForPool]
              simp only [hx1]
              simp only [hgen2]
            | ok r2 =>
              obtain ⟨as2, mo2⟩ := r2
              simp only [hgen] at her
              simp at her
        · intro recs mo recs' mo' h1 h2 d
          rw [generateNewAllocationsForPool] at h1
          simp only [hy1] at h1
          rw [generateNewAllocationsForPool] at h1
          simp only [hx1] at h1
          rw [generateNewAllocationsForPool] at h2
          simp only [hx2] at h2
          rw [generateNewAllocationsForPool] at h2
          simp only [hy2] at h2
          cases hgen1 : generateNewAllocationsForPool p mBx1 l with
          | error e2 =>
            simp only [hgen1] at h1
            simp at h1
          | ok r2 =>
            obtain ⟨asl, mol⟩ := r2
            simp only [hgen1, Except.ok.injEq, Prod.mk.injEq] at h1
            obtain ⟨δl, hδl1, hgen2⟩ :=
              (generate_det p l mBx1 _ heqt).2 asl mol hgen1
            simp only [hgen2, Except.ok.injEq, Prod.mk.injEq] at h2
            rw [← h1.1, ← h2.1]
            exact filter_dc_append_comm asy asx y.1 x.1
              (genEntry_dc p m₁ y asy mAy hy1)
              (genEntry_dc p mAy x asx mBx1 hx1) hxy d asl
  | @trans l₁ l₂ l₃ hab hbc ih1 ih2 =>
    intro m₁ m₂ hnd heq
    obtain ⟨iff1, ok1⟩ := ih1 m₁ m₁ hnd (fun d k => rfl)
    obtain ⟨iff2, ok2⟩ := ih2 m₁ m₂ ((hab.map Prod.fst).nodup_iff.mp hnd) heq
    constructor
    · exact iff1.trans iff2
    · intro recs mo recs' mo' h1 h2 d
      cases hmid : generateNewAllocationsForPool p m₁ l₂ with
      | error e2 =>
        exfalso
        obtain ⟨er, her⟩ := iff1.mpr ⟨e2, hmid⟩
        rw [h1] at her
        simp at her
      | ok rmid =>
        obtain ⟨recsm, mom⟩ := rmid
        rw [ok1 recs mo recsm mom h1 hmid d,
          ok2 recsm mom recs' mo' hmid h2 d]

theorem compileEntries_error_iff (p : IPAMPool)
    (es : List (String × List Cluster)) :
    (∃ er, compileEntries p es = .error er) ↔
      ¬ (∀ e ∈ es, ∀ c ∈ e.2, ∀ a ∈ c.ipamAllocations, replayPasses p a) := by
  constructor
  · rintro ⟨er, her⟩ hall
    obtain ⟨m', hok⟩ := compileFrom_pass_ok p es hall []
    rw [compileEntries] at her
    rw [her] at hok
    simp at hok
  · intro hnot
    cases hc : compileEntries p es with
    | error er => exact ⟨er, rfl⟩
    | ok m' => exact absurd (compileFrom_ok_pass p es [] m' hc) hnot

theorem compile_perm (p : IPAMPool) (e1 e1' : List (String × List Cluster))
    (hperm : e1.Perm e1') :
    ((∃ er, compileEntries p e1 = .error er) ↔
      (∃ er, compileEntries p e1' = .error er)) ∧
    (∀ m0 m0', compileEntries p e1 = .ok m0 →
      compileEntries p e1' = .ok m0' →
      ∀ d k, isUsed m0 d k = isUsed m0' d k) := by
  constructor
  · rw [compileEntries_error_iff, compileEntries_error_iff]
    constructor
    · intro hnot hall
      exact hnot (fun e he => hall e (hperm.mem_iff.mp he))
    · intro hnot hall
      exact hnot (fun e he => hall e (hperm.mem_iff.mpr he))
  · intro m0 m0' h1 h2 d k
    rw [compileFrom_marks p e1 [] m0 h1 d k,
      compileFrom_marks p e1' [] m0' h2 d k, any_perm _ _ _ hperm]

theorem updateDC_keys (t : Table) (dc : String)
    (f : List Cluster → List Cluster) :
    (updateDC t dc f).map Prod.fst = t.map Prod.fst := by
  induction t with
  | nil => rfl
  | cons e rest ih =>
    obtain ⟨d, cs⟩ := e
    rw [updateDC]
    by_cases hd : d = dc
    · rw [if_pos hd]
      rfl
    · rw [if_neg hd]
      simp only [List.map_cons, ih]

theorem updateDC_map_eq (dc : String) (f : List Cluster → List Cluster) :
    ∀ t : Table, (t.map Prod.fst).Nodup →
      updateDC t dc f =
        t.map (fun e => if e.1 = dc then (e.1, f e.2) else e) := by
  intro t
  induction t with
  | nil =>
    intro _
    rfl
  | cons e rest ih =>
    obtain ⟨d, cs⟩ := e
    intro hnd
    rw [List.map_cons, List.nodup_cons] at hnd
    obtain ⟨hk, hnd'⟩ := hnd
    rw [updateDC, List.map_cons]
    by_cases hd : d = dc
    · have htail :
          rest.map (fun e => if e.1 = dc then (e.1, f e.2) else e) = rest := by
        have hall : ∀ a ∈ rest,
            (if a.1 = dc then (a.1, f a.2) else a) = a := by
          intro a ha
          rw [if_neg]
          intro hc
          apply hk
          show d ∈ List.map Prod.fst rest
          have hda : d = a.1 := by rw [hd, hc]
          rw [hda]
          exact List.mem_map_of_mem Prod.fst ha
        calc rest.map (fun e => if e.1 = dc then (e.1, f e.2) else e)
            = rest.map (fun a => a) := List.map_congr_left hall
          _ = rest := List.map_id rest
      rw [if_pos hd, if_pos (show (d, cs).1 = dc from hd), htail]
    · rw [if_neg hd, if_neg (show ¬(d, cs).1 = dc from hd), ih hnd']

theorem commitAllocations_eq_filter :
    ∀ (as : List IPAMAllocation) (t : Table), (t.map Prod.fst).Nodup →
      commitAllocations t as = t.map (fun e =>
        (e.1, (as.filter (fun a => a.datacenter == e.1)).foldl
          (fun cs a => appendToFirstMatch a.cluster a cs) e.2)) := by
  intro as
  induction as with
  | nil =>
    intro t hnd
    have hall : ∀ e ∈ t, (fun a : String × List Cluster => a) e =
        (e.1, (([] : List IPAMAllocation).filter
          (fun a => a.datacenter == e.1)).foldl
            (fun cs a => appendToFirstMatch a.cluster a cs) e.2) := by
      intro e he
      rfl
    calc commitAllocations t [] = t := rfl
      _ = t.map (fun a => a) := (List.map_id t).symm
      _ = t.map (fun e =>
          (e.1, (([] : List IPAMAllocation).filter
            (fun a => a.datacenter == e.1)).foldl
              (fun cs a => appendToFirstMatch a.cluster a cs) e.2)) :=
        List.map_congr_left hall
  | cons a as ih =>
    intro t hnd
    show commitAllocations
        (updateDC t a.datacenter (appendToFirstMatch a.cluster a)) as = _
    rw [ih _ (by rw [updateDC_keys]; exact hnd),
      updateDC_map_eq a.datacenter _ t hnd, List.map_map]
    apply List.map_congr_left
    intro e he
    simp only [Function.comp_apply]
    by_cases hd : e.1 = a.datacenter
    · rw [if_pos hd]
      show ((e.1 : String), (as.filter (fun x => x.datacenter == e.1)).foldl
        (fun cs x => appendToFirstMatch x.cluster x cs)
        (appendToFirstMatch a.cluster a e.2)) = _
      have hcons : (a :: as).filter (fun x => x.datacenter == e.1) =
          a :: as.filter (fun x => x.datacenter == e.1) := by
        rw [List.filter_cons_of_pos]
        simp [hd]
      rw [hcons]
      rfl
    · rw [if_neg hd]
      show ((e.1 : String), (as.filter (fun x => x.datacenter == e.1)).foldl
        (fun cs x => appendToFirstMatch x.cluster x cs) e.2) = _
      have hcons : (a :: as).filter (fun x => x.datacenter == e.1) =
          as.filter (fun x => x.datacenter == e.1) := by
        rw [List.filter_cons_of_neg]
        simp only [beq_iff_eq]
        exact fun hc => hd hc.symm
      rw [hcons]

/-- **C9.** Determinism of the result: `apply` runs its two Go map
iterations in an unspecified order, modelled by `applyOrd` taking the
two entry sequences explicitly.  For any two runs over the same table
(with distinct datacenter keys, as a Go map guarantees) and the same
pool spec — each run iterating the map in an arbitrary order — the
final tables are equal and success/failure agree: each datacenter's
address space and usage keys are consulted only for that datacenter,
and clusters within a datacenter are visited in their list order.
(Only the identity of the error value may depend on the order when
several datacenters fail.) -/
theorem apply_deterministic (t : Table) (p : IPAMPool)
    (e1 e2 e1' e2' : List (String × List Cluster))
    (h1 : e1.Perm t) (h2 : e2.Perm t) (h1' : e1'.Perm t) (h2' : e2'.Perm t)
    (hkeys : (t.map Prod.fst).Nodup) :
    (applyOrd e1 e2 t p).1 = (applyOrd e1' e2' t p).1 ∧
    ((applyOrd e1 e2 t p).2 = none ↔ (applyOrd e1' e2' t p).2 = none) := by
  have hp1 : e1.Perm e1' := h1.trans h1'.symm
  have hp2 : e2.Perm e2' := h2.trans h2'.symm
  obtain ⟨ciff, cok⟩ := compile_perm p e1 e1' hp1
  unfold applyOrd
  cases hc1 : compileEntries p e1 with
  | error er =>
    obtain ⟨er', hc2⟩ := ciff.mp ⟨er, hc1⟩
    simp only [hc1, hc2]
    exact ⟨trivial, by simp⟩
  | ok m0 =>
    cases hc1' : compileEntries p e1' with
    | error er' =>
      exfalso
      obtain ⟨er, her⟩ := ciff.mpr ⟨er', hc1'⟩
      rw [hc1] at her
      simp at her
    | ok m0' =>
      have hm0 := cok m0 m0' hc1 hc1'
      obtain ⟨giff, gok⟩ := gen_perm p e2 e2' hp2 m0 m0'
        ((h2.map Prod.fst).nodup_iff.mpr hkeys) hm0
      simp only [hc1, hc1']
      cases hg1 : generateNewAllocationsForPool p m0 e2 with
      | error er =>
        obtain ⟨er', hg2⟩ := giff.mp ⟨er, hg1⟩
        simp only [hg1, hg2]
        exact ⟨trivial, by simp⟩
      | ok r =>
        obtain ⟨recs, mo⟩ := r
        cases hg2 : generateNewAllocationsForPool p m0' e2' with
        | error er' =>
          exfalso
          obtain ⟨er, her⟩ := giff.mpr ⟨er', hg2⟩
          rw [hg1] at her
          simp at her
        | ok r' =>
          obtain ⟨recs', mo'⟩ := r'
          simp only [hg1, hg2]
          refine ⟨?_, by simp⟩
          show commitAllocations t recs = commitAllocations t recs'
          rw [commitAllocations_eq_filter recs t hkeys,
            commitAllocations_eq_filter recs' t hkeys]
          apply List.map_congr_left
          intro e he
          rw [gok recs mo recs' mo' hg1 hg2 e.1]

/-- Witness for C9 at a concrete instance: the two-datacenter table
`tTwo` processed in its own order and in reversed order. -/
theorem apply_deterministic_witness :
    tTwoRev.Perm tTwo ∧ (tTwo.map Prod.fst).Nodup ∧
    ((applyOrd tTwoRev tTwoRev tTwo pTwo).1 =
      (applyOrd tTwo tTwo tTwo pTwo).1 ∧
     ((applyOrd tTwoRev tTwoRev tTwo pTwo).2 = none ↔
      (applyOrd tTwo tTwo tTwo pTwo).2 = none)) :=
  ⟨by decide, by decide,
    apply_deterministic tTwo pTwo tTwoRev tTwoRev tTwo tTwo (by decide)
      (by decide) (List.Perm.refl tTwo) (List.Perm.refl tTwo) (by decide)⟩

theorem blockIPs_exit (pool : CIDR) (hpb : pool.pfxLen ≤ pool.bits)
    (hpa : pool.addr < 2 ^ pool.bits) (hp0 : 0 < pool.pfxLen) :
    pool.containsAddr pool.bits
      ((pool.network + 2 ^ (pool.bits - pool.pfxLen)) % 2 ^ pool.bits)
      = false := by
  have hS : 0 < 2 ^ (pool.bits - pool.pfxLen) :=
    Nat.pos_pow_of_pos _ (by norm_num)
  have hNW := network_add_block_le pool hpb hpa
  cases hcon : pool.containsAddr pool.bits
      ((pool.network + 2 ^ (pool.bits - pool.pfxLen)) % 2 ^ pool.bits) with
  | false => rfl
  | true =>
    exfalso
    obtain ⟨_, hm⟩ := (containsAddr_true_iff pool _ _).mp hcon
    rcases Nat.lt_or_ge (pool.network + 2 ^ (pool.bits - pool.pfxLen))
        (2 ^ pool.bits) with hlt | hge
    · rw [Nat.mod_eq_of_lt hlt, maskAddr_eq_of_dvd _ _ _
        (Nat.dvd_add (network_dvd pool) dvd_rfl)] at hm
      omega
    · have heq : pool.network + 2 ^ (pool.bits - pool.pfxLen) =
          2 ^ pool.bits := by omega
      rw [heq, Nat.mod_self] at hm
      have h0 : maskAddr pool.bits pool.pfxLen 0 = 0 := by
        unfold maskAddr
        simp
      rw [h0] at hm
      have hlt2 : 2 ^ (pool.bits - pool.pfxLen) < 2 ^ pool.bits :=
        Nat.pow_lt_pow_right (by norm_num) (by omega)
      omega

theorem candAt_exit (pool : CIDR) (sp : Nat) (hpb : pool.pfxLen ≤ pool.bits)
    (hpa : pool.addr < 2 ^ pool.bits) (hp0 : 0 < pool.pfxLen)
    (hsp1 : pool.pfxLen ≤ sp) (hsp2 : sp ≤ pool.bits) :
    pool.containsAddr (candAt pool sp (2 ^ (sp - pool.pfxLen))).bits
      (candAt pool sp (2 ^ (sp - pool.pfxLen))).addr = false := by
  show pool.containsAddr pool.bits
    ((pool.network + 2 ^ (sp - pool.pfxLen) * 2 ^ (pool.bits - sp)) %
      2 ^ pool.bits) = false
  rw [count_mul_stride pool sp hsp1 hsp2]
  exact blockIPs_exit pool hpb hpa hp0

theorem subnetSearch_pool0_diverges_aux :
    ∀ (fuel : Nat) (cand : CIDR), cand = candLo ∨ cand = candHi →
      subnetSearch "dc1" pool0 mAll fuel cand =
        .error .cannotFindFreeSubnet := by
  intro fuel
  induction fuel with
  | zero =>
    intro cand _
    rfl
  | succ fuel ih =>
    intro cand hc
    rcases hc with rfl | rfl
    · rw [subnetSearch,
        if_pos (by decide :
          pool0.containsAddr candLo.bits candLo.addr = true),
        if_pos (by decide : isUsed mAll "dc1"
          (UKey.cidr candLo.bits candLo.addr candLo.pfxLen) = true),
        (by decide : nextSubnet candLo candLo.pfxLen = candHi)]
      exact ih candHi (Or.inr rfl)
    · rw [subnetSearch,
        if_pos (by decide :
          pool0.containsAddr candHi.bits candHi.addr = true),
        if_pos (by decide : isUsed mAll "dc1"
          (UKey.cidr candHi.bits candHi.addr candHi.pfxLen) = true),
        (by decide : nextSubnet candHi candHi.pfxLen = candLo)]
      exact ih candLo (Or.inl rfl)

/-- **C6** (counterexample): the claim's all-candidates-used error is
false for the parseable pool `0.0.0.0/0`.  With both `/1` subnets
marked used, the Go candidate loop starting from the pool's masked
network address never terminates: its start candidate is `0.0.0.0/1`;
every reachable candidate is contained in the pool (the loop's
containment exit never fires) and marked used (the free-candidate
return never fires), and `nextSubnet` cycles `0.0.0.0/1 →
128.0.0.0/1 → 0.0.0.0/1` — so the program hangs instead of failing
with `cannotFindFreeSubnet`.  Accordingly, in the fuel-indexed model
no fuel budget ever makes the search return a subnet or exit by the
containment test. -/
theorem findFirstFreeSubnetOfPool_slash0_diverges :
    CIDR.mk pool0.bits (maskAddr pool0.bits 1 pool0.network) 1 = candLo ∧
    pool0.containsAddr candLo.bits candLo.addr = true ∧
    isUsed mAll "dc1" (cidrKey candLo) = true ∧
    nextSubnet candLo candLo.pfxLen = candHi ∧
    pool0.containsAddr candHi.bits candHi.addr = true ∧
    isUsed mAll "dc1" (cidrKey candHi) = true ∧
    nextSubnet candHi candHi.pfxLen = candLo ∧
    ∀ fuel, subnetSearch "dc1" pool0 mAll fuel candLo =
      .error .cannotFindFreeSubnet :=
  ⟨by decide, by decide, by decide, by decide, by decide, by decide,
    by decide,
    fun fuel => subnetSearch_pool0_diverges_aux fuel candLo (Or.inl rfl)⟩

end IPAM
